import Mathlib

/-!
# TIMS work-hours calculator: time arithmetic and reconciliation

A shallow embedding of `src/content.js`, `src/utils/timeCalculator.js` and
`src/utils/dateUtils.js`.

Conventions of the embedding.

* A JavaScript value that is "a time or nothing" is a `JSStr`: `null`,
  `undefined` or a string.  `!x` is `!x.truthy`.
* A JavaScript number is a `JSNum`: `NaN`, an exact rational, or a signed
  infinity.  Arithmetic is exact: the rounding of IEEE doubles, their overflow
  to infinity, the exponent notation of `String(n)` from `1e21` on and the
  distinction between `+0` and `-0` are not represented.  On the values the
  program handles (minutes of a day, sums of five of them) doubles are exact.
* `Number(string)` is `stringToNumber`, following the StringToNumber grammar of
  ECMAScript (white space trimmed, empty text is `0`, signed decimal literals
  with fraction and exponent, `Infinity`, `0x`/`0o`/`0b` literals, everything
  else `NaN`).
* None of the embedded functions can throw on these inputs, so they are plain
  total functions.
-/

namespace Tims

/-! ## JavaScript values -/

/-- A string-or-absent JavaScript value. -/
inductive JSStr where
  | null
  | undefined
  | str (s : String)
  deriving DecidableEq

/-- JavaScript truthiness of a string-or-absent value: only a non-empty string
is truthy. -/
def JSStr.truthy : JSStr → Bool
  | .str s => !s.data.isEmpty
  | _ => false

/-- The operator `a || b` on string-or-absent values. -/
def JSStr.or (a b : JSStr) : JSStr := if a.truthy then a else b

/-- A JavaScript number with exact finite values. -/
inductive JSNum where
  | nan
  | fin (q : ℚ)
  | inf (neg : Bool)
  deriving DecidableEq

namespace JSNum

/-- Unary minus. -/
def neg : JSNum → JSNum
  | nan => nan
  | fin q => fin (-q)
  | inf s => inf (!s)

/-- The operator `*`. -/
def mul : JSNum → JSNum → JSNum
  | nan, _ => nan
  | _, nan => nan
  | fin a, fin b => fin (a * b)
  | fin a, inf s => if a = 0 then nan else inf (xor s (decide (a < 0)))
  | inf s, fin b => if b = 0 then nan else inf (xor s (decide (b < 0)))
  | inf s, inf t => inf (xor s t)

/-- The operator `+` on numbers. -/
def add : JSNum → JSNum → JSNum
  | nan, _ => nan
  | _, nan => nan
  | fin a, fin b => fin (a + b)
  | fin _, inf s => inf s
  | inf s, fin _ => inf s
  | inf s, inf t => if s = t then inf s else nan

/-- The operator `-` on numbers. -/
def sub (a b : JSNum) : JSNum := add a (neg b)

/-- The operator `<` on numbers; any comparison with `NaN` is false. -/
def lt : JSNum → JSNum → Bool
  | nan, _ => false
  | _, nan => false
  | fin a, fin b => decide (a < b)
  | fin _, inf s => !s
  | inf s, fin _ => s
  | inf s, inf t => s && !t

/-- Truthiness of a number: `NaN` and `0` are falsy. -/
def truthy : JSNum → Bool
  | nan => false
  | fin q => decide (q ≠ 0)
  | inf _ => true

/-- The operator `a || b` on numbers. -/
def or (a b : JSNum) : JSNum := if a.truthy then a else b

/-- An integer as a JavaScript number. -/
def ofInt (z : ℤ) : JSNum := fin (z : ℚ)

end JSNum

/-! ## `Number(string)` -/

/-- White space and line terminators that StringToNumber strips. -/
def isStrWhiteSpace (c : Char) : Bool :=
  let n := c.toNat
  n = 9 || n = 10 || n = 11 || n = 12 || n = 13 || n = 32 || n = 160 ||
  n = 0x1680 || (0x2000 ≤ n && n ≤ 0x200A) || n = 0x2028 || n = 0x2029 ||
  n = 0x202F || n = 0x205F || n = 0x3000 || n = 0xFEFF

/-- Strip leading and trailing white space. -/
def trimWhiteSpace (cs : List Char) : List Char :=
  ((cs.dropWhile isStrWhiteSpace).reverse.dropWhile isStrWhiteSpace).reverse

/-- Value of a digit character in a radix up to 16, if it is one. -/
def radixDigit (base : Nat) (c : Char) : Option Nat :=
  let n := c.toNat
  let v : Option Nat :=
    if 48 ≤ n ∧ n ≤ 57 then some (n - 48)
    else if 97 ≤ n ∧ n ≤ 102 then some (n - 87)
    else if 65 ≤ n ∧ n ≤ 70 then some (n - 55)
    else none
  v.bind fun d => if d < base then some d else none

/-- Value of a run of digits in the given radix, `none` if a character is not
a digit of that radix. -/
def radixValue (base : Nat) : List Char → Nat → Option Nat
  | [], acc => some acc
  | c :: cs, acc =>
    match radixDigit base c with
    | some d => radixValue base cs (base * acc + d)
    | none => none

/-- Decimal value of a run of decimal digits. -/
def digitsValue (ds : List Char) : Nat :=
  ds.foldl (fun acc c => 10 * acc + (c.toNat - 48)) 0

/-- A non-decimal integer literal body (`0x`, `0o`, `0b` already removed). -/
def parseRadix (base : Nat) (cs : List Char) : JSNum :=
  match cs with
  | [] => .nan
  | _ =>
    match radixValue base cs 0 with
    | some v => .fin (v : ℚ)
    | none => .nan

/-- The exponent part of a decimal literal: nothing, or `e`/`E`, an optional
sign and at least one digit. -/
def parseExponent (cs : List Char) : Option ℤ :=
  match cs with
  | [] => some 0
  | c :: t =>
    if c = 'e' ∨ c = 'E' then
      let body : Bool × List Char :=
        match t with
        | '+' :: r => (false, r)
        | '-' :: r => (true, r)
        | _ => (false, t)
      if body.2 ≠ [] ∧ body.2.all Char.isDigit = true then
        some (if body.1 then -(digitsValue body.2 : ℤ) else (digitsValue body.2 : ℤ))
      else none
    else none

/-- An unsigned decimal literal of StringToNumber. -/
def parseUnsignedDecimal (cs : List Char) : JSNum :=
  if cs = "Infinity".toList then .inf false
  else
    let ip := cs.takeWhile Char.isDigit
    let r1 := cs.dropWhile Char.isDigit
    let fp := match r1 with
      | '.' :: t => t.takeWhile Char.isDigit
      | _ => []
    let r2 := match r1 with
      | '.' :: t => t.dropWhile Char.isDigit
      | _ => r1
    if ip = [] ∧ fp = [] then .nan
    else
      match parseExponent r2 with
      | none => .nan
      | some e => .fin ((digitsValue (ip ++ fp) : ℚ) * (10 : ℚ) ^ (e - (fp.length : ℤ)))

/-- The builtin `Number` applied to a string. -/
def stringToNumber (s : String) : JSNum :=
  let t := trimWhiteSpace s.toList
  match t with
  | [] => .fin 0
  | '+' :: r => parseUnsignedDecimal r
  | '-' :: r => (parseUnsignedDecimal r).neg
  | '0' :: x :: r =>
    if x = 'x' ∨ x = 'X' then parseRadix 16 r
    else if x = 'o' ∨ x = 'O' then parseRadix 8 r
    else if x = 'b' ∨ x = 'B' then parseRadix 2 r
    else parseUnsignedDecimal t
  | _ => parseUnsignedDecimal t

/-- The function `String.prototype.split` with a one-character separator, on the characters
of the string. -/
def splitChars (sep : Char) : List Char → List (List Char)
  | [] => [[]]
  | c :: cs =>
    if c = sep then [] :: splitChars sep cs
    else
      match splitChars sep cs with
      | h :: t => (c :: h) :: t
      | [] => [[c]]

/-- The call `s.split(sep)` for a one-character separator. -/
def jsSplit (sep : Char) (s : String) : List String :=
  (splitChars sep s.toList).map String.mk

/-- A destructured array element used as a number: a missing element is
`undefined`, which arithmetic converts to `NaN`. -/
def elemToNumber : Option JSNum → JSNum
  | some n => n
  | none => .nan

/-! ## Integral numbers: results of `Math.trunc` and `Math.floor` -/

/-- A JavaScript number known to be integral, `NaN` or infinite: what
`Math.trunc` and `Math.floor` return. -/
inductive JSInt where
  | nan
  | int (z : ℤ)
  | inf (neg : Bool)
  deriving DecidableEq

namespace JSInt

/-- The same number, forgetting that it is integral. -/
def toNum : JSInt → JSNum
  | nan => .nan
  | int z => .fin (z : ℚ)
  | inf s => .inf s

/-- The operator `<` on integral numbers. -/
def lt (a b : JSInt) : Bool := a.toNum.lt b.toNum

/-- The builtin `Math.abs`. -/
def abs : JSInt → JSInt
  | nan => nan
  | int z => int |z|
  | inf _ => inf false

/-- The operator `%`: the remainder has the sign of the dividend. -/
def mod : JSInt → JSInt → JSInt
  | nan, _ => nan
  | _, nan => nan
  | inf _, _ => nan
  | int a, inf _ => int a
  | int a, int b => if b = 0 then nan else int (Int.tmod a b)

/-- The conversion `String(n)` of an integral number, in plain decimals: what
JavaScript writes for an integer below `10^21` in absolute value (from there on
it writes an exponent, which is not represented). -/
def toJSString : JSInt → String
  | nan => "NaN"
  | int z => if z < 0 then "-" ++ toString z.natAbs else toString z.natAbs
  | inf s => if s then "-Infinity" else "Infinity"

end JSInt

namespace JSNum

/-- The operator `/`, as the exact quotient.  JavaScript rounds the quotient to
a double; on integers below `2^53` in absolute value divided by 60, the case of
`formatOvertime`, the floor of the rounded quotient is the floor of the exact
one (the fraction stays at least `1/60` below the next integer, more than half
the spacing of the doubles there). -/
def div : JSNum → JSNum → JSNum
  | nan, _ => nan
  | _, nan => nan
  | fin a, fin b =>
    if b = 0 then (if a = 0 then nan else inf (decide (a < 0))) else fin (a / b)
  | fin _, inf _ => fin 0
  | inf s, fin b => inf (xor s (decide (b < 0)))
  | inf _, inf _ => nan

/-- The builtin `Math.trunc`: rounding toward zero. -/
def trunc : JSNum → JSInt
  | nan => .nan
  | fin q => .int (if 0 ≤ q then ⌊q⌋ else -⌊-q⌋)
  | inf s => .inf s

/-- The builtin `Math.floor`. -/
def floor : JSNum → JSInt
  | nan => .nan
  | fin q => .int ⌊q⌋
  | inf s => .inf s

end JSNum

/-- The function `String.prototype.padStart(targetLength, fill)` on characters. -/
def padStartChars (target : Nat) (fill : List Char) (cs : List Char) : List Char :=
  if target ≤ cs.length ∨ fill = [] then cs
  else
    ((List.replicate (target - cs.length) fill).flatten.take (target - cs.length)) ++ cs

/-- The call `s.padStart(targetLength, fill)`. -/
def padStart (target : Nat) (fill : String) (s : String) : String :=
  String.mk (padStartChars target fill.toList s.toList)

/-! ## Time arithmetic of the content script (`src/content.js`) -/

namespace Content

/-- The constant `DEFAULT_WORK_HOURS`. -/
def DEFAULT_WORK_HOURS : JSNum := .fin 8

/-- The constant `DEFAULT_BREAK_TIME`. -/
def DEFAULT_BREAK_TIME : JSNum := .fin 1

/-- The function `timeToMinutes(timeStr)`. -/
def timeToMinutes (timeStr : JSStr) : JSNum :=
  match timeStr with
  | .str s =>
    if !(JSStr.str s).truthy then .fin 0
    else
      let parts := (jsSplit ':' s).map stringToNumber
      let hours := elemToNumber parts[0]?
      let minutes := elemToNumber parts[1]?
      (hours.mul (.fin 60)).add minutes
  | _ => .fin 0

/-- The function `calculateOvertime(startTime, endTime)`. -/
def calculateOvertime (startTime endTime : JSStr) : JSNum :=
  if !startTime.truthy || !endTime.truthy then .fin 0
  else
    let startMinutes := timeToMinutes startTime
    let endMinutes := timeToMinutes endTime
    let breakMinutes := DEFAULT_BREAK_TIME.mul (.fin 60)
    let workMinutes :=
      if endMinutes.lt startMinutes then
        ((((JSNum.fin 24).mul (.fin 60)).sub startMinutes).add endMinutes).sub breakMinutes
      else (endMinutes.sub startMinutes).sub breakMinutes
    let standardMinutes := DEFAULT_WORK_HOURS.mul (.fin 60)
    workMinutes.sub standardMinutes

/-- The function `formatOvertime(minutes)`: the `H:MM` rendering. -/
def formatOvertime (minutes : JSNum) : String :=
  let total := (minutes.or (.fin 0)).trunc
  let sign := if total.lt (.int 0) then "-" else ""
  let abs := total.abs
  let h := (abs.toNum.div (.fin 60)).floor
  let m := abs.mod (.int 60)
  sign ++ h.toJSString ++ ":" ++ padStart 2 "0" m.toJSString

end Content

/-! ## Time arithmetic of `src/utils/timeCalculator.js` -/

namespace TimeCalculator

/-- The constant `DEFAULT_WORK_HOURS`. -/
def DEFAULT_WORK_HOURS : JSNum := .fin 8

/-- The constant `DEFAULT_BREAK_TIME`. -/
def DEFAULT_BREAK_TIME : JSNum := .fin 1

/-- The function `timeToMinutes(timeStr)`. -/
def timeToMinutes (timeStr : JSStr) : JSNum :=
  match timeStr with
  | .str s =>
    if !(JSStr.str s).truthy then .fin 0
    else
      let parts := (jsSplit ':' s).map stringToNumber
      let hours := elemToNumber parts[0]?
      let minutes := elemToNumber parts[1]?
      (hours.mul (.fin 60)).add minutes
  | _ => .fin 0

/-- The function `calculateWorkMinutes(startTime, endTime, breakTime)`. -/
def calculateWorkMinutes (startTime endTime : JSStr)
    (breakTime : JSNum := DEFAULT_BREAK_TIME) : JSNum :=
  if !startTime.truthy || !endTime.truthy then .fin 0
  else
    let startMinutes := timeToMinutes startTime
    let endMinutes := timeToMinutes endTime
    let breakMinutes := breakTime.mul (.fin 60)
    if endMinutes.lt startMinutes then
      ((((JSNum.fin 24).mul (.fin 60)).sub startMinutes).add endMinutes).sub breakMinutes
    else (endMinutes.sub startMinutes).sub breakMinutes

/-- The function `calculateOvertime(startTime, endTime, standardHours, breakTime)`. -/
def calculateOvertime (startTime endTime : JSStr)
    (standardHours : JSNum := DEFAULT_WORK_HOURS)
    (breakTime : JSNum := DEFAULT_BREAK_TIME) : JSNum :=
  let workMinutes := calculateWorkMinutes startTime endTime breakTime
  let standardMinutes := standardHours.mul (.fin 60)
  workMinutes.sub standardMinutes

end TimeCalculator

/-! ## Reconciliation (`main` of `src/content.js`)

A `Date` is a local calendar day and the milliseconds elapsed since its
midnight.  The clock is read once per run (`now`); daylight-saving shifts are
not represented.  The outcome of `fetchAttendanceData` followed by
`parseTimesFromHTML` for a day is an `ApiOutcome`; the lookups a day makes are
recorded next to the record it resolves to. -/

/-- A JavaScript `Date` in local time. -/
structure JSDate where
  day : ℤ
  msOfDay : ℕ
  deriving DecidableEq

/-- The call `date.getTime()` on the local time line. -/
def JSDate.getTime (d : JSDate) : ℤ := d.day * 86400000 + (d.msOfDay : ℤ)

/-- The call `date.setHours(0, 0, 0, 0)`. -/
def JSDate.setHoursZero (d : JSDate) : JSDate := { d with msOfDay := 0 }

/-- The function `isFutureDate(date)`, the clock reading `now`. -/
def isFutureDate (now date : JSDate) : Bool :=
  let today := now.setHoursZero
  let checkDate := date.setHoursZero
  decide (today.getTime < checkDate.getTime)

/-- The function `isToday(date)`, the clock reading `now`. -/
def isToday (now date : JSDate) : Bool :=
  let today := now.setHoursZero
  let checkDate := date.setHoursZero
  decide (checkDate.getTime = today.getTime)

/-- A persisted entry `{ startTime, endTime }`. -/
structure TimeEntry where
  startTime : JSStr
  endTime : JSStr
  deriving DecidableEq

/-- The persisted mapping `timeData`, from `dateKey` to entry; `none` is a
missing key. -/
abbrev TimeStore := String → Option TimeEntry

/-- The expression `saved?.startTime`. -/
def savedStartTime : Option TimeEntry → JSStr
  | some e => e.startTime
  | none => .undefined

/-- The expression `saved?.endTime`. -/
def savedEndTime : Option TimeEntry → JSStr
  | some e => e.endTime
  | none => .undefined

/-- The object `parseTimesFromHTML` returns: the structured path sets every
field, the fallback path leaves `inTimes`, `outTimes` and `lastEventIsOut`
undefined (`none`). -/
structure ParsedTimes where
  startTime : JSStr
  endTime : JSStr
  inTimes : Option (List String)
  outTimes : Option (List String)
  lastEventIsOut : Option Bool
  deriving DecidableEq

/-- The expression `times?.startTime`, `times` being the parse result or `null`. -/
def timesStartTime : Option ParsedTimes → JSStr
  | some t => t.startTime
  | none => .undefined

/-- The expression `times?.endTime`. -/
def timesEndTime : Option ParsedTimes → JSStr
  | some t => t.endTime
  | none => .undefined

/-- The expression `times?.lastEventIsOut === true`. -/
def timesLastOut : Option ParsedTimes → Bool
  | some t => t.lastEventIsOut == some true
  | none => false

/-- One record of the week; `lastEventIsOut` is `none` while the property is
not set. -/
structure DayRecord where
  dateKey : String
  date : JSDate
  startTime : JSStr
  endTime : JSStr
  lastEventIsOut : Option Bool
  deriving DecidableEq

/-- What the lookup of one day comes to: `fetchAttendanceData` threw, or the
response was parsed to `times` (possibly `null`). -/
inductive ApiOutcome where
  | failed
  | parsed (times : Option ParsedTimes)
  deriving DecidableEq

/-- The callback of `weeklyData.map` in `main`: the reconciled record of one
day, and the `dateKey`s it looked up through the API. -/
def dataPromise (now : JSDate) (savedData : TimeStore) (lookup : String → ApiOutcome)
    (dayData : DayRecord) : DayRecord × List String :=
  if dayData.startTime.truthy && dayData.endTime.truthy then (dayData, [])
  else if isFutureDate now dayData.date then
    let saved := savedData dayData.dateKey
    let d1 := { dayData with
      startTime := (dayData.startTime.or (savedStartTime saved)).or (.str "09:00") }
    let d2 := { d1 with endTime := (d1.endTime.or (savedEndTime saved)).or (.str "18:00") }
    (d2, [])
  else
    match lookup dayData.dateKey with
    | .failed => (dayData, [dayData.dateKey])
    | .parsed times =>
      let todayFlag := isToday now dayData.date
      let d1 :=
        if !dayData.startTime.truthy && (timesStartTime times).truthy then
          { dayData with startTime := timesStartTime times }
        else dayData
      let d2 :=
        if todayFlag then
          let lastOut := timesLastOut times
          let d := { d1 with lastEventIsOut := some lastOut }
          if !d.endTime.truthy && lastOut && (timesEndTime times).truthy then
            { d with endTime := timesEndTime times }
          else if !d.endTime.truthy then { d with endTime := .null }
          else d
        else if !d1.endTime.truthy && (timesEndTime times).truthy then
          { d1 with endTime := timesEndTime times }
        else d1
      (d2, [dayData.dateKey])

/-- The records `Promise.all(dataPromises)` resolves to. -/
def dataPromises (now : JSDate) (savedData : TimeStore) (lookup : String → ApiOutcome)
    (weeklyData : List DayRecord) : List DayRecord :=
  weeklyData.map fun dayData => (dataPromise now savedData lookup dayData).1

/-! ## Vocabulary of the specification -/

/-- A valid 24-hour clock string `HH:MM`: five characters, a two-digit hour in
`00..23`, a colon, a two-digit minute in `00..59`. -/
def isClockString (s : String) : Bool :=
  match s.toList with
  | [a, b, c, d, e] =>
    a.isDigit && b.isDigit && c == ':' && d.isDigit && e.isDigit &&
      decide (10 * (a.toNat - 48) + (b.toNat - 48) ≤ 23) &&
      decide (10 * (d.toNat - 48) + (e.toNat - 48) ≤ 59)
  | _ => false

/-- The hour written in a clock string. -/
def clockHour (s : String) : ℕ :=
  match s.toList with
  | a :: b :: _ => 10 * (a.toNat - 48) + (b.toNat - 48)
  | _ => 0

/-- The minute written in a clock string. -/
def clockMinute (s : String) : ℕ :=
  match s.toList with
  | _ :: _ :: _ :: d :: e :: _ => 10 * (d.toNat - 48) + (e.toNat - 48)
  | _ => 0

/-- Minutes since midnight of a clock string. -/
def minuteOfDay (s : String) : ℤ := 60 * (clockHour s : ℤ) + (clockMinute s : ℤ)

/-- The span of a shift in minutes, with the wrap rule: a day is added exactly
when the end is strictly smaller than the start. -/
def shiftSpan (start stop : String) : ℤ :=
  if minuteOfDay stop < minuteOfDay start then
    minuteOfDay stop - minuteOfDay start + 1440
  else minuteOfDay stop - minuteOfDay start

/-- A number below one hundred written with two digits. -/
def twoDigits (n : ℕ) : String := if n < 10 then "0" ++ toString n else toString n

/-- The `H:MM` rendering the specification describes for an integer number of
minutes. -/
def renderHMM (m : ℤ) : String :=
  (if m < 0 then "-" else "") ++ toString (m.natAbs / 60) ++ ":" ++ twoDigits (m.natAbs % 60)

/-- The clock pattern `/(\d{1,2}):(\d{2})/` of `normalizeTime` and `extractHHMM`
finds a match somewhere in the text: a digit, a colon and two digits in a row
(a second digit before the colon changes nothing to whether a match exists). -/
def matchesClockPattern : List Char → Bool
  | a :: b :: c :: d :: t =>
    (a.isDigit && b == ':' && c.isDigit && d.isDigit) || matchesClockPattern (b :: c :: d :: t)
  | _ => false

/-- The value of a field of a future day as the specification gives it: the
table value if present, else the persisted value if there is an entry for the
key and its value is present, else the default. -/
def futureFill (tableValue : JSStr) (persisted : Option JSStr) (default : String) : JSStr :=
  if tableValue.truthy = true then tableValue
  else
    match persisted with
    | some p => if p.truthy = true then p else .str default
    | none => .str default

/-! ## Sample data -/

/-- A clock reading: day 20243 of the local calendar, 10:30 in the morning. -/
def sampleNow : JSDate := ⟨20243, 37800000⟩

/-- A record of the table for the given day, with the given times. -/
def sampleRecord (day : ℤ) (startTime endTime : JSStr) : DayRecord :=
  ⟨"20250604", ⟨day, 0⟩, startTime, endTime, none⟩

/-- A parse result of the fallback path: two times, nothing known of the last
event. -/
def sampleFallback : ParsedTimes := ⟨.str "09:05", .str "17:30", none, none, none⟩

/-- A parse result of the structured path whose last event is an OUT. -/
def sampleStructuredOut : ParsedTimes :=
  ⟨.str "09:05", .str "18:40", some ["09:05"], some ["18:40"], some true⟩

/-- An empty persisted mapping. -/
def emptyStore : TimeStore := fun _ => none

/-- A lookup in which the days selected by `failed` throw (the fetch rejects or
answers with a status outside 2xx) and the others answer as `lookup` does. -/
def failLookups (failed : String → Bool) (lookup : String → ApiOutcome) : String → ApiOutcome :=
  fun dateKey => if failed dateKey then .failed else lookup dateKey

/-- A structured parse result that would fill both fields. -/
def sampleOtherTimes : ParsedTimes :=
  ⟨.str "08:00", .str "20:00", some ["08:00"], some ["20:00"], some true⟩

/-- A persisted mapping that holds an entry for every key. -/
def sampleFullStore : TimeStore := fun _ => some ⟨.str "07:00", .str "21:00"⟩

/-- A week of five records of the table, Monday first, `sampleNow` being its
Wednesday: two complete rows, a row with only an end time, an empty past row
and an empty future row. -/
def sampleWeek : List DayRecord :=
  [⟨"20250602", ⟨20241, 0⟩, .str "09:00", .str "18:00", none⟩,
   ⟨"20250603", ⟨20242, 0⟩, .null, .str "18:10", none⟩,
   ⟨"20250604", ⟨20243, 0⟩, .str "08:55", .null, none⟩,
   ⟨"20250605", ⟨20244, 0⟩, .null, .null, none⟩,
   ⟨"20250606", ⟨20245, 0⟩, .null, .null, none⟩]

/-! ## Weekly total and rendering (`renderTotalRow`, `injectColumn`) -/

/-- The state `renderTotalRow` runs in: the record objects of the week and the
persisted mapping, both shared with the caller, and the text and colour of the
total cell of the table (empty while there is no total row). -/
structure TotalRowState where
  weeklyData : List DayRecord
  savedData : TimeStore
  totalText : String
  totalColor : String

/-- One call of the callback of `weeklyData.reduce` in `renderTotalRow`, on the
record at position `i` of the week: the state after the call and the sum it
returns.  The statements of the callback assign to its locals
`effectiveStart`, `effectiveEnd`, `saved` and `overtime`; none assigns to a
property of `day` or of `savedData`. -/
def totalCallback (now : JSDate) (state : TotalRowState) (sum : JSNum) (i : ℕ) :
    TotalRowState × JSNum :=
  match state.weeklyData[i]? with
  | none => (state, sum)
  | some day =>
    let effectiveStart := day.startTime.or .null
    let effectiveEnd := day.endTime.or .null
    let effectiveEnd :=
      if !effectiveEnd.truthy && isToday now day.date then
        let saved := state.savedData day.dateKey
        if (savedEndTime saved).truthy then savedEndTime saved else .str "18:00"
      else effectiveEnd
    let overtime := Content.calculateOvertime effectiveStart effectiveEnd
    (state, sum.add (overtime.or (.fin 0)))

/-- The call `weeklyData.reduce(callback, 0)` of `renderTotalRow`: the callback
runs on the positions of the week in order, each call in the state the
previous one left. -/
def totalReduce (now : JSDate) (state : TotalRowState) : TotalRowState × JSNum :=
  (List.range state.weeklyData.length).foldl
    (fun acc i => totalCallback now acc.1 acc.2 i) (state, .fin 0)

/-- The value `totalOvertime` of `renderTotalRow`. -/
def totalOvertime (now : JSDate) (savedData : TimeStore) (weeklyData : List DayRecord) : JSNum :=
  (totalReduce now ⟨weeklyData, savedData, "", ""⟩).2

/-- The function `renderTotalRow(table, weeklyData, savedData)`: the state it
leaves, the total row appended. -/
def renderTotalRow (now : JSDate) (weeklyData : List DayRecord) (savedData : TimeStore) :
    TotalRowState :=
  let run := totalReduce now ⟨weeklyData, savedData, "", ""⟩
  let totalOvertime := run.2
  { run.1 with
    totalText := Content.formatOvertime totalOvertime
    totalColor :=
      if (JSNum.fin 0).lt totalOvertime then "#28a745"
      else if totalOvertime.lt (.fin 0) then "#dc3545" else "" }

/-- The four branches of the cell rendering in `injectColumn`. -/
inductive RenderBranch where
  | future
  | todayConfirmed
  | todayPending
  | past
  deriving DecidableEq

/-- The three cell renderers. -/
inductive CellRenderer where
  | renderFutureCell
  | renderTodayCell
  | renderPastCell
  deriving DecidableEq

/-- The branch `injectColumn` takes for a record whose row was found. -/
def renderBranch (now : JSDate) (dayData : DayRecord) : RenderBranch :=
  let isFuture := isFutureDate now dayData.date
  let todayFlag := isToday now dayData.date
  if isFuture then .future
  else if todayFlag then
    if dayData.lastEventIsOut == some true && dayData.endTime.truthy then .todayConfirmed
    else .todayPending
  else .past

/-- The renderer each branch calls. -/
def branchRenderer : RenderBranch → CellRenderer
  | .future => .renderFutureCell
  | .todayConfirmed => .renderPastCell
  | .todayPending => .renderTodayCell
  | .past => .renderPastCell

/-- One turn of the loop of `injectColumn`: a record whose row is not in the
table is skipped, another takes its branch. -/
def injectColumnDay (now : JSDate) (rowFound : Bool) (dayData : DayRecord) :
    Option RenderBranch :=
  if !rowFound then none else some (renderBranch now dayData)

/-! ## Employee number in script text (`findEmpNoFromPageScripts`) -/

/-- The property `length` of a JavaScript string: its UTF-16 code units. -/
def jsLength (s : String) : ℕ :=
  (s.toList.map fun c => if c.toNat < 65536 then 1 else 2).sum

/-- The result of `Array.prototype.find` as a value. -/
def foundOrUndefined : Option String → JSStr
  | some s => .str s
  | none => .undefined

/-- The element `allNums[0]` as a value. -/
def firstOrUndefined : List String → JSStr
  | s :: _ => .str s
  | [] => .undefined

/-- The third step of `findEmpNoFromPageScripts` on the quoted numeric tokens
`allNums` of a script text: the value returned, `none` when the loop goes on. -/
def pickGenericEmpNo (allNums : List String) : Option String :=
  if allNums.length = 0 then none
  else
    let pick := (foundOrUndefined (allNums.find? fun n => jsLength n != 8)).or
      (firstOrUndefined allNums)
    match pick with
    | .str s => if pick.truthy then some s else none
    | _ => none

/-! ## Vocabulary of the weekly total -/

/-- The end time the specification counts for a day in the weekly total: the
record's own when present; else, for today, the end time of the entry persisted
under the record's key when there is one and it is present, and `18:00`
otherwise; else none. -/
def specEffectiveEnd (now : JSDate) (savedData : TimeStore) (day : DayRecord) : JSStr :=
  if day.endTime.truthy = true then day.endTime
  else if day.date.day = now.day then
    match savedData day.dateKey with
    | some entry => if entry.endTime.truthy = true then entry.endTime else .str "18:00"
    | none => .str "18:00"
  else .null

/-- The plain sum of `calculateOvertime` over the days of a week, the end time
being the one the specification counts. -/
def plainOvertimeSum (now : JSDate) (savedData : TimeStore) (weeklyData : List DayRecord) :
    JSNum :=
  (weeklyData.map fun day =>
    Content.calculateOvertime day.startTime (specEffectiveEnd now savedData day)).foldl
    JSNum.add (.fin 0)

/-- The sum of `calculateOvertime` over the days of a week in which an overtime
that is `NaN` (or zero) counts as 0. -/
def guardedOvertimeSum (now : JSDate) (savedData : TimeStore) (weeklyData : List DayRecord) :
    JSNum :=
  (weeklyData.map fun day =>
    (Content.calculateOvertime day.startTime (specEffectiveEnd now savedData day)).or
      (.fin 0)).foldl JSNum.add (.fin 0)

/-- A week of five reconciled records, `sampleNow` being its Wednesday: an hour
of overtime on Monday, an exact Tuesday, today without end time, two future
days without times. -/
def sampleWeekLate : List DayRecord :=
  [⟨"20250602", ⟨20241, 0⟩, .str "09:00", .str "19:00", none⟩,
   ⟨"20250603", ⟨20242, 0⟩, .str "09:00", .str "18:00", none⟩,
   ⟨"20250604", ⟨20243, 0⟩, .str "09:00", .null, some false⟩,
   ⟨"20250605", ⟨20244, 0⟩, .null, .null, none⟩,
   ⟨"20250606", ⟨20245, 0⟩, .null, .null, none⟩]

/-! ## Extraction from an HTML fragment (`normalizeTime`, `parseTimesFromHTML`)

The document that `DOMParser` builds from the fragment is taken as given: a
fragment is its text together with the table `#resultTable` of that document,
if there is one, seen as the texts of its header cells and, row by row, of its
`td` cells. -/

/-- A match of the clock pattern `\d{1,2}:\d{2}` starting at the head of the
text: the hour digits, the minute digits and the text after the match.  Two
hour digits are tried first. -/
def matchClockAt : List Char → Option (List Char × List Char × List Char)
  | a :: b :: c :: d :: e :: rest =>
    if a.isDigit && b.isDigit && c == ':' && d.isDigit && e.isDigit then
      some ([a, b], [d, e], rest)
    else if a.isDigit && b == ':' && c.isDigit && d.isDigit then some ([a], [c, d], e :: rest)
    else none
  | [a, b, c, d] =>
    if a.isDigit && b == ':' && c.isDigit && d.isDigit then some ([a], [c, d], []) else none
  | _ => none

/-- The leftmost match of the clock pattern in a text: `text.match(/(\d{1,2}):(\d{2})/)`,
as hour and minute digits. -/
def firstClockMatch : List Char → Option (List Char × List Char)
  | [] => none
  | a :: t =>
    match matchClockAt (a :: t) with
    | some (h, m, _) => some (h, m)
    | none => firstClockMatch t

/-- All matches of the clock pattern from left to right, a match being
searched from the end of the previous one: `text.match(/(\d{1,2}:\d{2})/g)`.
The first argument counts the characters of a match still to be passed. -/
def allClockMatches : ℕ → List Char → List (List Char)
  | _, [] => []
  | skip + 1, _ :: t => allClockMatches skip t
  | 0, a :: t =>
    match matchClockAt (a :: t) with
    | some (h, m, _) => (h ++ ':' :: m) :: allClockMatches (h.length + 2) t
    | none => allClockMatches 0 t

/-- The function `normalizeTime(timeStr)`. -/
def normalizeTime (timeStr : String) : String :=
  match firstClockMatch timeStr.toList with
  | none => ""
  | some (h, m) => padStart 2 "0" (String.mk h) ++ ":" ++ padStart 2 "0" (String.mk m)

/-- The call `s.trim()`. -/
def jsTrim (s : String) : String := String.mk (trimWhiteSpace s.toList)

/-- The call `s.includes(sub)` on characters. -/
def includesChars (sub : List Char) : List Char → Bool
  | [] => sub.isEmpty
  | c :: t => sub.isPrefixOf (c :: t) || includesChars sub t

/-- The call `s.includes(sub)`. -/
def jsIncludes (s sub : String) : Bool := includesChars sub.toList s.toList

/-- The canonical form of a character under the flag `i`: ASCII letters in
upper case (a character outside ASCII never matches an ASCII one). -/
def asciiUpper (c : Char) : Char :=
  if 97 ≤ c.toNat ∧ c.toNat ≤ 122 then Char.ofNat (c.toNat - 32) else c

/-- The test of a text against a literal pattern under the flag `i`, the
pattern given in upper case. -/
def testIgnoreCase (upperPattern : String) (text : String) : Bool :=
  includesChars upperPattern.toList (text.toList.map asciiUpper)

/-- The table `#resultTable` of the parsed document: the texts of the header
cells the selector finds, and the texts of the `td` cells of every `tr`, the
header row included. -/
structure ResultTable where
  headerCells : List String
  rows : List (List String)
  deriving DecidableEq

/-- An HTML fragment: its text and the result table of its document. -/
structure HtmlFragment where
  html : String
  resultTable : Option ResultTable
  deriving DecidableEq

/-- The index of the first element that satisfies `p`. -/
def firstIndex {α : Type} (p : α → Bool) : List α → Option ℕ
  | [] => none
  | a :: t => if p a then some 0 else (firstIndex p t).map (· + 1)

/-- The helper `getIndex(labels)`: the first header cell whose trimmed text
includes one of the labels; `none` is the index `-1`. -/
def getIndex (headerCells : List String) (labels : List String) : Option ℕ :=
  firstIndex (fun c => labels.any fun l => jsIncludes (jsTrim c) l) headerCells

/-- The text `(cells[idx]?.textContent || '').trim()`. -/
def cellText (cells : List String) (idx : Option ℕ) : String :=
  match idx with
  | none => jsTrim ""
  | some i => jsTrim (cells[i]?.getD "")

/-- The two event types. -/
inductive EventType where
  | evIn
  | evOut
  deriving DecidableEq

/-- The variables the loop over the rows updates. -/
structure RowScan where
  inTimes : List String
  outTimes : List String
  lastEventType : Option EventType
  deriving DecidableEq

/-- The time a row carries: `normalizeTime` of the first match of the clock
pattern in the time cell, the empty string without match. -/
def rowTime (idxTime : Option ℕ) (cells : List String) : String :=
  match firstClockMatch (cellText cells idxTime).toList with
  | some (h, m) => normalizeTime (String.mk (h ++ ':' :: m))
  | none => ""

/-- The test `isIn` of a row. -/
def rowIsIn (idxEvent idxDevice : Option ℕ) (cells : List String) : Bool :=
  jsIncludes (cellText cells idxEvent) "출근" || testIgnoreCase "[IN]" (cellText cells idxDevice)

/-- The test `isOut` of a row. -/
def rowIsOut (idxEvent idxDevice : Option ℕ) (cells : List String) : Bool :=
  jsIncludes (cellText cells idxEvent) "퇴근" || testIgnoreCase "[OUT]" (cellText cells idxDevice)

/-- One turn of the loop over the data rows. -/
def scanRow (idxTime idxEvent idxDevice : Option ℕ) (acc : RowScan) (cells : List String) :
    RowScan :=
  if cells.length = 0 then acc
  else
    let hhmm := rowTime idxTime cells
    if hhmm.data.isEmpty then acc
    else
      let isIn := rowIsIn idxEvent idxDevice cells
      let isOut := rowIsOut idxEvent idxDevice cells
      let acc1 := if isIn then { acc with inTimes := acc.inTimes ++ [hhmm] } else acc
      let acc2 := if isOut then { acc1 with outTimes := acc1.outTimes ++ [hhmm] } else acc1
      let acc3 := if isIn then { acc2 with lastEventType := some .evIn } else acc2
      if isOut then { acc3 with lastEventType := some .evOut } else acc3

/-- The loop over the rows of the table after the header row. -/
def scanRows (table : ResultTable) : RowScan :=
  let idxTime := getIndex table.headerCells ["태그시각"]
  let idxEvent := getIndex table.headerCells ["이벤트구분"]
  let idxDevice := getIndex table.headerCells ["기기명"]
  (table.rows.drop 1).foldl (scanRow idxTime idxEvent idxDevice) ⟨[], [], none⟩

/-- The UTF-16 code units of a character. -/
def utf16Units (c : Char) : List ℕ :=
  if c.toNat < 65536 then [c.toNat]
  else [55296 + (c.toNat - 65536) / 1024, 56320 + (c.toNat - 65536) % 1024]

/-- The order of code-unit sequences that the default `sort` compares by. -/
def unitsLe : List ℕ → List ℕ → Bool
  | [], _ => true
  | _ :: _, [] => false
  | x :: xs, y :: ys => decide (x < y) || (x == y && unitsLe xs ys)

/-- The order of strings under the default `sort`. -/
def jsStringLe (a b : String) : Bool :=
  unitsLe (a.toList.flatMap utf16Units) (b.toList.flatMap utf16Units)

/-- The call `array.sort()` on an array of strings. -/
def jsSort (xs : List String) : List String :=
  xs.insertionSort fun a b => jsStringLe a b = true

/-- An array element as a value: `undefined` beyond the end. -/
def elemOrUndefined : Option String → JSStr
  | some s => .str s
  | none => .undefined

/-- The structured path of `parseTimesFromHTML` on the result table: the object
returned, `none` when the path falls through to the fallback. -/
def structuredTimes (table : ResultTable) : Option ParsedTimes :=
  let scan := scanRows table
  let inTimes := if scan.inTimes.length ≠ 0 then jsSort scan.inTimes else scan.inTimes
  let outTimes := if scan.outTimes.length ≠ 0 then jsSort scan.outTimes else scan.outTimes
  let startTime := if scan.inTimes.length ≠ 0 then elemOrUndefined inTimes[0]? else .null
  let endTime :=
    if scan.outTimes.length ≠ 0 then elemOrUndefined outTimes[outTimes.length - 1]? else .null
  let lastEventIsOut := scan.lastEventType == some .evOut
  if startTime.truthy || endTime.truthy then
    some ⟨startTime, endTime, some inTimes, some outTimes, some lastEventIsOut⟩
  else none

/-- The fallback path of `parseTimesFromHTML` on the text of the fragment. -/
def fallbackTimes (html : String) : Option ParsedTimes :=
  let times := ((allClockMatches 0 html.toList).map fun m => normalizeTime (String.mk m)).filter
    fun t => (JSStr.str t).truthy
  if 1 ≤ times.length then
    let startTime := (elemOrUndefined times[0]?).or .null
    let endTime := if 2 ≤ times.length then elemOrUndefined times[times.length - 1]? else .null
    some ⟨startTime, endTime, none, none, none⟩
  else none

/-- The function `parseTimesFromHTML(html)`. -/
def parseTimesFromHTML (frag : HtmlFragment) : Option ParsedTimes :=
  match frag.resultTable.bind structuredTimes with
  | some times => some times
  | none => fallbackTimes frag.html

/-- A result table with the three labelled columns, an IN row at `09:05` and
an OUT row at `18:40`, the OUT row last. -/
def sampleTable : ResultTable :=
  { headerCells := ["태그시각", "이벤트구분", "기기명"]
    rows := [["태그시각", "이벤트구분", "기기명"],
      ["2025.06.04 09:05:12", "출근", "본관 1층 [IN]"],
      ["2025.06.04 18:40:03", "퇴근", "본관 1층 [OUT]"]] }

/-- The same table with the newest row first. -/
def sampleTableNewestFirst : ResultTable :=
  { headerCells := ["태그시각", "이벤트구분", "기기명"]
    rows := [["태그시각", "이벤트구분", "기기명"],
      ["2025.06.04 18:40:03", "퇴근", "본관 1층 [OUT]"],
      ["2025.06.04 09:05:12", "출근", "본관 1층 [IN]"]] }

/-! ## Vocabulary of the extraction -/

/-- The occurrences of `H:MM` or `HH:MM` in a text, from left to right. -/
def clockOccurrences (html : String) : List String :=
  (allClockMatches 0 html.toList).map String.mk

/-- An occurrence written with a two-digit hour. -/
def zeroPadTime (m : String) : String := if m.length = 4 then "0" ++ m else m

/-- The result the specification gives for the fallback path: the first
occurrence as start time, the last as end time when there are at least two,
nothing known of the last event; `none` without occurrence. -/
def firstAndLast : List String → Option ParsedTimes
  | [] => none
  | [a] => some ⟨.str a, .null, none, none, none⟩
  | a :: b :: rest => some ⟨.str a, .str ((b :: rest).getLastD b), none, none, none⟩

/-- A time written `dd:dd`, whatever the digits. -/
def isPaddedTime (s : String) : Bool :=
  match s.toList with
  | [a, b, c, d, e] => a.isDigit && b.isDigit && c == ':' && d.isDigit && e.isDigit
  | _ => false

/-- The two shapes of the text of a match. -/
def IsMatchText (x : List Char) : Prop :=
  (∃ a d e, x = [a, ':', d, e] ∧ a.isDigit = true ∧ d.isDigit = true ∧ e.isDigit = true) ∨
    (∃ a b d e, x = [a, b, ':', d, e] ∧ a.isDigit = true ∧ b.isDigit = true ∧
      d.isDigit = true ∧ e.isDigit = true)

/-! ## The days of the week (`getWeekDays`, `formatDateYYYYMMDD`)

The calendar of `Date` follows ECMAScript: day 0 is 1 January 1970, a
Thursday; the year of a day is the last one that starts on or before it. -/

/-- The day number of 1 January of a year (`DayFromYear`). -/
def dayFromYear (y : ℤ) : ℤ :=
  365 * (y - 1970) + (y - 1969) / 4 - (y - 1901) / 100 + (y - 1601) / 400

/-- The year of a day number (`YearFromTime`): the estimate from the mean
length of a year is off by at most one. -/
def yearFromDay (n : ℤ) : ℤ :=
  let y0 := 1970 + (400 * n) / 146097
  if dayFromYear (y0 + 1) ≤ n then y0 + 1
  else if dayFromYear y0 ≤ n then y0
  else y0 - 1

/-- One for a leap year, zero otherwise (`InLeapYear`). -/
def inLeapYear (y : ℤ) : ℤ :=
  if (y % 4 = 0 ∧ y % 100 ≠ 0) ∨ y % 400 = 0 then 1 else 0

/-- The month, from 0, of a day within the year (`MonthFromTime`). -/
def monthFromDay (dayWithinYear leap : ℤ) : ℤ :=
  if dayWithinYear < 31 then 0
  else if dayWithinYear < 59 + leap then 1
  else if dayWithinYear < 90 + leap then 2
  else if dayWithinYear < 120 + leap then 3
  else if dayWithinYear < 151 + leap then 4
  else if dayWithinYear < 181 + leap then 5
  else if dayWithinYear < 212 + leap then 6
  else if dayWithinYear < 243 + leap then 7
  else if dayWithinYear < 273 + leap then 8
  else if dayWithinYear < 304 + leap then 9
  else if dayWithinYear < 334 + leap then 10
  else 11

/-- The day of the month of a day within the year (`DateFromTime`). -/
def dateFromDay (dayWithinYear leap : ℤ) : ℤ :=
  if dayWithinYear < 31 then dayWithinYear + 1
  else if dayWithinYear < 59 + leap then dayWithinYear - 30
  else if dayWithinYear < 90 + leap then dayWithinYear - 58 - leap
  else if dayWithinYear < 120 + leap then dayWithinYear - 89 - leap
  else if dayWithinYear < 151 + leap then dayWithinYear - 119 - leap
  else if dayWithinYear < 181 + leap then dayWithinYear - 150 - leap
  else if dayWithinYear < 212 + leap then dayWithinYear - 180 - leap
  else if dayWithinYear < 243 + leap then dayWithinYear - 211 - leap
  else if dayWithinYear < 273 + leap then dayWithinYear - 242 - leap
  else if dayWithinYear < 304 + leap then dayWithinYear - 272 - leap
  else if dayWithinYear < 334 + leap then dayWithinYear - 303 - leap
  else dayWithinYear - 333 - leap

/-- The call `date.getFullYear()`. -/
def JSDate.getFullYear (d : JSDate) : ℤ := yearFromDay d.day

/-- The day of a date within its year. -/
def JSDate.dayWithinYear (d : JSDate) : ℤ := d.day - dayFromYear d.getFullYear

/-- The call `date.getMonth()`. -/
def JSDate.getMonth (d : JSDate) : ℤ := monthFromDay d.dayWithinYear (inLeapYear d.getFullYear)

/-- The call `date.getDate()`. -/
def JSDate.getDate (d : JSDate) : ℤ := dateFromDay d.dayWithinYear (inLeapYear d.getFullYear)

/-- The call `date.getDay()`: 0 is Sunday. -/
def JSDate.getDay (d : JSDate) : ℤ := (d.day + 4) % 7

/-- The call `date.setDate(n)`: day `n` of the month of the date, counted on
from the first of the month, the time of the day kept. -/
def JSDate.setDate (d : JSDate) (n : ℤ) : JSDate := { d with day := d.day - d.getDate + n }

/-- The function `getWeekDays()` of the content script, the clock reading
`today`. -/
def getWeekDays (today : JSDate) : List JSDate :=
  let dayOfWeek := today.getDay
  let monday := today
  let daysToMonday : ℤ := if dayOfWeek = 0 then -6 else 1 - dayOfWeek
  let monday := monday.setDate (today.getDate + daysToMonday)
  (List.range 5).map fun i : ℕ =>
    let date := monday
    date.setDate (monday.getDate + (i : ℤ))

/-- The function `formatDateYYYYMMDD(date)` of the content script. -/
def formatDateYYYYMMDD (date : JSDate) : String :=
  let year := date.getFullYear
  let month := padStart 2 "0" (JSInt.int (date.getMonth + 1)).toJSString
  let day := padStart 2 "0" (JSInt.int date.getDate).toJSString
  (JSInt.int year).toJSString ++ month ++ day

namespace DateUtils

/-- The function `getWeekDays()` of `src/utils/dateUtils.js`. -/
def getWeekDays (today : JSDate) : List JSDate :=
  let dayOfWeek := today.getDay
  let monday := today
  let daysToMonday : ℤ := if dayOfWeek = 0 then -6 else 1 - dayOfWeek
  let monday := monday.setDate (today.getDate + daysToMonday)
  (List.range 5).map fun i : ℕ =>
    let date := monday
    date.setDate (monday.getDate + (i : ℤ))

/-- The function `formatDateYYYYMMDD(date)` of `src/utils/dateUtils.js`. -/
def formatDateYYYYMMDD (date : JSDate) : String :=
  let year := date.getFullYear
  let month := padStart 2 "0" (JSInt.int (date.getMonth + 1)).toJSString
  let day := padStart 2 "0" (JSInt.int date.getDate).toJSString
  (JSInt.int year).toJSString ++ month ++ day

end DateUtils

/-- The day within the year on which a month starts. -/
def monthOffset (month leap : ℤ) : ℤ :=
  if month = 0 then 0
  else if month = 1 then 31
  else if month = 2 then 59 + leap
  else if month = 3 then 90 + leap
  else if month = 4 then 120 + leap
  else if month = 5 then 151 + leap
  else if month = 6 then 181 + leap
  else if month = 7 then 212 + leap
  else if month = 8 then 243 + leap
  else if month = 9 then 273 + leap
  else if month = 10 then 304 + leap
  else 334 + leap

/-! ## Remaining functions of `src/utils/timeCalculator.js` -/

namespace TimeCalculator

/-- The function `minutesToTime(minutes)` on an integral number of minutes (the
rendering `String(mins)` of a fractional remainder is not represented). -/
def minutesToTime (minutes : JSInt) : String :=
  let hours := (minutes.toNum.div (.fin 60)).floor
  let mins := minutes.mod (.int 60)
  padStart 2 "0" hours.toJSString ++ ":" ++ padStart 2 "0" mins.toJSString

/-- The function `calculateWeeklyTotal(dailyData, standardHours, breakTime)`. -/
def calculateWeeklyTotal (dailyData : List DayRecord)
    (standardHours : JSNum := DEFAULT_WORK_HOURS)
    (breakTime : JSNum := DEFAULT_BREAK_TIME) : JSNum :=
  dailyData.foldl
    (fun total day =>
      if !day.startTime.truthy || !day.endTime.truthy then total
      else
        let overtime := calculateOvertime day.startTime day.endTime standardHours breakTime
        total.add overtime)
    (.fin 0)

end TimeCalculator

/-! ## Persistence (`saveTimeData`, `loadTimeData`, `loadAllTimeData`, `deleteTimeData`)

The functions read and write the item `timeData` of `chrome.storage.local`, an
object used as a mapping from date key to entry.  The item is `none` while it
was never set; the calls are taken one after the other. -/

/-- The item `timeData` of the storage area. -/
abbrev StorageArea := Option TimeStore

/-- The expression `result.timeData || {}`. -/
def timeDataOrEmpty (storage : StorageArea) : TimeStore :=
  match storage with
  | some allTimeData => allTimeData
  | none => fun _ => none

namespace StorageManager

/-- The function `saveTimeData(dateKey, timeData)` of
`src/utils/storageManager.js`: the storage area after the call. -/
def saveTimeData (storage : StorageArea) (dateKey : String) (timeData : TimeEntry) :
    StorageArea :=
  let allTimeData := timeDataOrEmpty storage
  some fun k => if k = dateKey then some timeData else allTimeData k

/-- The function `loadTimeData(dateKey)`: the entry, `none` for `null`. -/
def loadTimeData (storage : StorageArea) (dateKey : String) : Option TimeEntry :=
  let allTimeData := timeDataOrEmpty storage
  allTimeData dateKey

/-- The function `loadAllTimeData()`. -/
def loadAllTimeData (storage : StorageArea) : TimeStore := timeDataOrEmpty storage

/-- The function `deleteTimeData(dateKey)`: the storage area after the call. -/
def deleteTimeData (storage : StorageArea) (dateKey : String) : StorageArea :=
  let allTimeData := timeDataOrEmpty storage
  some fun k => if k = dateKey then none else allTimeData k

end StorageManager

namespace Content

/-- The function `saveTimeData(dateKey, timeData)` of the content script. -/
def saveTimeData (storage : StorageArea) (dateKey : String) (timeData : TimeEntry) :
    StorageArea :=
  let allTimeData := timeDataOrEmpty storage
  some fun k => if k = dateKey then some timeData else allTimeData k

/-- The function `loadTimeData(dateKey)` of the content script:
`result.timeData?.[dateKey] || null`. -/
def loadTimeData (storage : StorageArea) (dateKey : String) : Option TimeEntry :=
  match storage with
  | some allTimeData => allTimeData dateKey
  | none => none

/-- The function `loadAllTimeData()` of the content script. -/
def loadAllTimeData (storage : StorageArea) : TimeStore := timeDataOrEmpty storage

end Content

/-- A persisted entry. -/
def sampleEntry : TimeEntry := ⟨.str "09:10", .str "18:20"⟩

/-- Another persisted entry. -/
def sampleEntryLater : TimeEntry := ⟨.str "10:00", .str "19:30"⟩
/-! ## Employee identity (`findEmployeeInfoInDOM`)

The page is seen through what each strategy finds in it: the capture of the
title pattern, the values met next to a label in the order of the scan, the
capture of the body pattern, the result of `findEmpNoFromPageScripts` and the
value of the first hidden field that qualifies. -/

/-- The object `empInfo`. -/
structure EmpInfo where
  empNo : JSStr
  empNm : JSStr
  deriving DecidableEq

/-- The two keys of `labels`. -/
inductive LabelKey where
  | empNm
  | empNo
  deriving DecidableEq

/-- What the strategies find in the page. -/
structure IdentitySources where
  /-- Strategy 1: `titleMatch[1]`, `none` when the title does not match or
  cannot be read. -/
  titleCapture : Option String
  /-- Strategy 2: the key of the label and the capture `match[1]` for every
  match of the label pattern, in the order of the scan. -/
  labelMatches : List (LabelKey × String)
  /-- Strategy 3: `empNoMatch[1]`, `none` without match. -/
  bodyCapture : Option String
  /-- Strategy 4: what `findEmpNoFromPageScripts()` returns. -/
  scriptEmpNo : JSStr
  /-- Strategy 5: the value of the first hidden field that passes the tests,
  `none` when there is none. -/
  hiddenValue : Option String

/-- The test `/^\d{5,}$/`. -/
def isEmpNoText (value : String) : Bool :=
  decide (5 ≤ value.toList.length) && value.toList.all Char.isDigit

/-- The test `/^[가-힣]{2,}$/`. -/
def isHangulName (value : String) : Bool :=
  decide (2 ≤ value.toList.length) &&
    value.toList.all fun c => decide (44032 ≤ c.toNat ∧ c.toNat ≤ 55203)

/-- The call `value.replace(/\D/g, '')`. -/
def removeNonDigits (value : String) : String := String.mk (value.toList.filter Char.isDigit)

/-- Strategy 1 on `empInfo`. -/
def applyTitle (titleCapture : Option String) (empInfo : EmpInfo) : EmpInfo :=
  match titleCapture with
  | some capture =>
    if (JSStr.str capture).truthy then { empInfo with empNm := .str (jsTrim capture) }
    else empInfo
  | none => empInfo

/-- One match of the label scan on `empInfo`. -/
def applyLabelMatch (empInfo : EmpInfo) (found : LabelKey × String) : EmpInfo :=
  if (JSStr.str found.2).truthy then
    let value := jsTrim found.2
    let e1 :=
      if found.1 = .empNo ∧ isEmpNoText value = true then
        (if !empInfo.empNo.truthy then { empInfo with empNo := .str (removeNonDigits value) }
          else empInfo)
      else empInfo
    if found.1 = .empNm ∧ isHangulName value = true then
      (if !e1.empNm.truthy then { e1 with empNm := .str value } else e1)
    else e1
  else empInfo

/-- Strategy 3 on `empInfo`. -/
def applyBody (bodyCapture : Option String) (empInfo : EmpInfo) : EmpInfo :=
  if !empInfo.empNo.truthy then
    match bodyCapture with
    | some capture =>
      if (JSStr.str capture).truthy then { empInfo with empNo := .str capture } else empInfo
    | none => empInfo
  else empInfo

/-- Strategy 4 on `empInfo`. -/
def applyScripts (scriptEmpNo : JSStr) (empInfo : EmpInfo) : EmpInfo :=
  if !empInfo.empNo.truthy then { empInfo with empNo := scriptEmpNo } else empInfo

/-- Strategy 5 on `empInfo`. -/
def applyHidden (hiddenValue : Option String) (empInfo : EmpInfo) : EmpInfo :=
  if !empInfo.empNo.truthy then
    match hiddenValue with
    | some value => { empInfo with empNo := .str value }
    | none => empInfo
  else empInfo

/-- The object `empInfo` after the five strategies. -/
def resolveEmpInfo (src : IdentitySources) : EmpInfo :=
  let e0 : EmpInfo := ⟨.null, .null⟩
  let e1 := applyTitle src.titleCapture e0
  let e2 := src.labelMatches.foldl applyLabelMatch e1
  let e3 := applyBody src.bodyCapture e2
  let e4 := applyScripts src.scriptEmpNo e3
  applyHidden src.hiddenValue e4

/-- The function `findEmployeeInfoInDOM()`: `none` for `null`. -/
def findEmployeeInfoInDOM (src : IdentitySources) : Option EmpInfo :=
  let empInfo := resolveEmpInfo src
  if empInfo.empNo.truthy || empInfo.empNm.truthy then some empInfo else none

/-! ## Vocabulary of the identity resolution -/

/-- The values of a strategy outcome, as a list with at most one element. -/
def yielded : JSStr → List String
  | .str s => if s.data.isEmpty then [] else [s]
  | _ => []

/-- The names the strategies yield, in priority order: the title, then the
label scan. -/
def yieldedNames (src : IdentitySources) : List String :=
  (match src.titleCapture with
    | some capture => if capture.data.isEmpty then [] else yielded (.str (jsTrim capture))
    | none => []) ++
  (src.labelMatches.filter fun found =>
    found.1 = .empNm ∧ isHangulName (jsTrim found.2) = true).map fun found => jsTrim found.2

/-- The employee numbers the strategies yield, in priority order: the label
scan, the body pattern, the script attributes, the hidden fields. -/
def yieldedNumbers (src : IdentitySources) : List String :=
  ((src.labelMatches.filter fun found =>
    found.1 = .empNo ∧ isEmpNoText (jsTrim found.2) = true).map fun found => jsTrim found.2) ++
  (match src.bodyCapture with
    | some capture => yielded (.str capture)
    | none => []) ++
  yielded src.scriptEmpNo ++
  (match src.hiddenValue with
    | some value => yielded (.str value)
    | none => [])

/-- The first value of a list of yielded values as a field of `empInfo`. -/
def firstYielded : List String → Option String
  | [] => none
  | s :: _ => some s

/-- A page whose title, label scan, scripts and hidden field all yield
something. -/
def sampleSources : IdentitySources :=
  { titleCapture := some " 홍길동 "
    labelMatches := [(.empNm, "김철수"), (.empNo, "2023605"), (.empNo, "9999999")]
    bodyCapture := some "1111111"
    scriptEmpNo := .str "2222222"
    hiddenValue := some "3333333" }

/-- A result table whose only data row is an IN row tagged `99:99`. -/
def sampleTableBadTime : ResultTable :=
  { headerCells := ["태그시각", "이벤트구분", "기기명"]
    rows := [["태그시각", "이벤트구분", "기기명"],
      ["2025.06.04 99:99:00", "출근", "본관 1층 [IN]"]] }

/-! ## Rendered-table weekly extraction (`parseWeeklyDataFromTable`)

The attendance table is seen as the texts of the cells of its header row and,
for every row the selector `tbody tr, tr:not(:first-child)` finds, whether the
row carries the class `tims-ext-injected`, the texts of its cells and the text
of the row. -/

/-- A row of the attendance table. -/
structure TableRow where
  injected : Bool
  cells : List String
  textContent : String
  deriving DecidableEq

/-- The attendance table of the page; `headerCells` is `none` without header
row. -/
structure AttendanceTable where
  headerCells : Option (List String)
  rows : List TableRow
  deriving DecidableEq

/-- The call `text.replace(/\s+/g, '')`. -/
def removeWhiteSpace (text : String) : String :=
  String.mk (text.toList.filter fun c => !isStrWhiteSpace c)

/-- The function `findHeaderIndex(table, label)`; `none` is the index `-1`. -/
def findHeaderIndex (table : AttendanceTable) (label : String) : Option ℕ :=
  match table.headerCells with
  | none => none
  | some cells => firstIndex (fun c => jsIncludes (jsTrim (removeWhiteSpace c)) label) cells

/-- One of the separators `-`, `.` and `/` of a date. -/
def isDateSeparator (c : Char) : Bool := c == '-' || c == '.' || c == '/'

/-- A match of the date pattern `(\d{4})[-./](\d{2})[-./](\d{2})` at the head of
the text: year, month and day digits. -/
def matchDateAt : List Char → Option (List Char × List Char × List Char)
  | y1 :: y2 :: y3 :: y4 :: s1 :: m1 :: m2 :: s2 :: d1 :: d2 :: _ =>
    if y1.isDigit && y2.isDigit && y3.isDigit && y4.isDigit && isDateSeparator s1 &&
        m1.isDigit && m2.isDigit && isDateSeparator s2 && d1.isDigit && d2.isDigit then
      some ([y1, y2, y3, y4], [m1, m2], [d1, d2])
    else none
  | _ => none

/-- The leftmost match of the date pattern in a text. -/
def firstDateMatch : List Char → Option (List Char × List Char × List Char)
  | [] => none
  | c :: t =>
    match matchDateAt (c :: t) with
    | some found => some found
    | none => firstDateMatch t

/-- The helper `extractHHMM(text)` of `parseWeeklyDataFromTable`. -/
def extractHHMM (text : String) : JSStr :=
  if !(JSStr.str text).truthy then .null
  else
    match firstClockMatch text.toList with
    | none => .null
    | some (h, m) => .str (padStart 2 "0" (String.mk h) ++ ":" ++ String.mk m)

/-- The date a row is about: the match of the date pattern in the trimmed text
of the date cell when the column is mapped, the cell exists and its text is not
empty, else in the text of the row. -/
def rowDateParts (dateIdx : Option ℕ) (row : TableRow) :
    Option (List Char × List Char × List Char) :=
  let dateText : JSStr :=
    match dateIdx with
    | some i =>
      match row.cells[i]? with
      | some cell => .str (jsTrim cell)
      | none => .null
    | none => .null
  let rowText := row.textContent
  match dateText.or (.str rowText) with
  | .str source => firstDateMatch source.toList
  | _ => none

/-- The time of the cell of a mapped column: `null` when the column is not
mapped, the cell is missing, or its trimmed text is empty or `-`. -/
def cellTime (idx : Option ℕ) (row : TableRow) : JSStr :=
  match idx with
  | some i =>
    match row.cells[i]? with
    | some cell =>
      let t := jsTrim cell
      if (JSStr.str t).truthy && t != "-" then extractHHMM t else .null
    | none => .null
  | none => .null

/-- The call `new Date(text)` on a date text `y-m-d`: midnight UTC of that
date, in a local time `tzOffsetMs` milliseconds ahead of UTC. -/
def dateOfIsoText (tzOffsetMs : ℤ) (y m d : List Char) : JSDate :=
  let year : ℤ := (digitsValue y : ℤ)
  let utcDay := dayFromYear year + monthOffset ((digitsValue m : ℤ) - 1) (inLeapYear year) +
    ((digitsValue d : ℤ) - 1)
  let localMs := utcDay * 86400000 + tzOffsetMs
  ⟨localMs / 86400000, (localMs % 86400000).toNat⟩

/-- The callback of `rows.forEach`: the record pushed for a row, `none` when
the row is skipped. -/
def parseRow (tzOffsetMs : ℤ) (inIdx outIdx dateIdx : Option ℕ) (weekDayStrings : List String)
    (row : TableRow) : Option DayRecord :=
  if row.injected then none
  else
    match rowDateParts dateIdx row with
    | none => none
    | some (y, m, d) =>
      let dateKey := String.mk (y ++ m ++ d)
      if !weekDayStrings.contains dateKey then none
      else
        let startTime := cellTime inIdx row
        let endTime := cellTime outIdx row
        some
          { dateKey := dateKey
            date := dateOfIsoText tzOffsetMs y m d
            startTime := startTime.or .null
            endTime := endTime.or .null
            lastEventIsOut := none }

/-- The function `parseWeeklyDataFromTable(table, weekDays)`. -/
def parseWeeklyDataFromTable (tzOffsetMs : ℤ) (table : AttendanceTable)
    (weekDays : List JSDate) : List DayRecord :=
  let weekDayStrings := weekDays.map formatDateYYYYMMDD
  let inIdx := findHeaderIndex table "입실"
  let outIdx := findHeaderIndex table "퇴실"
  let dateIdx := findHeaderIndex table "근태일자"
  let parsedData := table.rows.filterMap
    (parseRow tzOffsetMs inIdx outIdx dateIdx weekDayStrings)
  weekDays.map fun day =>
    let dateKey := formatDateYYYYMMDD day
    match parsedData.find? fun d => d.dateKey == dateKey with
    | some d => d
    | none => { dateKey := dateKey, date := day, startTime := .null, endTime := .null,
                lastEventIsOut := none }

/-! ## Vocabulary of the weekly extraction -/

/-- The 8-digit date key extracted from a row. -/
def rowDateKey (table : AttendanceTable) (row : TableRow) : Option String :=
  (rowDateParts (findHeaderIndex table "근태일자") row).map fun p => String.mk (p.1 ++ p.2.1 ++ p.2.2)

/-- A row contributes to a key when it does not carry the injected marker and
its extracted date key is that key. -/
def rowContributes (table : AttendanceTable) (dateKey : String) (row : TableRow) : Bool :=
  !row.injected && rowDateKey table row == some dateKey

/-- The times of a weekday as the specification gives them: those of the mapped
check-in and check-out cells of the first contributing row, both absent without
such a row. -/
def weekdayTimes (table : AttendanceTable) (day : JSDate) : JSStr × JSStr :=
  match table.rows.find? (rowContributes table (formatDateYYYYMMDD day)) with
  | some row =>
    ((cellTime (findHeaderIndex table "입실") row).or .null,
      (cellTime (findHeaderIndex table "퇴실") row).or .null)
  | none => (.null, .null)

/-- An attendance table with a row of Tuesday, an injected row of Wednesday, a
row of Wednesday, a second row of Tuesday and a row of another week. -/
def sampleAttendance : AttendanceTable :=
  { headerCells := some ["NO", "근태 일자", "입실", "퇴실"]
    rows :=
      [⟨false, ["1", "2025.06.03", "08:58", "-"], "1 2025.06.03 08:58 -"⟩,
       ⟨true, ["-", "2025.06.04", "07:00", "23:00"], "- 2025.06.04 07:00 23:00"⟩,
       ⟨false, ["2", "2025.06.04", "9:02", "18:31"], "2 2025.06.04 9:02 18:31"⟩,
       ⟨false, ["3", "2025.06.03", "10:00", "20:00"], "3 2025.06.03 10:00 20:00"⟩,
       ⟨false, ["4", "2025.05.30", "09:00", "18:00"], "4 2025.05.30 09:00 18:00"⟩] }

/-- A row can contribute to the week: it does not carry the injected marker and
its extracted date key is the key of one of the weekdays. -/
def rowInWeek (table : AttendanceTable) (weekDays : List JSDate) (row : TableRow) : Bool :=
  !row.injected &&
    (rowDateKey table row).any fun k => (weekDays.map formatDateYYYYMMDD).contains k

/-! ## Vocabulary of well-formed times -/

/-- A time as the extension extracts, defaults and persists it: absent (null,
undefined or the empty string) or written `dd:dd`. -/
def isTimeValue : JSStr → Bool
  | .str s => s == "" || isPaddedTime s
  | _ => true

/-! ## Rows of the rendering (`ensureWeeklyRows`, `injectColumn`)

The table is taken with its header row.  Its rows are those the selector
`tbody tr, tr:not(:first-child)` finds, which are also taken to be the rows of
the body that `ensureWeeklyRows` scans; a synthetic row is appended after them.
The lookups of `injectColumn` read the texts of the rows as
`ensureWeeklyRows` leaves them: the cells the loop fills and appends hold
times, `-` and inputs. -/

/-- The function `formatDateYYYY_DOT_MM_DOT_DD(date)`. -/
def formatDateYYYY_DOT_MM_DOT_DD (date : JSDate) : String :=
  let y := date.getFullYear
  let m := padStart 2 "0" (JSInt.int (date.getMonth + 1)).toJSString
  let d := padStart 2 "0" (JSInt.int date.getDate).toJSString
  (JSInt.int y).toJSString ++ "." ++ m ++ "." ++ d

/-- The helper `extractDateKeyFromText(text)` of `ensureWeeklyRows`, which is
also `extractDateKeyFromRow(row)` of `injectColumn` on the text of the row;
`none` is `null`. -/
def extractDateKeyFromText (text : String) : Option String :=
  match firstDateMatch text.toList with
  | none => none
  | some (y, m, d) => some (String.mk (y ++ m ++ d))

/-- The synthetic row `ensureWeeklyRows` creates for a record: one cell `-` per
column of the header, the date written into the cell of the date column, or
into the first cell without one, and then `-` written into the cell of the
`NO` column. -/
def syntheticRow (headerCells : List String) (rows : List TableRow) (dayData : DayRecord) :
    TableRow :=
  let table : AttendanceTable := ⟨some headerCells, rows⟩
  let baseColCount := if headerCells.length = 0 then 1 else headerCells.length
  let dateIdx := findHeaderIndex table "근태일자"
  let noIdx := findHeaderIndex table "NO"
  let cells := List.replicate baseColCount "-"
  let dotDate := formatDateYYYY_DOT_MM_DOT_DD dayData.date
  let cells :=
    match dateIdx with
    | some i =>
      if i < cells.length then cells.set i dotDate
      else if 0 < cells.length then cells.set 0 dotDate else cells
    | none => if 0 < cells.length then cells.set 0 dotDate else cells
  let cells :=
    match noIdx with
    | some i => if i < cells.length then cells.set i "-" else cells
    | none => cells
  ⟨true, cells, String.join cells⟩

/-- The test `exists` of `ensureWeeklyRows`: a row whose text gives the key of
the record. -/
def rowExists (existingRows : List TableRow) (dayData : DayRecord) : Bool :=
  existingRows.any fun r => extractDateKeyFromText r.textContent == some dayData.dateKey

/-- The function `ensureWeeklyRows(table, weeklyData)`: the rows of the table
after it, the clock reading `now`. -/
def ensureWeeklyRows (now : JSDate) (headerCells : List String) (rows : List TableRow)
    (weeklyData : List DayRecord) : List TableRow :=
  let existingRows := rows
  rows ++ (weeklyData.filter fun dayData =>
    let today := now.setHoursZero
    let dateOnly := dayData.date.setHoursZero
    let isTodayOrFuture := decide (today.getTime ≤ dateOnly.getTime)
    !rowExists existingRows dayData && isTodayOrFuture).map (syntheticRow headerCells rows)

/-- The function `injectColumn(table, weeklyData, onTimeChange, savedData)` as
far as the cells are concerned: for every record of the week the branch it
takes, `none` for a record that is skipped. -/
def injectColumn (now : JSDate) (headerCells : List String) (tableRows : List TableRow)
    (weeklyData : List DayRecord) : List (Option RenderBranch) :=
  let kept := tableRows.filter fun r => !r.injected
  let rows := ensureWeeklyRows now headerCells kept weeklyData
  weeklyData.map fun dayData =>
    let row := rows.find? fun r => extractDateKeyFromText r.textContent == some dayData.dateKey
    injectColumnDay now row.isSome dayData

/-! ## Vocabulary of the rendering -/

/-- A row carries a date key: the first date written in its text gives the
key. -/
def rowCarries (dateKey : String) (row : TableRow) : Bool :=
  extractDateKeyFromText row.textContent == some dateKey

/-- The rows of the table when the cells are rendered: those that do not carry
the injected marker, and the synthetic rows added to them. -/
def renderedRows (now : JSDate) (headerCells : List String) (tableRows : List TableRow)
    (weeklyData : List DayRecord) : List TableRow :=
  ensureWeeklyRows now headerCells (tableRows.filter fun r => !r.injected) weeklyData

/-- The header cells of the sample attendance table. -/
def sampleHeader : List String := ["NO", "근태 일자", "입실", "퇴실"]

/-- The week of the sample date as `main` reconciles it from the sample
attendance table, nine hours ahead of UTC, nothing persisted, every lookup
answering 09:05 to 18:40 with a last event OUT. -/
def sampleReconciledWeek : List DayRecord :=
  dataPromises sampleNow emptyStore (fun _ => .parsed (some sampleStructuredOut))
    (parseWeeklyDataFromTable 32400000 sampleAttendance (getWeekDays sampleNow))

/-! ## Theorems -/

/-! ### Reading digits -/

theorem isDigit_iff (c : Char) : c.isDigit = true ↔ 48 ≤ c.toNat ∧ c.toNat ≤ 57 := by
  unfold Char.isDigit Char.toNat
  simp only [UInt32.le_def, Bool.and_eq_true, decide_eq_true_eq, BitVec.le_def]
  exact Iff.rfl

theorem ne_of_toNat_ne {c d : Char} (h : c.toNat ≠ d.toNat) : c ≠ d := by
  intro hc; subst hc; exact h rfl

/-- A digit is not white space. -/
theorem not_ws_of_isDigit {c : Char} (h : c.isDigit = true) : isStrWhiteSpace c = false := by
  rw [isDigit_iff] at h
  unfold isStrWhiteSpace
  simp only [Bool.or_eq_false_iff, decide_eq_false_iff_not, Bool.and_eq_false_imp, decide_eq_true_eq]
  omega

theorem dropWhile_of_all_false {α : Type} (p : α → Bool) (l : List α)
    (h : ∀ x ∈ l, p x = false) : l.dropWhile p = l := by
  cases l with
  | nil => rfl
  | cons a t => simp [List.dropWhile, h a (List.mem_cons_self a t)]

/-- Trimming leaves a run of digits unchanged. -/
theorem trimWhiteSpace_digits (cs : List Char) (h : ∀ c ∈ cs, c.isDigit = true) :
    trimWhiteSpace cs = cs := by
  unfold trimWhiteSpace
  rw [dropWhile_of_all_false _ cs (fun c hc => not_ws_of_isDigit (h c hc)),
    dropWhile_of_all_false _ cs.reverse
      (fun c hc => not_ws_of_isDigit (h c (List.mem_reverse.mp hc))),
    List.reverse_reverse]

/-- A run of digits read as an unsigned decimal literal. -/
theorem parseUnsignedDecimal_digits (cs : List Char) (hne : cs ≠ [])
    (h : ∀ c ∈ cs, c.isDigit = true) :
    parseUnsignedDecimal cs = .fin (digitsValue cs : ℚ) := by
  have h1 : cs ≠ "Infinity".toList := by
    intro he
    have := h 'I' (by rw [he]; decide)
    exact absurd this (by decide)
  have h2 : cs.takeWhile Char.isDigit = cs := List.takeWhile_eq_self_iff.mpr h
  have h3 : cs.dropWhile Char.isDigit = [] := List.dropWhile_eq_nil_iff.mpr h
  unfold parseUnsignedDecimal
  simp [h2, h3, hne, parseExponent]
  exact h1

/-- The function `Number` of a non-empty run of decimal digits is its decimal value. -/
theorem stringToNumber_digits (cs : List Char) (hne : cs ≠ [])
    (h : ∀ c ∈ cs, c.isDigit = true) :
    stringToNumber (String.mk cs) = .fin (digitsValue cs : ℚ) := by
  unfold stringToNumber
  simp only [String.toList, trimWhiteSpace_digits cs h]
  split
  · exact absurd rfl hne
  · rename_i r
    exact absurd (h '+' (by simp)) (by decide)
  · exact absurd (h '-' (by simp)) (by decide)
  · rename_i x r
    have hx : x.isDigit = true := h x (by simp)
    rw [isDigit_iff] at hx
    have e1 : x ≠ 'x' := ne_of_toNat_ne (by simp; omega)
    have e2 : x ≠ 'X' := ne_of_toNat_ne (by simp; omega)
    have e3 : x ≠ 'o' := ne_of_toNat_ne (by simp; omega)
    have e4 : x ≠ 'O' := ne_of_toNat_ne (by simp; omega)
    have e5 : x ≠ 'b' := ne_of_toNat_ne (by simp; omega)
    have e6 : x ≠ 'B' := ne_of_toNat_ne (by simp; omega)
    simp only [e1, e2, e3, e4, e5, e6, or_self, if_false]
    exact parseUnsignedDecimal_digits _ hne h
  · exact parseUnsignedDecimal_digits cs hne h

/-! ### Clock strings -/

/-- Shape of a valid clock string. -/
theorem clock_shape {s : String} (h : isClockString s = true) :
    ∃ a b d e : Char, s = String.mk [a, b, ':', d, e] ∧ a.isDigit = true ∧ b.isDigit = true ∧
      d.isDigit = true ∧ e.isDigit = true ∧
      10 * (a.toNat - 48) + (b.toNat - 48) ≤ 23 ∧ 10 * (d.toNat - 48) + (e.toNat - 48) ≤ 59 := by
  obtain ⟨cs⟩ := s
  unfold isClockString at h
  simp only [String.toList] at h
  split at h
  · rename_i a b c d e
    simp only [Bool.and_eq_true, beq_iff_eq, decide_eq_true_eq] at h
    obtain ⟨⟨⟨⟨⟨⟨ha, hb⟩, hc⟩, hd⟩, he⟩, hh⟩, hm⟩ := h
    subst hc
    exact ⟨a, b, d, e, rfl, ha, hb, hd, he, hh, hm⟩
  · exact absurd h (by simp)

theorem digit_ne_colon {c : Char} (h : c.isDigit = true) : c ≠ ':' := by
  rw [isDigit_iff] at h
  exact ne_of_toNat_ne (by simp; omega)

theorem jsSplit_clock {a b d e : Char} (ha : a.isDigit = true) (hb : b.isDigit = true)
    (hd : d.isDigit = true) (he : e.isDigit = true) :
    jsSplit ':' (String.mk [a, b, ':', d, e]) = [String.mk [a, b], String.mk [d, e]] := by
  simp [jsSplit, splitChars, digit_ne_colon ha, digit_ne_colon hb, digit_ne_colon hd,
    digit_ne_colon he]

/-- The content-script `timeToMinutes` on a valid clock string. -/
theorem content_timeToMinutes_clock {s : String} (h : isClockString s = true) :
    Content.timeToMinutes (.str s) = .fin (minuteOfDay s : ℚ) := by
  obtain ⟨a, b, d, e, rfl, ha, hb, hd, he, -, -⟩ := clock_shape h
  unfold Content.timeToMinutes
  simp only [jsSplit_clock ha hb hd he]
  have h1 := stringToNumber_digits [a, b] (by simp) (by simp [ha, hb])
  have h2 := stringToNumber_digits [d, e] (by simp) (by simp [hd, he])
  simp [JSStr.truthy, h1, h2, elemToNumber, JSNum.mul, JSNum.add, minuteOfDay, clockHour,
    clockMinute, digitsValue]
  ring

/-! ### The `H:MM` formatter -/

theorem padStart_two_lt (k : ℕ) (hk : k < 60) : padStart 2 "0" (toString k) = twoDigits k := by
  have key : ∀ i : Fin 60, padStart 2 "0" (toString i.val) = twoDigits i.val := by decide
  exact key ⟨k, hk⟩

theorem trunc_int (m : ℤ) : (JSNum.fin (m : ℚ)).trunc = .int m := by
  unfold JSNum.trunc
  by_cases h : (0 : ℚ) ≤ (m : ℚ)
  · simp [h]
  · have : -(m : ℚ) = ((-m : ℤ) : ℚ) := by push_cast; rfl
    simp only [h, if_false, this, Int.floor_intCast, neg_neg]

theorem or_zero_int (m : ℤ) : (JSNum.fin (m : ℚ)).or (.fin 0) = .fin (m : ℚ) := by
  unfold JSNum.or JSNum.truthy
  by_cases h : m = 0
  · subst h; simp
  · simp [h]

/-- The content-script formatter on an integer number of minutes. -/
theorem content_formatOvertime_int (m : ℤ) :
    Content.formatOvertime (.fin (m : ℚ)) = renderHMM m := by
  unfold Content.formatOvertime renderHMM
  simp only [or_zero_int, trunc_int]
  have hlt : (JSInt.int m).lt (.int 0) = decide (m < 0) := by
    simp [JSInt.lt, JSInt.toNum, JSNum.lt]
  have hh : ((JSInt.int m).abs.toNum.div (.fin 60)).floor = .int ((m.natAbs / 60 : ℕ) : ℤ) := by
    simp only [JSInt.abs, JSInt.toNum, JSNum.div, JSNum.floor]
    rw [if_neg (by norm_num)]
    have := Rat.floor_intCast_div_natCast |m| 60
    simp only [Nat.cast_ofNat] at this
    show JSInt.int ⌊((|m| : ℤ) : ℚ) / 60⌋ = _
    rw [this, Int.abs_eq_natAbs]
    norm_cast
  have hm : (JSInt.int m).abs.mod (.int 60) = .int ((m.natAbs % 60 : ℕ) : ℤ) := by
    simp only [JSInt.abs, JSInt.mod]
    rw [if_neg (by norm_num), Int.abs_eq_natAbs, Int.tmod_eq_emod (by positivity) (by norm_num)]
    norm_cast
  rw [hlt, hh, hm]
  have e1 : ∀ n : ℕ, (JSInt.int (n : ℤ)).toJSString = toString n := by
    intro n
    simp [JSInt.toJSString]
  rw [e1, e1, padStart_two_lt _ (Nat.mod_lt _ (by norm_num))]
  by_cases h : m < 0 <;> simp [h]

/-! ### Overtime of valid and absent times -/

theorem truthy_of_clock {s : String} (h : isClockString s = true) : (JSStr.str s).truthy = true := by
  obtain ⟨a, b, d, e, rfl, -⟩ := clock_shape h
  rfl

theorem timeCalculator_timeToMinutes_eq (t : JSStr) :
    TimeCalculator.timeToMinutes t = Content.timeToMinutes t := rfl

/-- The content-script overtime on two valid clock strings. -/
theorem content_calculateOvertime_clock {start stop : String}
    (hs : isClockString start = true) (he : isClockString stop = true) :
    Content.calculateOvertime (.str start) (.str stop) =
      .fin ((shiftSpan start stop - 60 - 480 : ℤ) : ℚ) := by
  unfold Content.calculateOvertime
  simp only [truthy_of_clock hs, truthy_of_clock he, content_timeToMinutes_clock hs,
    content_timeToMinutes_clock he, Content.DEFAULT_BREAK_TIME, Content.DEFAULT_WORK_HOURS,
    JSNum.lt, JSNum.mul, JSNum.sub, JSNum.add, JSNum.neg, shiftSpan]
  by_cases h : minuteOfDay stop < minuteOfDay start
  · have h' : ((minuteOfDay stop : ℤ) : ℚ) < ((minuteOfDay start : ℤ) : ℚ) := by exact_mod_cast h
    simp only [h, h', if_true, decide_True, Bool.not_true, Bool.or_self, Bool.false_eq_true, if_false]
    congr 1
    push_cast
    ring
  · have h' : ¬ ((minuteOfDay stop : ℤ) : ℚ) < ((minuteOfDay start : ℤ) : ℚ) := by exact_mod_cast h
    simp only [h, h', if_false, decide_False, Bool.not_true, Bool.or_self, Bool.false_eq_true]
    congr 1
    push_cast
    ring

/-- The utility-module overtime on two valid clock strings, default parameters. -/
theorem timeCalculator_calculateOvertime_clock {start stop : String}
    (hs : isClockString start = true) (he : isClockString stop = true) :
    TimeCalculator.calculateOvertime (.str start) (.str stop) =
      .fin ((shiftSpan start stop - 60 - 480 : ℤ) : ℚ) := by
  unfold TimeCalculator.calculateOvertime TimeCalculator.calculateWorkMinutes
  simp only [truthy_of_clock hs, truthy_of_clock he, timeCalculator_timeToMinutes_eq,
    content_timeToMinutes_clock hs,
    content_timeToMinutes_clock he, TimeCalculator.DEFAULT_BREAK_TIME,
    TimeCalculator.DEFAULT_WORK_HOURS,
    JSNum.lt, JSNum.mul, JSNum.sub, JSNum.add, JSNum.neg, shiftSpan]
  by_cases h : minuteOfDay stop < minuteOfDay start
  · have h' : ((minuteOfDay stop : ℤ) : ℚ) < ((minuteOfDay start : ℤ) : ℚ) := by exact_mod_cast h
    simp only [h, h', if_true, decide_True, Bool.not_true, Bool.or_self, Bool.false_eq_true, if_false]
    congr 1
    push_cast
    ring
  · have h' : ¬ ((minuteOfDay stop : ℤ) : ℚ) < ((minuteOfDay start : ℤ) : ℚ) := by exact_mod_cast h
    simp only [h, h', if_false, decide_False, Bool.not_true, Bool.or_self, Bool.false_eq_true]
    congr 1
    push_cast
    ring

/-- C1: for every pair of valid clock strings, `calculateOvertime` (both copies)
is the span minus 60 minus 480, where the span is `end - start` in minutes and
takes 1440 more exactly when the end is strictly smaller than the start. -/
theorem calculateOvertime_valid_clock (start stop : String)
    (hs : isClockString start = true) (he : isClockString stop = true) :
    Content.calculateOvertime (.str start) (.str stop)
        = JSNum.ofInt ((if minuteOfDay stop < minuteOfDay start
            then minuteOfDay stop - minuteOfDay start + 1440
            else minuteOfDay stop - minuteOfDay start) - 60 - 480) ∧
      TimeCalculator.calculateOvertime (.str start) (.str stop)
        = JSNum.ofInt ((if minuteOfDay stop < minuteOfDay start
            then minuteOfDay stop - minuteOfDay start + 1440
            else minuteOfDay stop - minuteOfDay start) - 60 - 480) :=
  ⟨content_calculateOvertime_clock hs he, timeCalculator_calculateOvertime_clock hs he⟩

/-- Witness of C1 at `09:00` to `18:30`. -/
theorem calculateOvertime_valid_clock_witness :
    isClockString "09:00" = true ∧ isClockString "18:30" = true ∧
      (Content.calculateOvertime (.str "09:00") (.str "18:30")
        = JSNum.ofInt ((if minuteOfDay "18:30" < minuteOfDay "09:00"
            then minuteOfDay "18:30" - minuteOfDay "09:00" + 1440
            else minuteOfDay "18:30" - minuteOfDay "09:00") - 60 - 480) ∧
      TimeCalculator.calculateOvertime (.str "09:00") (.str "18:30")
        = JSNum.ofInt ((if minuteOfDay "18:30" < minuteOfDay "09:00"
            then minuteOfDay "18:30" - minuteOfDay "09:00" + 1440
            else minuteOfDay "18:30" - minuteOfDay "09:00") - 60 - 480)) :=
  ⟨by decide, by decide, calculateOvertime_valid_clock "09:00" "18:30" (by decide) (by decide)⟩

theorem shiftSpan_night : shiftSpan "22:00" "02:00" - 60 - 480 = -300 := by decide

theorem content_overtime_night :
    Content.calculateOvertime (.str "22:00") (.str "02:00") = JSNum.ofInt (-300) := by
  rw [content_calculateOvertime_clock (by decide) (by decide), shiftSpan_night]
  rfl

/-- C2 (counterexample): the overtime of `22:00` to `02:00` is not -420 minutes
and its rendering is not `-7:00`. -/
theorem overtime_night_not_minus_420 :
    Content.calculateOvertime (.str "22:00") (.str "02:00") ≠ JSNum.ofInt (-420) ∧
      Content.formatOvertime (Content.calculateOvertime (.str "22:00") (.str "02:00"))
        ≠ "-7:00" := by
  rw [content_overtime_night]
  constructor
  · intro h
    simp only [JSNum.ofInt, JSNum.fin.injEq] at h
    norm_num at h
  · rw [JSNum.ofInt, content_formatOvertime_int]
    decide

/-- C2 (amended): the overtime of `22:00` to `02:00` is -300 minutes, the span
being 240 minutes under the wrap rule, and it is rendered `-5:00`. -/
theorem overtime_night_minus_300 :
    Content.calculateOvertime (.str "22:00") (.str "02:00") = JSNum.ofInt (-300) ∧
      Content.formatOvertime (Content.calculateOvertime (.str "22:00") (.str "02:00"))
        = "-5:00" := by
  rw [content_overtime_night]
  refine ⟨rfl, ?_⟩
  rw [JSNum.ofInt, content_formatOvertime_int]
  decide

theorem content_calculateOvertime_absent (start stop : JSStr)
    (h : start.truthy = false ∨ stop.truthy = false) :
    Content.calculateOvertime start stop = .fin 0 := by
  unfold Content.calculateOvertime
  rcases h with h | h <;> simp [h]

theorem timeCalculator_calculateWorkMinutes_absent (start stop : JSStr) (breakTime : JSNum)
    (h : start.truthy = false ∨ stop.truthy = false) :
    TimeCalculator.calculateWorkMinutes start stop breakTime = .fin 0 := by
  unfold TimeCalculator.calculateWorkMinutes
  rcases h with h | h <;> simp [h]

/-- C3: if either argument is absent (null, undefined or the empty string), the
content-script `calculateOvertime` returns 0 whatever the other argument is, and
so does `calculateWorkMinutes` of the utility module; in particular
`calculateOvertime(null, "18:00") = 0` and `calculateOvertime("09:00", null) = 0`. -/
theorem calculateOvertime_absent (start stop : JSStr)
    (h : start.truthy = false ∨ stop.truthy = false) :
    Content.calculateOvertime start stop = JSNum.ofInt 0 ∧
      (∀ breakTime, TimeCalculator.calculateWorkMinutes start stop breakTime = JSNum.ofInt 0) ∧
      (∀ x : JSStr, x.truthy = false ↔ (x = .null ∨ x = .undefined ∨ x = .str "")) ∧
      Content.calculateOvertime .null (.str "18:00") = JSNum.ofInt 0 ∧
      Content.calculateOvertime (.str "09:00") .null = JSNum.ofInt 0 := by
  have z : JSNum.ofInt 0 = .fin 0 := by simp [JSNum.ofInt]
  rw [z]
  refine ⟨content_calculateOvertime_absent _ _ h,
    fun b => timeCalculator_calculateWorkMinutes_absent _ _ b h, ?_,
    content_calculateOvertime_absent _ _ (Or.inl rfl),
    content_calculateOvertime_absent _ _ (Or.inr rfl)⟩
  intro x
  cases x with
  | null => simp [JSStr.truthy]
  | undefined => simp [JSStr.truthy]
  | str s =>
    obtain ⟨cs⟩ := s
    cases cs with
    | nil => simp [JSStr.truthy]
    | cons c t =>
      simp only [JSStr.truthy, List.isEmpty_cons, Bool.not_false, Bool.true_eq_false, false_iff,
        JSStr.str.injEq, false_or, reduceCtorEq]
      intro h
      exact absurd (congrArg String.data h) (by simp)

/-- Witness of C3: an undefined start with a valid end. -/
theorem calculateOvertime_absent_witness :
    (JSStr.undefined.truthy = false ∨ (JSStr.str "18:00").truthy = false) ∧
      Content.calculateOvertime .undefined (.str "18:00") = JSNum.ofInt 0 :=
  ⟨Or.inl rfl, (calculateOvertime_absent .undefined (.str "18:00") (Or.inl rfl)).1⟩

/-! ### Formatter and `timeToMinutes` contracts -/

theorem twoDigits_length (k : ℕ) (hk : k < 60) : (twoDigits k).length = 2 := by
  have key : ∀ i : Fin 60, (twoDigits i.val).length = 2 := by decide
  exact key ⟨k, hk⟩

/-- C4: for every integer number of minutes `m` that a JavaScript number holds
exactly (`|m| < 2^53`, where the division by 60 rounds to the right hour and
`String` writes plain decimals), the content-script `formatOvertime(m)` is the
sign (`-` exactly when `m < 0`), the unpadded decimal rendering of
`floor(|m| / 60)`, a colon, and `|m| mod 60` padded with zeros to two digits;
`formatOvertime(0) = "0:00"`, `formatOvertime(-30) = "-0:30"` and
`formatOvertime(90) = "1:30"`. -/
theorem formatOvertime_integer (m : ℤ) (hm : m.natAbs < 2 ^ 53) :
    Content.formatOvertime (JSNum.ofInt m)
        = (if m < 0 then "-" else "") ++ toString (m.natAbs / 60) ++ ":"
            ++ twoDigits (m.natAbs % 60) ∧
      (twoDigits (m.natAbs % 60)).length = 2 ∧
      m.natAbs / 60 < 2 ^ 48 ∧
      Content.formatOvertime (JSNum.ofInt 0) = "0:00" ∧
      Content.formatOvertime (JSNum.ofInt (-30)) = "-0:30" ∧
      Content.formatOvertime (JSNum.ofInt 90) = "1:30" := by
  simp only [JSNum.ofInt, content_formatOvertime_int]
  exact ⟨rfl, twoDigits_length _ (Nat.mod_lt _ (by norm_num)), by omega, by decide, by decide,
    by decide⟩

/-- Witness of C4 at -125 minutes, shown `-2:05`. -/
theorem formatOvertime_integer_witness :
    (-125 : ℤ).natAbs < 2 ^ 53 ∧ Content.formatOvertime (JSNum.ofInt (-125)) = "-2:05" :=
  ⟨by decide, (formatOvertime_integer (-125) (by decide)).1.trans (by decide)⟩

theorem minuteOfDay_bounds {s : String} (h : isClockString s = true) :
    0 ≤ minuteOfDay s ∧ minuteOfDay s ≤ 1439 := by
  obtain ⟨a, b, d, e, rfl, -, -, -, -, hh, hm⟩ := clock_shape h
  simp only [minuteOfDay, clockHour, clockMinute, String.toList]
  omega

theorem clock_fields {s : String} (h : isClockString s = true) :
    clockHour s ≤ 23 ∧ clockMinute s ≤ 59 := by
  obtain ⟨a, b, d, e, rfl, -, -, -, -, hh, hm⟩ := clock_shape h
  exact ⟨hh, hm⟩

/-- C5: on a valid clock string with hour `h` and minute `m`, `timeToMinutes`
(both copies) returns the integer `60 * h + m`, a value in `0..1439`; on an
absent input (null, undefined, the empty string) it returns 0. -/
theorem timeToMinutes_valid_clock (s : String) (h : isClockString s = true) :
    Content.timeToMinutes (.str s) = JSNum.ofInt (60 * (clockHour s : ℤ) + (clockMinute s : ℤ)) ∧
      TimeCalculator.timeToMinutes (.str s)
        = JSNum.ofInt (60 * (clockHour s : ℤ) + (clockMinute s : ℤ)) ∧
      clockHour s ≤ 23 ∧ clockMinute s ≤ 59 ∧
      0 ≤ 60 * (clockHour s : ℤ) + (clockMinute s : ℤ) ∧
      60 * (clockHour s : ℤ) + (clockMinute s : ℤ) ≤ 1439 ∧
      Content.timeToMinutes .null = JSNum.ofInt 0 ∧
      Content.timeToMinutes .undefined = JSNum.ofInt 0 ∧
      Content.timeToMinutes (.str "") = JSNum.ofInt 0 ∧
      TimeCalculator.timeToMinutes .null = JSNum.ofInt 0 ∧
      TimeCalculator.timeToMinutes .undefined = JSNum.ofInt 0 ∧
      TimeCalculator.timeToMinutes (.str "") = JSNum.ofInt 0 := by
  have z : JSNum.ofInt 0 = .fin 0 := by simp [JSNum.ofInt]
  rw [z]
  exact ⟨content_timeToMinutes_clock h, content_timeToMinutes_clock h, (clock_fields h).1,
    (clock_fields h).2, (minuteOfDay_bounds h).1, (minuteOfDay_bounds h).2,
    rfl, rfl, rfl, rfl, rfl, rfl⟩

/-- Witness of C5 at `23:59`. -/
theorem timeToMinutes_valid_clock_witness :
    isClockString "23:59" = true ∧
      Content.timeToMinutes (.str "23:59") = JSNum.ofInt 1439 := by
  refine ⟨by decide, ?_⟩
  have h := (timeToMinutes_valid_clock "23:59" (by decide)).1
  have e : 60 * (clockHour "23:59" : ℤ) + (clockMinute "23:59" : ℤ) = 1439 := by decide
  rw [e] at h
  exact h

/-! ### Malformed time text -/

theorem splitChars_no_sep (sep : Char) (cs : List Char) (h : sep ∉ cs) :
    splitChars sep cs = [cs] := by
  induction cs with
  | nil => rfl
  | cons c t ih =>
    have hc : c ≠ sep := fun e => h (by simp [e])
    have ht : sep ∉ t := fun e => h (List.mem_cons_of_mem _ e)
    simp [splitChars, hc, ih ht]

theorem add_nan_right (a : JSNum) : a.add .nan = .nan := by
  cases a <;> rfl

theorem sub_nan_right (a : JSNum) : a.sub .nan = .nan := by
  cases a <;> rfl

theorem lt_nan_right (a : JSNum) : a.lt .nan = false := by
  cases a <;> rfl

/-- Without a colon there is no minutes part: the sum is `NaN`. -/
theorem content_timeToMinutes_no_colon (s : String) (hne : s ≠ "") (h : ':' ∉ s.toList) :
    Content.timeToMinutes (.str s) = .nan := by
  obtain ⟨cs⟩ := s
  have hcs : cs ≠ [] := fun e => hne (by rw [e])
  have ht : (JSStr.str (String.mk cs)).truthy = true := by
    cases cs with
    | nil => exact absurd rfl hcs
    | cons c t => rfl
  unfold Content.timeToMinutes
  simp only [ht, jsSplit, String.toList, splitChars_no_sep ':' cs h]
  simp [elemToNumber, add_nan_right]

theorem content_calculateOvertime_nan_left (a b : JSStr) (ha : a.truthy = true)
    (hb : b.truthy = true) (h : Content.timeToMinutes a = .nan) :
    Content.calculateOvertime a b = .nan := by
  unfold Content.calculateOvertime
  simp only [ha, hb, h, lt_nan_right, sub_nan_right]
  simp [JSNum.sub, JSNum.add, JSNum.neg]

theorem content_calculateOvertime_nan_right (a b : JSStr) (ha : a.truthy = true)
    (hb : b.truthy = true) (h : Content.timeToMinutes b = .nan) :
    Content.calculateOvertime a b = .nan := by
  unfold Content.calculateOvertime
  simp only [ha, hb, h]
  simp [JSNum.sub, JSNum.add, JSNum.neg, JSNum.lt]

theorem truthy_of_ne_empty (s : String) (hne : s ≠ "") : (JSStr.str s).truthy = true := by
  obtain ⟨cs⟩ := s
  cases cs with
  | nil => exact absurd rfl hne
  | cons c t => rfl

/-- No colon, no match of the clock pattern. -/
theorem not_matches_of_no_colon : ∀ cs : List Char, ':' ∉ cs → matchesClockPattern cs = false
  | [], _ => rfl
  | [_], _ => rfl
  | [_, _], _ => rfl
  | [_, _, _], _ => rfl
  | a :: b :: c :: d :: t, h => by
    have hb : b ≠ ':' := fun e => h (by simp [e])
    have ht : ':' ∉ b :: c :: d :: t := fun e => h (List.mem_cons_of_mem _ e)
    simp [matchesClockPattern, hb, not_matches_of_no_colon _ ht]

/-- C6 (counterexample): `abc` and `12` are non-empty and do not match the clock
pattern, yet `timeToMinutes` differs on them from its value on an absent input,
and `calculateOvertime` with such an argument is not 0. -/
theorem malformed_time_not_zero :
    matchesClockPattern "abc".toList = false ∧ matchesClockPattern "12".toList = false ∧
      Content.timeToMinutes (.str "abc") ≠ Content.timeToMinutes .null ∧
      Content.timeToMinutes (.str "12") ≠ Content.timeToMinutes .null ∧
      TimeCalculator.timeToMinutes (.str "12") ≠ TimeCalculator.timeToMinutes .null ∧
      Content.calculateOvertime (.str "abc") (.str "18:00") ≠ JSNum.ofInt 0 ∧
      Content.calculateOvertime (.str "09:00") (.str "12") ≠ JSNum.ofInt 0 := by
  have h1 : Content.timeToMinutes (.str "abc") = .nan :=
    content_timeToMinutes_no_colon "abc" (by decide) (by decide)
  have h2 : Content.timeToMinutes (.str "12") = .nan :=
    content_timeToMinutes_no_colon "12" (by decide) (by decide)
  have h3 : Content.calculateOvertime (.str "abc") (.str "18:00") = .nan :=
    content_calculateOvertime_nan_left _ _ rfl rfl h1
  have h4 : Content.calculateOvertime (.str "09:00") (.str "12") = .nan :=
    content_calculateOvertime_nan_right _ _ rfl rfl h2
  have h0 : Content.timeToMinutes .null = .fin 0 := rfl
  refine ⟨by decide, by decide, ?_, ?_, ?_, ?_, ?_⟩
  · rw [h1, h0]; exact fun h => JSNum.noConfusion h
  · rw [h2, h0]; exact fun h => JSNum.noConfusion h
  · rw [timeCalculator_timeToMinutes_eq, timeCalculator_timeToMinutes_eq, h2, h0]
    exact fun h => JSNum.noConfusion h
  · rw [h3]; exact fun h => JSNum.noConfusion h
  · rw [h4]; exact fun h => JSNum.noConfusion h

/-- C6 (amended): a non-empty string without a colon (such as `abc` or `12`)
matches no clock pattern; `timeToMinutes` (both copies) is total and returns
`NaN` on it, not 0; `calculateOvertime` returns `NaN` when one argument is such
a string and the other is present, and 0 when the other is absent; the
formatter renders `NaN` as `0:00`. -/
theorem malformed_time_is_nan (s : String) (hne : s ≠ "") (h : ':' ∉ s.toList) :
    matchesClockPattern s.toList = false ∧
      Content.timeToMinutes (.str s) = JSNum.nan ∧
      TimeCalculator.timeToMinutes (.str s) = JSNum.nan ∧
      (∀ t : JSStr, t.truthy = true →
        Content.calculateOvertime (.str s) t = JSNum.nan ∧
        Content.calculateOvertime t (.str s) = JSNum.nan) ∧
      (∀ t : JSStr, t.truthy = false →
        Content.calculateOvertime (.str s) t = JSNum.ofInt 0 ∧
        Content.calculateOvertime t (.str s) = JSNum.ofInt 0) ∧
      Content.formatOvertime JSNum.nan = "0:00" := by
  have h1 := content_timeToMinutes_no_colon s hne h
  have hs := truthy_of_ne_empty s hne
  have z : JSNum.ofInt 0 = .fin 0 := by simp [JSNum.ofInt]
  refine ⟨not_matches_of_no_colon _ h, h1, h1, ?_, ?_, ?_⟩
  · intro t ht
    exact ⟨content_calculateOvertime_nan_left _ _ hs ht h1,
      content_calculateOvertime_nan_right _ _ ht hs h1⟩
  · intro t ht
    rw [z]
    exact ⟨content_calculateOvertime_absent _ _ (Or.inr ht),
      content_calculateOvertime_absent _ _ (Or.inl ht)⟩
  · have e : Content.formatOvertime JSNum.nan = Content.formatOvertime (.fin ((0 : ℤ) : ℚ)) := by
      unfold Content.formatOvertime
      simp [JSNum.or, JSNum.truthy]
    rw [e, content_formatOvertime_int]
    decide

/-- Witness of C6 (amended) at `abc`. -/
theorem malformed_time_is_nan_witness :
    "abc" ≠ "" ∧ ':' ∉ "abc".toList ∧
      Content.timeToMinutes (.str "abc") = JSNum.nan ∧
      Content.calculateOvertime (.str "abc") (.str "18:00") = JSNum.nan :=
  ⟨by decide, by decide, (malformed_time_is_nan "abc" (by decide) (by decide)).2.1,
    ((malformed_time_is_nan "abc" (by decide) (by decide)).2.2.2.1 (.str "18:00") rfl).1⟩

/-! ### Reconciliation: today and future days -/

theorem isFutureDate_iff (now date : JSDate) :
    isFutureDate now date = decide (now.day < date.day) := by
  simp [isFutureDate, JSDate.setHoursZero, JSDate.getTime]

theorem isToday_iff (now date : JSDate) :
    isToday now date = decide (date.day = now.day) := by
  simp [isToday, JSDate.setHoursZero, JSDate.getTime]

theorem truthy_undefined : JSStr.undefined.truthy = false := rfl

theorem truthy_null : JSStr.null.truthy = false := rfl

/-- C7: for a record dated today whose table row gave no end time, and every
parse result of the API response, the reconciled end time is the API end time
when `lastEventIsOut` is exactly `true` and that end time is present, and is
absent (`null`) otherwise; a result of the fallback path or one whose last
event is not an OUT leaves it absent whatever time it carries. -/
theorem today_endTime_rule (now : JSDate) (savedData : TimeStore)
    (lookup : String → ApiOutcome) (dayData : DayRecord) (times : Option ParsedTimes)
    (hToday : dayData.date.day = now.day) (hEnd : dayData.endTime.truthy = false)
    (hApi : lookup dayData.dateKey = .parsed times) :
    (dataPromise now savedData lookup dayData).1.endTime =
        (times.map fun t =>
          if t.lastEventIsOut = some true ∧ t.endTime.truthy = true then t.endTime
          else JSStr.null).getD JSStr.null ∧
      (∀ t, times = some t → t.lastEventIsOut ≠ some true →
        (dataPromise now savedData lookup dayData).1.endTime = .null) := by
  have hF : isFutureDate now dayData.date = false := by
    rw [isFutureDate_iff]; simp [hToday]
  have hT : isToday now dayData.date = true := by
    rw [isToday_iff]; simp [hToday]
  have key : (dataPromise now savedData lookup dayData).1.endTime =
      (times.map fun t =>
          if t.lastEventIsOut = some true ∧ t.endTime.truthy = true then t.endTime
          else JSStr.null).getD JSStr.null := by
    unfold dataPromise
    simp only [hEnd, hF, hT, hApi, Bool.and_false, Bool.false_eq_true, if_false, if_true]
    cases times with
    | none =>
      simp only [timesLastOut, timesEndTime, timesStartTime, truthy_undefined]
      split <;> simp [hEnd]
    | some t =>
      by_cases h1 : t.lastEventIsOut = some true <;> by_cases h2 : t.endTime.truthy = true <;>
        simp only [timesLastOut, timesEndTime, timesStartTime, h1, h2] <;>
        split <;> simp [hEnd, h1, h2]
  refine ⟨key, ?_⟩
  intro t ht hne
  rw [key, ht]
  simp [hne]


/-- Witness of C7: today, a fallback result with a trailing `17:30`. -/
theorem today_endTime_rule_witness :
    (sampleRecord 20243 (.str "09:05") .null).date.day = sampleNow.day ∧
      (sampleRecord 20243 (.str "09:05") .null).endTime.truthy = false ∧
      (dataPromise sampleNow emptyStore (fun _ => .parsed (some sampleFallback))
        (sampleRecord 20243 (.str "09:05") .null)).1.endTime = .null :=
  ⟨rfl, rfl,
    (today_endTime_rule sampleNow emptyStore (fun _ => .parsed (some sampleFallback))
      (sampleRecord 20243 (.str "09:05") .null) (some sampleFallback) rfl rfl rfl).2
      sampleFallback rfl (by decide)⟩

/-- C8: for a record dated strictly after today, no API lookup is made, the
reconciled start time is the table value if present, else the start time of the
entry persisted under the record's `dateKey` if there is one and it is present,
else `09:00`, and the reconciled end time is the table value if present, else
the end time of the persisted entry if present, else `18:00`; with no table
data and nothing persisted the record resolves to `09:00` and `18:00`. -/
theorem future_rule (now : JSDate) (savedData : TimeStore) (lookup : String → ApiOutcome)
    (dayData : DayRecord) (hFuture : now.day < dayData.date.day) :
    (dataPromise now savedData lookup dayData).2 = [] ∧
      (dataPromise now savedData lookup dayData).1.startTime =
        futureFill dayData.startTime
          ((savedData dayData.dateKey).map fun entry => entry.startTime) "09:00" ∧
      (dataPromise now savedData lookup dayData).1.endTime =
        futureFill dayData.endTime
          ((savedData dayData.dateKey).map fun entry => entry.endTime) "18:00" ∧
      (dayData.startTime.truthy = false → dayData.endTime.truthy = false →
        savedData dayData.dateKey = none →
        (dataPromise now savedData lookup dayData).1.startTime = .str "09:00" ∧
        (dataPromise now savedData lookup dayData).1.endTime = .str "18:00") := by
  have hF : isFutureDate now dayData.date = true := by
    rw [isFutureDate_iff]; simp [hFuture]
  have key : (dataPromise now savedData lookup dayData).2 = [] ∧
      (dataPromise now savedData lookup dayData).1.startTime =
        futureFill dayData.startTime
          ((savedData dayData.dateKey).map fun entry => entry.startTime) "09:00" ∧
      (dataPromise now savedData lookup dayData).1.endTime =
        futureFill dayData.endTime
          ((savedData dayData.dateKey).map fun entry => entry.endTime) "18:00" := by
    unfold dataPromise futureFill
    cases hsaved : savedData dayData.dateKey with
    | none =>
      by_cases hs : dayData.startTime.truthy = true <;>
        by_cases he : dayData.endTime.truthy = true <;>
        simp [hF, hs, he, JSStr.or, savedStartTime, savedEndTime, truthy_undefined]
    | some entry =>
      by_cases hs : dayData.startTime.truthy = true <;>
        by_cases he : dayData.endTime.truthy = true <;>
        by_cases h1 : entry.startTime.truthy = true <;>
        by_cases h2 : entry.endTime.truthy = true <;>
        simp [hF, hs, he, h1, h2, JSStr.or, savedStartTime, savedEndTime]
  refine ⟨key.1, key.2.1, key.2.2, ?_⟩
  intro hs he hn
  rw [key.2.1, key.2.2, hn]
  simp [futureFill, hs, he]

/-- Witness of C8: a future day without table data, once with an entry
persisted under its key (`07:00` and `21:00`), once with nothing persisted. -/
theorem future_rule_witness :
    sampleNow.day < (sampleRecord 20244 .null .null).date.day ∧
      sampleFullStore (sampleRecord 20244 .null .null).dateKey
        = some ⟨.str "07:00", .str "21:00"⟩ ∧
      (dataPromise sampleNow sampleFullStore (fun _ => .failed)
        (sampleRecord 20244 .null .null)).2 = [] ∧
      (dataPromise sampleNow sampleFullStore (fun _ => .failed)
        (sampleRecord 20244 .null .null)).1.startTime = .str "07:00" ∧
      (dataPromise sampleNow sampleFullStore (fun _ => .failed)
        (sampleRecord 20244 .null .null)).1.endTime = .str "21:00" ∧
      (dataPromise sampleNow sampleFullStore (fun _ => .failed)
        (sampleRecord 20244 .null (.str "17:45"))).1.endTime = .str "17:45" ∧
      (dataPromise sampleNow emptyStore (fun _ => .failed)
        (sampleRecord 20244 .null .null)).1.startTime = .str "09:00" ∧
      (dataPromise sampleNow emptyStore (fun _ => .failed)
        (sampleRecord 20244 .null .null)).1.endTime = .str "18:00" :=
  ⟨by decide, rfl,
    (future_rule sampleNow sampleFullStore (fun _ => .failed) (sampleRecord 20244 .null .null)
      (by decide)).1,
    (future_rule sampleNow sampleFullStore (fun _ => .failed) (sampleRecord 20244 .null .null)
      (by decide)).2.1.trans (by decide),
    (future_rule sampleNow sampleFullStore (fun _ => .failed) (sampleRecord 20244 .null .null)
      (by decide)).2.2.1.trans (by decide),
    (future_rule sampleNow sampleFullStore (fun _ => .failed)
      (sampleRecord 20244 .null (.str "17:45")) (by decide)).2.2.1.trans (by decide),
    ((future_rule sampleNow emptyStore (fun _ => .failed) (sampleRecord 20244 .null .null)
      (by decide)).2.2.2 rfl rfl rfl).1,
    ((future_rule sampleNow emptyStore (fun _ => .failed) (sampleRecord 20244 .null .null)
      (by decide)).2.2.2 rfl rfl rfl).2⟩

/-! ### Reconciliation: past days and table values -/

/-- C9 (counterexample): a past day whose table row gave the end time `18:00`
but no start time reaches the API lookup; the API result has the end time
`17:30`, and the reconciled end time is still `18:00`. -/
theorem past_endTime_not_unconditional :
    (sampleRecord 20242 .null (.str "18:00")).date.day < sampleNow.day ∧
      ¬ ((sampleRecord 20242 .null (.str "18:00")).startTime.truthy = true ∧
        (sampleRecord 20242 .null (.str "18:00")).endTime.truthy = true) ∧
      (dataPromise sampleNow emptyStore (fun _ => .parsed (some sampleFallback))
        (sampleRecord 20242 .null (.str "18:00"))).2 = ["20250604"] ∧
      sampleFallback.endTime.truthy = true ∧
      (dataPromise sampleNow emptyStore (fun _ => .parsed (some sampleFallback))
        (sampleRecord 20242 .null (.str "18:00"))).1.endTime ≠ sampleFallback.endTime ∧
      (dataPromise sampleNow emptyStore (fun _ => .parsed (some sampleFallback))
        (sampleRecord 20242 .null (.str "18:00"))).1.endTime = .str "18:00" := by
  decide

/-- C9 (amended): for a record dated strictly before today whose table row gave
no end time, the API is looked up and, if the parse result has an end time, the
reconciled end time is that API end time, whatever `lastEventIsOut` is and
whichever path produced the result. -/
theorem past_endTime_rule (now : JSDate) (savedData : TimeStore)
    (lookup : String → ApiOutcome) (dayData : DayRecord) (times : ParsedTimes)
    (hPast : dayData.date.day < now.day) (hEnd : dayData.endTime.truthy = false)
    (hApi : lookup dayData.dateKey = .parsed (some times))
    (hHas : times.endTime.truthy = true) :
    (dataPromise now savedData lookup dayData).2 = [dayData.dateKey] ∧
      (dataPromise now savedData lookup dayData).1.endTime = times.endTime := by
  have hF : isFutureDate now dayData.date = false := by
    rw [isFutureDate_iff]; simp; omega
  have hT : isToday now dayData.date = false := by
    rw [isToday_iff]; simp; omega
  unfold dataPromise
  simp only [hEnd, hF, hT, hApi, Bool.and_false, Bool.false_eq_true, if_false]
  constructor
  · trivial
  · split <;> simp [timesEndTime, hHas, hEnd]

/-- Witness of C9 (amended): a past day without end time, a fallback result. -/
theorem past_endTime_rule_witness :
    (sampleRecord 20242 .null .null).date.day < sampleNow.day ∧
      (sampleRecord 20242 .null .null).endTime.truthy = false ∧
      sampleFallback.endTime.truthy = true ∧
      (dataPromise sampleNow emptyStore (fun _ => .parsed (some sampleFallback))
        (sampleRecord 20242 .null .null)).1.endTime = .str "17:30" :=
  ⟨by decide, rfl, rfl,
    (past_endTime_rule sampleNow emptyStore (fun _ => .parsed (some sampleFallback))
      (sampleRecord 20242 .null .null) sampleFallback (by decide) rfl rfl rfl).2⟩

/-- C10: whatever the day state, the API outcome and the persisted mapping, a
start time or end time the table supplied is the reconciled start time or end
time: only absent fields are filled. -/
theorem reconcile_keeps_table_values (now : JSDate) (savedData : TimeStore)
    (lookup : String → ApiOutcome) (dayData : DayRecord) :
    (dayData.startTime.truthy = true →
        (dataPromise now savedData lookup dayData).1.startTime = dayData.startTime) ∧
      (dayData.endTime.truthy = true →
        (dataPromise now savedData lookup dayData).1.endTime = dayData.endTime) := by
  constructor
  · intro hs
    unfold dataPromise
    by_cases he : dayData.endTime.truthy = true
    · simp [hs, he]
    · by_cases hF : isFutureDate now dayData.date = true
      · simp [hs, he, hF, JSStr.or]
      · simp only [hs, he, hF, Bool.true_and, Bool.false_eq_true, if_false, Bool.not_true,
          Bool.false_and]
        cases lookup dayData.dateKey with
        | failed => rfl
        | parsed times =>
          simp only []
          split <;> split <;> (try split) <;> rfl
  · intro he
    unfold dataPromise
    by_cases hs : dayData.startTime.truthy = true
    · simp [hs, he]
    · by_cases hF : isFutureDate now dayData.date = true
      · simp [hs, he, hF, JSStr.or]
      · simp only [hs, he, hF, Bool.false_and, Bool.false_eq_true, if_false]
        cases lookup dayData.dateKey with
        | failed => rfl
        | parsed times =>
          simp only []
          split <;> split <;> simp [he]

/-- Witness of C10: a past day with a table end time and an API result that
carries other times. -/
theorem reconcile_keeps_table_values_witness :
    (sampleRecord 20242 .null (.str "18:00")).endTime.truthy = true ∧
      (dataPromise sampleNow emptyStore (fun _ => .parsed (some sampleStructuredOut))
        (sampleRecord 20242 .null (.str "18:00"))).1.endTime
        = (sampleRecord 20242 .null (.str "18:00")).endTime :=
  ⟨rfl,
    (reconcile_keeps_table_values sampleNow emptyStore
      (fun _ => .parsed (some sampleStructuredOut))
      (sampleRecord 20242 .null (.str "18:00"))).2 rfl⟩

/-! ### Reconciliation: complete rows and failed lookups -/

/-- C11: a record for which the table supplied both a start time and an end
time is returned unchanged in every field, whatever the day, the API outcome and
the persisted mapping are; no lookup is made and `lastEventIsOut` stays as it
was. -/
theorem complete_record_unchanged (now : JSDate) (savedData : TimeStore)
    (lookup : String → ApiOutcome) (dayData : DayRecord)
    (hs : dayData.startTime.truthy = true) (he : dayData.endTime.truthy = true) :
    (dataPromise now savedData lookup dayData).1 = dayData ∧
      (dataPromise now savedData lookup dayData).2 = [] ∧
      (dataPromise now savedData lookup dayData).1.lastEventIsOut = dayData.lastEventIsOut := by
  unfold dataPromise
  simp [hs, he]

/-- Witness of C11: a complete row of today, an API result with other times and
a persisted entry. -/
theorem complete_record_unchanged_witness :
    (sampleRecord 20243 (.str "09:00") (.str "18:00")).startTime.truthy = true ∧
      (sampleRecord 20243 (.str "09:00") (.str "18:00")).endTime.truthy = true ∧
      ((dataPromise sampleNow sampleFullStore (fun _ => .parsed (some sampleOtherTimes))
          (sampleRecord 20243 (.str "09:00") (.str "18:00"))).1
          = sampleRecord 20243 (.str "09:00") (.str "18:00") ∧
        (dataPromise sampleNow sampleFullStore (fun _ => .parsed (some sampleOtherTimes))
          (sampleRecord 20243 (.str "09:00") (.str "18:00"))).2 = [] ∧
        (dataPromise sampleNow sampleFullStore (fun _ => .parsed (some sampleOtherTimes))
          (sampleRecord 20243 (.str "09:00") (.str "18:00"))).1.lastEventIsOut
          = (sampleRecord 20243 (.str "09:00") (.str "18:00")).lastEventIsOut) :=
  ⟨rfl, rfl,
    complete_record_unchanged sampleNow sampleFullStore
      (fun _ => .parsed (some sampleOtherTimes))
      (sampleRecord 20243 (.str "09:00") (.str "18:00")) rfl rfl⟩

/-- A day whose lookup throws keeps its table record. -/
theorem dataPromise_failed (now : JSDate) (savedData : TimeStore)
    (lookup : String → ApiOutcome) (dayData : DayRecord)
    (hNotFuture : isFutureDate now dayData.date = false)
    (hFail : lookup dayData.dateKey = .failed) :
    (dataPromise now savedData lookup dayData).1 = dayData := by
  unfold dataPromise
  by_cases hb : (dayData.startTime.truthy && dayData.endTime.truthy) = true
  · simp [hb]
  · simp [hb, hNotFuture, hFail]

/-- The record of a day depends on the lookup of that day only. -/
theorem dataPromise_congr (now : JSDate) (savedData : TimeStore)
    (lookup lookup2 : String → ApiOutcome) (dayData : DayRecord)
    (h : lookup dayData.dateKey = lookup2 dayData.dateKey) :
    dataPromise now savedData lookup dayData = dataPromise now savedData lookup2 dayData := by
  unfold dataPromise
  rw [h]

/-- C12: for a week of five records and any choice of the past or today
lookups that fail, reconciliation yields five records; the record of a day
whose lookup failed is its table record, and the record of every other day is
the one obtained when no lookup fails. -/
theorem failure_isolation (now : JSDate) (savedData : TimeStore)
    (lookup : String → ApiOutcome) (failed : String → Bool) (weeklyData : List DayRecord)
    (hLen : weeklyData.length = 5) :
    (dataPromises now savedData (failLookups failed lookup) weeklyData).length = 5 ∧
      ∀ i (hi : i < weeklyData.length),
        (dataPromises now savedData (failLookups failed lookup) weeklyData)[i]? =
          (if failed weeklyData[i].dateKey = true ∧ now.day ≥ weeklyData[i].date.day then
            some weeklyData[i]
          else (dataPromises now savedData lookup weeklyData)[i]?) := by
  refine ⟨by simp [dataPromises, hLen], ?_⟩
  intro i hi
  simp only [dataPromises, List.getElem?_map, List.getElem?_eq_getElem hi, Option.map_some']
  by_cases hf : failed weeklyData[i].dateKey = true
  · by_cases hd : now.day ≥ weeklyData[i].date.day
    · rw [if_pos ⟨hf, hd⟩]
      congr 1
      apply dataPromise_failed
      · rw [isFutureDate_iff]; simp; omega
      · simp [failLookups, hf]
    · rw [if_neg (fun h => hd h.2)]
      have hF : isFutureDate now weeklyData[i].date = true := by
        rw [isFutureDate_iff]; simp; omega
      congr 2
      unfold dataPromise
      simp [hF]
  · rw [if_neg (fun h => hf h.1)]
    congr 2
    apply dataPromise_congr
    simp [failLookups, hf]

/-- Witness of C12: in the sample week the lookups of Tuesday and Wednesday
fail; five records come out and Tuesday keeps its table record. -/
theorem failure_isolation_witness :
    sampleWeek.length = 5 ∧
      (dataPromises sampleNow emptyStore
        (failLookups (fun k => k == "20250603" || k == "20250604")
          (fun _ => .parsed (some sampleOtherTimes))) sampleWeek).length = 5 ∧
      (dataPromises sampleNow emptyStore
        (failLookups (fun k => k == "20250603" || k == "20250604")
          (fun _ => .parsed (some sampleOtherTimes))) sampleWeek)[1]?
        = some ⟨"20250603", ⟨20242, 0⟩, .null, .str "18:10", none⟩ :=
  ⟨rfl,
    (failure_isolation sampleNow emptyStore (fun _ => .parsed (some sampleOtherTimes))
      (fun k => k == "20250603" || k == "20250604") sampleWeek rfl).1,
    ((failure_isolation sampleNow emptyStore (fun _ => .parsed (some sampleOtherTimes))
      (fun k => k == "20250603" || k == "20250604") sampleWeek rfl).2 1 (by decide)).trans
      (by decide)⟩

/-! ### Weekly total -/

theorem or_null_truthy (a : JSStr) : (a.or .null).truthy = a.truthy := by
  unfold JSStr.or
  by_cases h : a.truthy = true
  · simp [h]
  · have h' : a.truthy = false := by simpa using h
    simp [h', truthy_null]

theorem or_null_of_truthy (a : JSStr) (h : a.truthy = true) : a.or .null = a := by
  simp [JSStr.or, h]

/-- An absent first argument may be replaced by `null`. -/
theorem content_calculateOvertime_or_null (a b : JSStr) :
    Content.calculateOvertime (a.or .null) b = Content.calculateOvertime a b := by
  by_cases h : a.truthy = true
  · rw [or_null_of_truthy a h]
  · have h' : a.truthy = false := by simpa using h
    rw [content_calculateOvertime_absent a b (Or.inl h'),
      content_calculateOvertime_absent _ b (Or.inl (by rw [or_null_truthy]; exact h'))]

/-- The end time the callback counts and the one the specification describes
give the same overtime. -/
theorem overtime_effectiveEnd (now : JSDate) (savedData : TimeStore) (day : DayRecord) :
    Content.calculateOvertime (day.startTime.or .null)
        (if (!(day.endTime.or .null).truthy && isToday now day.date) = true then
          (if (savedEndTime (savedData day.dateKey)).truthy = true then
            savedEndTime (savedData day.dateKey)
          else .str "18:00")
        else day.endTime.or .null) =
      Content.calculateOvertime day.startTime (specEffectiveEnd now savedData day) := by
  rw [content_calculateOvertime_or_null]
  unfold specEffectiveEnd
  simp only [or_null_truthy, isToday_iff]
  by_cases he : day.endTime.truthy = true
  · simp [he, or_null_of_truthy]
  · have he' : day.endTime.truthy = false := by simpa using he
    by_cases ht : day.date.day = now.day
    · cases hs : savedData day.dateKey with
      | none => simp [he', ht, savedEndTime, truthy_undefined]
      | some entry => simp [he', ht, savedEndTime]
    · simp only [he', ht, Bool.not_false, decide_False, Bool.and_false, Bool.false_eq_true,
        if_false]
      rw [content_calculateOvertime_absent _ _ (Or.inr (by rw [or_null_truthy]; exact he')),
        content_calculateOvertime_absent _ JSStr.null (Or.inr truthy_null)]

/-- One call of the callback leaves the state it ran in. -/
theorem totalCallback_state (now : JSDate) (state : TotalRowState) (sum : JSNum) (i : ℕ) :
    (totalCallback now state sum i).1 = state := by
  unfold totalCallback
  cases state.weeklyData[i]? <;> rfl

/-- The sum one call of the callback returns. -/
theorem totalCallback_sum (now : JSDate) (state : TotalRowState) (sum : JSNum) (i : ℕ)
    (day : DayRecord) (h : state.weeklyData[i]? = some day) :
    (totalCallback now state sum i).2 =
      sum.add ((Content.calculateOvertime day.startTime
        (specEffectiveEnd now state.savedData day)).or (.fin 0)) := by
  unfold totalCallback
  rw [h]
  show sum.add ((Content.calculateOvertime (day.startTime.or .null) _).or (.fin 0)) = _
  rw [overtime_effectiveEnd]

/-- A run of the callback over positions: the state stays, the sums chain. -/
theorem totalFold (now : JSDate) (state : TotalRowState) (idxs : List ℕ) (sum : JSNum) :
    idxs.foldl (fun acc i => totalCallback now acc.1 acc.2 i) (state, sum) =
      (state, idxs.foldl (fun s i => (totalCallback now state s i).2) sum) := by
  induction idxs generalizing sum with
  | nil => rfl
  | cons i t ih =>
    simp only [List.foldl_cons]
    have e : totalCallback now state sum i = (state, (totalCallback now state sum i).2) :=
      Prod.ext (totalCallback_state now state sum i) rfl
    rw [e]
    exact ih _

/-- A fold over the positions of a list that reads the element at each
position is the fold over the elements. -/
theorem foldl_range_getElem {α β : Type} (f : β → α → β) (g : β → ℕ → β) (l : List α)
    (hg : ∀ s i d, l[i]? = some d → g s i = f s d) (s : β) :
    (List.range l.length).foldl g s = l.foldl f s := by
  induction l using List.reverseRecOn generalizing s with
  | nil => rfl
  | append_singleton l' d ih =>
    rw [List.length_append, List.length_singleton, List.range_succ, List.foldl_append,
      List.foldl_append]
    rw [ih fun s i d' h => hg s i d' (by
      have hi : i < l'.length := (List.getElem?_eq_some_iff.mp h).1
      rw [List.getElem?_append_left hi]; exact h)]
    simp only [List.foldl_cons, List.foldl_nil]
    exact hg _ _ _ (by simp)

/-- The total of `renderTotalRow` is the guarded sum. -/
theorem totalOvertime_eq_guarded (now : JSDate) (savedData : TimeStore)
    (weeklyData : List DayRecord) :
    totalOvertime now savedData weeklyData = guardedOvertimeSum now savedData weeklyData := by
  unfold totalOvertime totalReduce guardedOvertimeSum
  rw [totalFold, List.foldl_map]
  exact foldl_range_getElem _ _ weeklyData
    (fun s i d h => totalCallback_sum now ⟨weeklyData, savedData, "", ""⟩ s i d h) _

/-- The run of `reduce` leaves the state it started in. -/
theorem totalReduce_state (now : JSDate) (state : TotalRowState) :
    (totalReduce now state).1 = state := by
  unfold totalReduce
  rw [totalFold]

theorem or_zero_of_ne_nan (x : JSNum) (h : x ≠ .nan) : x.or (.fin 0) = x := by
  cases x with
  | nan => exact absurd rfl h
  | fin q =>
    by_cases hq : q = 0
    · subst hq; simp [JSNum.or, JSNum.truthy]
    · simp [JSNum.or, JSNum.truthy, hq]
  | inf s => simp [JSNum.or, JSNum.truthy]

/-- Without a `NaN` overtime the guarded sum is the plain sum. -/
theorem guarded_eq_plain (now : JSDate) (savedData : TimeStore) (weeklyData : List DayRecord)
    (h : ∀ day ∈ weeklyData,
      Content.calculateOvertime day.startTime (specEffectiveEnd now savedData day) ≠ .nan) :
    guardedOvertimeSum now savedData weeklyData = plainOvertimeSum now savedData weeklyData := by
  unfold guardedOvertimeSum plainOvertimeSum
  congr 1
  apply List.map_congr_left
  intro d hd
  exact or_zero_of_ne_nan _ (h d hd)

/-- Shape of a time written `dd:dd`. -/
theorem padded_shape {s : String} (h : isPaddedTime s = true) :
    ∃ a b d e : Char, s = String.mk [a, b, ':', d, e] ∧ a.isDigit = true ∧ b.isDigit = true ∧
      d.isDigit = true ∧ e.isDigit = true := by
  obtain ⟨cs⟩ := s
  unfold isPaddedTime at h
  simp only [String.toList] at h
  split at h
  · rename_i a b c d e
    simp only [Bool.and_eq_true, beq_iff_eq] at h
    obtain ⟨⟨⟨⟨ha, hb⟩, hc⟩, hd⟩, he⟩ := h
    subst hc
    exact ⟨a, b, d, e, rfl, ha, hb, hd, he⟩
  · exact absurd h (by simp)

/-- The content-script `timeToMinutes` on a time written `dd:dd` is a number. -/
theorem content_timeToMinutes_padded {s : String} (h : isPaddedTime s = true) :
    Content.timeToMinutes (.str s) = .fin (minuteOfDay s : ℚ) := by
  obtain ⟨a, b, d, e, rfl, ha, hb, hd, he⟩ := padded_shape h
  unfold Content.timeToMinutes
  simp only [jsSplit_clock ha hb hd he]
  have h1 := stringToNumber_digits [a, b] (by simp) (by simp [ha, hb])
  have h2 := stringToNumber_digits [d, e] (by simp) (by simp [hd, he])
  simp [JSStr.truthy, h1, h2, elemToNumber, JSNum.mul, JSNum.add, minuteOfDay, clockHour,
    clockMinute, digitsValue]
  ring

theorem padded_truthy {s : String} (h : isPaddedTime s = true) :
    (JSStr.str s).truthy = true := by
  obtain ⟨a, b, d, e, rfl, -⟩ := padded_shape h
  rfl

/-- A time value is absent or written `dd:dd`. -/
theorem timeValue_cases (t : JSStr) (h : isTimeValue t = true) :
    t.truthy = false ∨ ∃ s, t = .str s ∧ isPaddedTime s = true := by
  cases t with
  | null => exact Or.inl rfl
  | undefined => exact Or.inl rfl
  | str s =>
    simp only [isTimeValue, Bool.or_eq_true, beq_iff_eq] at h
    rcases h with h | h
    · subst h; exact Or.inl rfl
    · exact Or.inr ⟨s, rfl, h⟩

/-- The overtime of two time values is a number. -/
theorem overtime_timeValue_ne_nan (a b : JSStr) (ha : isTimeValue a = true)
    (hb : isTimeValue b = true) : Content.calculateOvertime a b ≠ .nan := by
  rcases timeValue_cases a ha with h | ⟨s, rfl, hs⟩
  · rw [content_calculateOvertime_absent a b (Or.inl h)]
    exact fun e => JSNum.noConfusion e
  · rcases timeValue_cases b hb with h | ⟨t, rfl, ht⟩
    · rw [content_calculateOvertime_absent _ b (Or.inr h)]
      exact fun e => JSNum.noConfusion e
    · unfold Content.calculateOvertime
      simp only [padded_truthy hs, padded_truthy ht, content_timeToMinutes_padded hs,
        content_timeToMinutes_padded ht, Content.DEFAULT_BREAK_TIME, Content.DEFAULT_WORK_HOURS,
        JSNum.lt, JSNum.mul, JSNum.sub, JSNum.add, JSNum.neg]
      by_cases hlt : ((minuteOfDay t : ℤ) : ℚ) < ((minuteOfDay s : ℤ) : ℚ) <;> simp [hlt]

/-- On well-formed records and store the overtime of a day is a number. -/
theorem day_overtime_ne_nan (now : JSDate) (savedData : TimeStore) (day : DayRecord)
    (hs : isTimeValue day.startTime = true) (he : isTimeValue day.endTime = true)
    (hStore : ∀ dateKey entry, savedData dateKey = some entry →
      isTimeValue entry.endTime = true) :
    Content.calculateOvertime day.startTime (specEffectiveEnd now savedData day) ≠ .nan := by
  apply overtime_timeValue_ne_nan _ _ hs
  unfold specEffectiveEnd
  by_cases he' : day.endTime.truthy = true
  · simp only [he', if_true]
    exact he
  · by_cases ht : day.date.day = now.day
    · cases hsv : savedData day.dateKey with
      | none =>
        simp only [he', ht, if_false, if_true]
        rfl
      | some entry =>
        by_cases h2 : entry.endTime.truthy = true
        · simp only [he', ht, h2, if_false, if_true]
          exact hStore _ _ hsv
        · simp only [he', ht, h2, if_false, if_true]
          rfl
    · simp only [he', ht, if_false]
      rfl

theorem overtime_nine_to_nineteen :
    Content.calculateOvertime (.str "09:00") (.str "19:00") = .fin 60 := by
  rw [content_calculateOvertime_clock (by decide) (by decide)]
  have : shiftSpan "09:00" "19:00" - 60 - 480 = 60 := by decide
  rw [this]; rfl

theorem overtime_nine_to_eighteen :
    Content.calculateOvertime (.str "09:00") (.str "18:00") = .fin 0 := by
  rw [content_calculateOvertime_clock (by decide) (by decide)]
  have : shiftSpan "09:00" "18:00" - 60 - 480 = 0 := by decide
  rw [this]; rfl

theorem overtime_nine_to_twentyone :
    Content.calculateOvertime (.str "09:00") (.str "21:00") = .fin 180 := by
  rw [content_calculateOvertime_clock (by decide) (by decide)]
  have : shiftSpan "09:00" "21:00" - 60 - 480 = 180 := by decide
  rw [this]; rfl

theorem overtime_null_null : Content.calculateOvertime .null .null = .fin 0 :=
  content_calculateOvertime_absent _ _ (Or.inl rfl)

/-- The overtimes of the sample week when an end time of `21:00` is persisted
for today: the substituted end time counts three hours. -/
theorem sampleWeekLate_full_overtimes :
    (sampleWeekLate.map fun day =>
      Content.calculateOvertime day.startTime
        (specEffectiveEnd sampleNow sampleFullStore day)) =
      [.fin 60, .fin 0, .fin 180, .fin 0, .fin 0] := by
  have e3 : specEffectiveEnd sampleNow sampleFullStore
      ⟨"20250604", ⟨20243, 0⟩, .str "09:00", .null, some false⟩ = .str "21:00" := by decide
  have e4 : specEffectiveEnd sampleNow sampleFullStore
      ⟨"20250605", ⟨20244, 0⟩, .null, .null, none⟩ = .null := by decide
  have e5 : specEffectiveEnd sampleNow sampleFullStore
      ⟨"20250606", ⟨20245, 0⟩, .null, .null, none⟩ = .null := by decide
  have e1 : specEffectiveEnd sampleNow sampleFullStore
      ⟨"20250602", ⟨20241, 0⟩, .str "09:00", .str "19:00", none⟩ = .str "19:00" := by decide
  have e2 : specEffectiveEnd sampleNow sampleFullStore
      ⟨"20250603", ⟨20242, 0⟩, .str "09:00", .str "18:00", none⟩ = .str "18:00" := by decide
  simp only [sampleWeekLate, List.map, e1, e2, e3, e4, e5, overtime_nine_to_nineteen,
    overtime_nine_to_eighteen, overtime_nine_to_twentyone, overtime_null_null]

theorem sampleWeekLate_full_plain :
    plainOvertimeSum sampleNow sampleFullStore sampleWeekLate = .fin 240 := by
  unfold plainOvertimeSum
  rw [sampleWeekLate_full_overtimes]
  simp only [List.foldl_cons, List.foldl_nil, JSNum.add]
  norm_num

theorem sampleWeekLate_full_guarded :
    guardedOvertimeSum sampleNow sampleFullStore sampleWeekLate = .fin 240 := by
  unfold guardedOvertimeSum
  have := congrArg (List.map fun x : JSNum => x.or (.fin 0)) sampleWeekLate_full_overtimes
  rw [List.map_map] at this
  rw [show (fun day : DayRecord =>
      (Content.calculateOvertime day.startTime
        (specEffectiveEnd sampleNow sampleFullStore day)).or (.fin 0)) =
      ((fun x : JSNum => x.or (.fin 0)) ∘ fun day : DayRecord =>
        Content.calculateOvertime day.startTime
          (specEffectiveEnd sampleNow sampleFullStore day)) from rfl, this]
  simp only [List.map, JSNum.or, JSNum.truthy, List.foldl_cons, List.foldl_nil, JSNum.add]
  norm_num

theorem formatOvertime_240 : Content.formatOvertime (.fin 240) = "4:00" := by
  have := content_formatOvertime_int 240
  simp only [Int.cast_ofNat] at this
  rw [this]
  decide

theorem sampleWeekLate_timeValues :
    ∀ day ∈ sampleWeekLate,
      isTimeValue day.startTime = true ∧ isTimeValue day.endTime = true := by
  decide

theorem sampleFullStore_timeValues :
    ∀ dateKey entry, sampleFullStore dateKey = some entry →
      isTimeValue entry.endTime = true := by
  intro dateKey entry h
  have e : entry = ⟨.str "07:00", .str "21:00"⟩ := (Option.some.inj h).symm
  subst e
  decide

/-- C16: for every list of reconciled records and every persisted mapping whose
times are absent or written `dd:dd` (what the extraction, the defaults and the
time inputs give), the total shown in the totals row is the sum over the days
of `calculateOvertime(startTime, effectiveEnd)`, `effectiveEnd` being the
record's end time when present, else for today the persisted end time for the
record's key when present and else `18:00`, else absent, so that the day
counts 0. -/
theorem weekly_total_plain_sum (now : JSDate) (savedData : TimeStore)
    (weeklyData : List DayRecord)
    (hRecords : ∀ day ∈ weeklyData,
      isTimeValue day.startTime = true ∧ isTimeValue day.endTime = true)
    (hStore : ∀ dateKey entry, savedData dateKey = some entry →
      isTimeValue entry.endTime = true) :
    totalOvertime now savedData weeklyData = plainOvertimeSum now savedData weeklyData ∧
      (renderTotalRow now weeklyData savedData).totalText
        = Content.formatOvertime (plainOvertimeSum now savedData weeklyData) ∧
      (∀ day ∈ weeklyData, day.endTime.truthy = false → day.date.day ≠ now.day →
        Content.calculateOvertime day.startTime (specEffectiveEnd now savedData day)
          = JSNum.ofInt 0) := by
  have key : totalOvertime now savedData weeklyData
      = plainOvertimeSum now savedData weeklyData := by
    rw [totalOvertime_eq_guarded]
    exact guarded_eq_plain _ _ _ fun day hd =>
      day_overtime_ne_nan now savedData day (hRecords day hd).1 (hRecords day hd).2 hStore
  refine ⟨key, ?_, ?_⟩
  · show Content.formatOvertime (totalOvertime now savedData weeklyData) = _
    rw [key]
  · intro day _ he ht
    have e : specEffectiveEnd now savedData day = .null := by
      unfold specEffectiveEnd
      simp [he, ht]
    rw [e, content_calculateOvertime_absent _ _ (Or.inr truthy_null)]
    simp [JSNum.ofInt]

/-- Witness of C16: the sample week with an end time of `21:00` persisted for
today, which counts three hours; the total is shown `4:00`. -/
theorem weekly_total_plain_sum_witness :
    (∀ day ∈ sampleWeekLate,
        isTimeValue day.startTime = true ∧ isTimeValue day.endTime = true) ∧
      (∀ dateKey entry, sampleFullStore dateKey = some entry →
        isTimeValue entry.endTime = true) ∧
      sampleWeekLate.length = 5 ∧
      (renderTotalRow sampleNow sampleWeekLate sampleFullStore).totalText = "4:00" :=
  ⟨sampleWeekLate_timeValues, sampleFullStore_timeValues, rfl,
    (weekly_total_plain_sum sampleNow sampleFullStore sampleWeekLate sampleWeekLate_timeValues
      sampleFullStore_timeValues).2.1.trans
      (by rw [sampleWeekLate_full_plain]; exact formatOvertime_240)⟩

/-- C17: computing the weekly total writes nothing back.  Each call of the
callback of `reduce` leaves the records and the persisted mapping as it found
them; after `renderTotalRow` the records (start time, end time and
`lastEventIsOut` of each) and every entry of the persisted mapping are what
they were before, also for today, whose substituted end time is counted in the
total shown and nowhere else. -/
theorem renderTotalRow_frame (now : JSDate) (weeklyData : List DayRecord)
    (savedData : TimeStore) :
    (∀ (state : TotalRowState) (sum : JSNum) (i : ℕ),
        (totalCallback now state sum i).1.weeklyData = state.weeklyData ∧
          (totalCallback now state sum i).1.savedData = state.savedData) ∧
      (renderTotalRow now weeklyData savedData).weeklyData = weeklyData ∧
      (∀ i (hi : i < weeklyData.length),
        ((renderTotalRow now weeklyData savedData).weeklyData[i]?.map
            fun d => (d.startTime, d.endTime, d.lastEventIsOut))
          = some (weeklyData[i].startTime, weeklyData[i].endTime,
              weeklyData[i].lastEventIsOut)) ∧
      (∀ dateKey, (renderTotalRow now weeklyData savedData).savedData dateKey
        = savedData dateKey) ∧
      (renderTotalRow now weeklyData savedData).totalText
        = Content.formatOvertime (guardedOvertimeSum now savedData weeklyData) := by
  have hrun : (totalReduce now ⟨weeklyData, savedData, "", ""⟩).1
      = ⟨weeklyData, savedData, "", ""⟩ := totalReduce_state now _
  have hw : (renderTotalRow now weeklyData savedData).weeklyData = weeklyData := by
    show (totalReduce now ⟨weeklyData, savedData, "", ""⟩).1.weeklyData = weeklyData
    rw [hrun]
  have hs : (renderTotalRow now weeklyData savedData).savedData = savedData := by
    show (totalReduce now ⟨weeklyData, savedData, "", ""⟩).1.savedData = savedData
    rw [hrun]
  refine ⟨fun state sum i => ?_, hw, ?_, fun dateKey => by rw [hs], ?_⟩
  · rw [totalCallback_state]
    exact ⟨rfl, rfl⟩
  · intro i hi
    rw [hw, List.getElem?_eq_getElem hi]
    rfl
  · show Content.formatOvertime (totalOvertime now savedData weeklyData) = _
    rw [totalOvertime_eq_guarded]

/-- Witness of C17: the sample week, today without end time, and an entry
persisted for every key: the total counts the persisted `21:00` for today and
is shown `4:00`, the record of today still has no end time and the entry is
what it was. -/
theorem renderTotalRow_frame_witness :
    (2 : ℕ) < sampleWeekLate.length ∧
      ((renderTotalRow sampleNow sampleWeekLate sampleFullStore).weeklyData[2]?.map
          fun d => (d.startTime, d.endTime, d.lastEventIsOut))
        = some (JSStr.str "09:00", JSStr.null, some false) ∧
      (renderTotalRow sampleNow sampleWeekLate sampleFullStore).savedData "20250604"
        = some ⟨.str "07:00", .str "21:00"⟩ ∧
      (renderTotalRow sampleNow sampleWeekLate sampleFullStore).totalText = "4:00" :=
  ⟨by decide,
    (renderTotalRow_frame sampleNow sampleWeekLate sampleFullStore).2.2.1 2 (by decide),
    (renderTotalRow_frame sampleNow sampleWeekLate sampleFullStore).2.2.2.1 "20250604",
    (renderTotalRow_frame sampleNow sampleWeekLate sampleFullStore).2.2.2.2.trans
      (by rw [sampleWeekLate_full_guarded]; exact formatOvertime_240)⟩

/-! ### Render branches -/

/-- The branch of a record whose row is found, by the day state. -/
theorem renderBranch_cases (now : JSDate) (dayData : DayRecord) :
    (renderBranch now dayData = .future ↔ now.day < dayData.date.day) ∧
      (renderBranch now dayData = .todayConfirmed ↔
        dayData.date.day = now.day ∧ dayData.lastEventIsOut = some true ∧
          dayData.endTime.truthy = true) ∧
      (renderBranch now dayData = .todayPending ↔
        dayData.date.day = now.day ∧
          ¬ (dayData.lastEventIsOut = some true ∧ dayData.endTime.truthy = true)) ∧
      (renderBranch now dayData = .past ↔ dayData.date.day < now.day) := by
  have key : ∀ (f t : Bool), f = decide (now.day < dayData.date.day) →
      t = decide (dayData.date.day = now.day) →
      ((if f = true then RenderBranch.future
        else if t = true then
          (if (dayData.lastEventIsOut == some true && dayData.endTime.truthy) = true then
            RenderBranch.todayConfirmed
          else RenderBranch.todayPending)
        else RenderBranch.past) = renderBranch now dayData) := by
    intro f t hf ht
    subst hf ht
    simp only [renderBranch, isFutureDate_iff, isToday_iff]
  have hcases : now.day < dayData.date.day ∨ dayData.date.day = now.day ∨
      dayData.date.day < now.day := by omega
  refine ⟨?_, ?_, ?_, ?_⟩
  all_goals
    rcases hcases with h | h | h
    · have hf : decide (now.day < dayData.date.day) = true := by simpa using h
      have ht : decide (dayData.date.day = now.day) = false := by
        simp only [decide_eq_false_iff_not]; omega
      rw [← key _ _ hf.symm ht.symm]
      simp only [if_true, reduceCtorEq, false_iff, true_iff, not_and, not_lt]
      first | exact h | omega
    · have hf : decide (now.day < dayData.date.day) = false := by
        simp only [decide_eq_false_iff_not]; omega
      have ht : decide (dayData.date.day = now.day) = true := by simpa using h
      rw [← key _ _ hf.symm ht.symm]
      by_cases hl : dayData.lastEventIsOut = some true <;>
        by_cases he : dayData.endTime.truthy = true <;>
        simp [hl, he, h]
    · have hf : decide (now.day < dayData.date.day) = false := by
        simp only [decide_eq_false_iff_not]; omega
      have ht : decide (dayData.date.day = now.day) = false := by
        simp only [decide_eq_false_iff_not]; omega
      rw [← key _ _ hf.symm ht.symm]
      simp only [Bool.false_eq_true, if_false, reduceCtorEq, false_iff, true_iff, not_and,
        not_lt]
      first | exact h | omega

theorem find?_isSome_eq_any {α : Type} (p : α → Bool) (l : List α) :
    (l.find? p).isSome = l.any p := by
  induction l with
  | nil => rfl
  | cons a t ih =>
    cases h : p a with
    | true => simp [List.find?_cons, h]
    | false => simp [List.find?_cons, h, ih]

/-- The rows the cells are rendered in: the rows of the table without the
injected marker, and a synthetic row for each record of today or later whose
key none of them carries. -/
theorem mem_renderedRows (now : JSDate) (headerCells : List String) (tableRows : List TableRow)
    (weeklyData : List DayRecord) (r : TableRow) :
    r ∈ renderedRows now headerCells tableRows weeklyData ↔
      (r ∈ tableRows ∧ r.injected = false) ∨
      ∃ d ∈ weeklyData, now.day ≤ d.date.day ∧
        (∀ r' ∈ tableRows, r'.injected = false → rowCarries d.dateKey r' = false) ∧
        r = syntheticRow headerCells (tableRows.filter fun r => !r.injected) d := by
  unfold renderedRows ensureWeeklyRows rowExists
  simp only [List.mem_append, List.mem_map, List.mem_filter, Bool.and_eq_true,
    Bool.not_eq_true', decide_eq_true_eq, JSDate.setHoursZero, JSDate.getTime, List.any_eq_false,
    Nat.cast_zero, add_zero]
  constructor
  · rintro (⟨h1, h2⟩ | ⟨d, ⟨hd, hex, hday⟩, rfl⟩)
    · exact Or.inl ⟨h1, h2⟩
    · refine Or.inr ⟨d, hd, by omega, ?_, rfl⟩
      intro r' hr' hinj
      have := hex r' ⟨hr', hinj⟩
      simpa [rowCarries] using this
  · rintro (⟨h1, h2⟩ | ⟨d, hd, hday, hex, rfl⟩)
    · exact Or.inl ⟨h1, h2⟩
    · refine Or.inr ⟨d, ⟨hd, ?_, by omega⟩, rfl⟩
      intro r' hr'
      have := hex r' hr'.1 hr'.2
      simpa [rowCarries] using this

/-- The loop of `injectColumn`: a record takes its branch when a rendered row
carries its key and none otherwise. -/
theorem injectColumn_eq (now : JSDate) (headerCells : List String) (tableRows : List TableRow)
    (weeklyData : List DayRecord) :
    injectColumn now headerCells tableRows weeklyData =
      weeklyData.map fun d =>
        if (renderedRows now headerCells tableRows weeklyData).any (rowCarries d.dateKey) = true
        then some (renderBranch now d) else none := by
  unfold injectColumn renderedRows
  refine List.map_congr_left fun d _ => ?_
  simp only [find?_isSome_eq_any, injectColumnDay]
  have e : (fun r : TableRow => extractDateKeyFromText r.textContent == some d.dateKey)
      = rowCarries d.dateKey := rfl
  rw [e]
  cases (ensureWeeklyRows now headerCells (tableRows.filter fun r => !r.injected)
    weeklyData).any (rowCarries d.dateKey) <;> rfl

/-- C18 (counterexample): in the week reconciled from the sample table the
Monday is a past day that has no row in the table; no synthetic row is added
for it, the loop of `injectColumn` skips it, and it takes none of the four
branches, while the other four days take one each. -/
theorem past_day_without_row_no_branch :
    (sampleReconciledWeek[0]?.map fun d => (d.dateKey, decide (d.date.day < sampleNow.day)))
        = some ("20250602", true) ∧
      (injectColumn sampleNow sampleHeader sampleAttendance.rows sampleReconciledWeek)[0]?
        = some none ∧
      injectColumn sampleNow sampleHeader sampleAttendance.rows sampleReconciledWeek
        = [none, some .past, some .todayPending, some .future, some .future] := by
  decide

/-- C18 (amended): for every week of reconciled records, every table and every
current date, a record takes a branch exactly when one of the rendered rows
carries its `dateKey`, and then one branch only: future exactly when its date
is strictly after today, today-confirmed exactly when the date is today,
`lastEventIsOut` is true and the end time is present (with the renderer of the
past branch), today-pending exactly when the date is today and it is not
confirmed, past exactly when the date is strictly before today.  The rendered
rows are the rows of the table without the injected marker and one synthetic
row for every record of today or later whose key none of those carries; a past
record whose key no such row carries is skipped. -/
theorem renderBranch_with_row (now : JSDate) (headerCells : List String)
    (tableRows : List TableRow) (weeklyData : List DayRecord) :
    injectColumn now headerCells tableRows weeklyData =
        (weeklyData.map fun d =>
          if (renderedRows now headerCells tableRows weeklyData).any (rowCarries d.dateKey)
            = true
          then some (renderBranch now d) else none) ∧
      (∀ d : DayRecord,
        (renderBranch now d = .future ↔ now.day < d.date.day) ∧
        (renderBranch now d = .todayConfirmed ↔
          d.date.day = now.day ∧ d.lastEventIsOut = some true ∧ d.endTime.truthy = true) ∧
        (renderBranch now d = .todayPending ↔
          d.date.day = now.day ∧ ¬ (d.lastEventIsOut = some true ∧ d.endTime.truthy = true)) ∧
        (renderBranch now d = .past ↔ d.date.day < now.day)) ∧
      branchRenderer .todayConfirmed = branchRenderer .past ∧
      (∀ r : TableRow, r ∈ renderedRows now headerCells tableRows weeklyData ↔
        (r ∈ tableRows ∧ r.injected = false) ∨
        ∃ d ∈ weeklyData, now.day ≤ d.date.day ∧
          (∀ r' ∈ tableRows, r'.injected = false → rowCarries d.dateKey r' = false) ∧
          r = syntheticRow headerCells (tableRows.filter fun r => !r.injected) d) ∧
      (∀ d ∈ weeklyData, d.date.day < now.day →
        (∀ r ∈ tableRows, r.injected = false → rowCarries d.dateKey r = false) →
        (∀ d' ∈ weeklyData, now.day ≤ d'.date.day →
          rowCarries d.dateKey
            (syntheticRow headerCells (tableRows.filter fun r => !r.injected) d') = false) →
        (renderedRows now headerCells tableRows weeklyData).any (rowCarries d.dateKey)
          = false) ∧
      (∀ d ∈ weeklyData, now.day ≤ d.date.day →
        rowCarries d.dateKey
          (syntheticRow headerCells (tableRows.filter fun r => !r.injected) d) = true →
        (renderedRows now headerCells tableRows weeklyData).any (rowCarries d.dateKey)
          = true) := by
  refine ⟨injectColumn_eq now headerCells tableRows weeklyData,
    fun d => renderBranch_cases now d, rfl,
    fun r => mem_renderedRows now headerCells tableRows weeklyData r, ?_, ?_⟩
  · intro d _ _ hrows hsyn
    rw [List.any_eq_false]
    intro r hr
    rcases (mem_renderedRows now headerCells tableRows weeklyData r).mp hr with
      ⟨h1, h2⟩ | ⟨d', hd', hday, -, rfl⟩
    · rw [hrows r h1 h2]; exact Bool.false_ne_true
    · rw [hsyn d' hd' hday]; exact Bool.false_ne_true
  · intro d hd hday hsyn
    by_cases hex : ∀ r' ∈ tableRows, r'.injected = false → rowCarries d.dateKey r' = false
    · rw [List.any_eq_true]
      exact ⟨_, (mem_renderedRows now headerCells tableRows weeklyData _).mpr
        (Or.inr ⟨d, hd, hday, hex, rfl⟩), hsyn⟩
    · push_neg at hex
      obtain ⟨r', hr', hinj, hc⟩ := hex
      rw [List.any_eq_true]
      exact ⟨r', (mem_renderedRows now headerCells tableRows weeklyData r').mpr
        (Or.inl ⟨hr', hinj⟩), by simpa using hc⟩

/-- Witness of C18 (amended): the week reconciled from the sample table.  The
Monday, a past day without row, is skipped; the Tuesday takes the past branch
and today the pending one; Thursday and Friday get synthetic rows and take the
future branch. -/
theorem renderBranch_with_row_witness :
    injectColumn sampleNow sampleHeader sampleAttendance.rows sampleReconciledWeek
        = [none, some .past, some .todayPending, some .future, some .future] ∧
      (renderedRows sampleNow sampleHeader sampleAttendance.rows sampleReconciledWeek).any
        (rowCarries "20250602") = false ∧
      (renderedRows sampleNow sampleHeader sampleAttendance.rows sampleReconciledWeek).any
        (rowCarries "20250605") = true :=
  ⟨(renderBranch_with_row sampleNow sampleHeader sampleAttendance.rows
      sampleReconciledWeek).1.trans (by decide),
    (renderBranch_with_row sampleNow sampleHeader sampleAttendance.rows
      sampleReconciledWeek).2.2.2.2.1
      ⟨"20250602", ⟨20241, 37800000⟩, .str "09:05", .str "18:40", none⟩
      (by decide) (by decide) (by decide) (by decide),
    (renderBranch_with_row sampleNow sampleHeader sampleAttendance.rows
      sampleReconciledWeek).2.2.2.2.2
      ⟨"20250605", ⟨20244, 37800000⟩, .str "09:00", .str "18:00", none⟩
      (by decide) (by decide) (by decide)⟩

/-! ### Employee number tokens -/

theorem jsLength_digits (t : String) (h : ∀ c ∈ t.toList, c.isDigit = true) :
    jsLength t = t.length := by
  obtain ⟨cs⟩ := t
  unfold jsLength
  simp only [String.toList, String.length]
  simp only [String.toList] at h
  induction cs with
  | nil => rfl
  | cons c r ih =>
    have hc := (isDigit_iff c).mp (h c (by simp))
    have ih' := ih (fun x hx => h x (List.mem_cons_of_mem _ hx))
    simp only [List.map_cons, List.sum_cons, List.length_cons, ih']
    rw [if_pos (by omega)]
    omega

theorem pick_of_all_eight (allNums : List String) (first : String) (rest : List String)
    (hlist : allNums = first :: rest) (hfirst : (JSStr.str first).truthy = true)
    (h8 : ∀ t ∈ allNums, jsLength t = 8) : pickGenericEmpNo allNums = some first := by
  subst hlist
  have hfind : (first :: rest).find? (fun n => jsLength n != 8) = none := by
    rw [List.find?_eq_none]
    intro x hx
    simp [h8 x hx]
  unfold pickGenericEmpNo
  simp only [hfind, foundOrUndefined, firstOrUndefined, JSStr.or, truthy_undefined]
  simp [hfirst]

theorem pick_of_first_other (pre post : List String) (t : String)
    (ht : (JSStr.str t).truthy = true)
    (hpre : ∀ p ∈ pre, jsLength p = 8) (hne : jsLength t ≠ 8) :
    pickGenericEmpNo (pre ++ t :: post) = some t := by
  have hfind : (pre ++ t :: post).find? (fun n => jsLength n != 8) = some t := by
    induction pre with
    | nil =>
      have hb : (jsLength t != 8) = true := by simpa using hne
      simp only [List.nil_append, List.find?, hb]
    | cons p r ih =>
      have hp : jsLength p = 8 := hpre p (by simp)
      simp only [List.cons_append, List.find?, hp, bne_self_eq_false]
      exact ih (fun x hx => hpre x (List.mem_cons_of_mem _ hx))
  unfold pickGenericEmpNo
  simp only [hfind, foundOrUndefined, JSStr.or, ht, if_true]
  simp

/-- C20: among a non-empty list of quoted numeric tokens (digits only, at
least five of them), the employee number picked is the first token whose length
is not 8, or the first token when every token has length 8; among `20250601`
and `2023605` it is `2023605`. -/
theorem pickGenericEmpNo_heuristic (allNums : List String) (hne : allNums ≠ [])
    (htok : ∀ t ∈ allNums, (∀ c ∈ t.toList, c.isDigit = true) ∧ 5 ≤ t.length) :
    (∀ pre t post, allNums = pre ++ t :: post → (∀ p ∈ pre, p.length = 8) → t.length ≠ 8 →
        pickGenericEmpNo allNums = some t) ∧
      ((∀ t ∈ allNums, t.length = 8) → pickGenericEmpNo allNums = allNums.head?) ∧
      pickGenericEmpNo ["20250601", "2023605"] = some "2023605" := by
  have htruthy : ∀ t ∈ allNums, (JSStr.str t).truthy = true := by
    intro t ht
    apply truthy_of_ne_empty
    intro e
    have := (htok t ht).2
    rw [e] at this
    exact absurd this (by decide)
  refine ⟨?_, ?_, by decide⟩
  · intro pre t post hsplit hpre hl
    have hmem : ∀ p ∈ pre, p ∈ allNums := fun p hp => by rw [hsplit]; simp [hp]
    have htm : t ∈ allNums := by rw [hsplit]; simp
    rw [hsplit]
    apply pick_of_first_other
    · exact htruthy t htm
    · intro p hp
      rw [jsLength_digits p (htok p (hmem p hp)).1]
      exact hpre p hp
    · rw [jsLength_digits t (htok t htm).1]
      exact hl
  · intro h8
    cases allNums with
    | nil => exact absurd rfl hne
    | cons first rest =>
      rw [pick_of_all_eight _ first rest rfl (htruthy first (by simp))]
      · rfl
      · intro t ht
        rw [jsLength_digits t (htok t ht).1]
        exact h8 t ht

/-- Witness of C20: the two tokens of the specification. -/
theorem pickGenericEmpNo_heuristic_witness :
    (["20250601", "2023605"] : List String) ≠ [] ∧
      (∀ t ∈ (["20250601", "2023605"] : List String),
        (∀ c ∈ t.toList, c.isDigit = true) ∧ 5 ≤ t.length) ∧
      pickGenericEmpNo ["20250601", "2023605"] = some "2023605" :=
  ⟨by decide, by decide,
    (pickGenericEmpNo_heuristic ["20250601", "2023605"] (by decide) (by decide)).1
      ["20250601"] "2023605" [] rfl (by decide) (by decide)⟩

/-! ### Structured extraction -/

theorem unitsLe_total : ∀ a b : List ℕ, unitsLe a b = true ∨ unitsLe b a = true
  | [], _ => Or.inl rfl
  | _ :: _, [] => Or.inr rfl
  | x :: xs, y :: ys => by
    rcases Nat.lt_trichotomy x y with h | h | h
    · left; simp [unitsLe, h]
    · subst h
      rcases unitsLe_total xs ys with h' | h'
      · left; simp [unitsLe, h']
      · right; simp [unitsLe, h']
    · right; simp [unitsLe, h]

theorem unitsLe_trans : ∀ a b c : List ℕ, unitsLe a b = true → unitsLe b c = true →
    unitsLe a c = true
  | [], _, _, _, _ => rfl
  | _ :: _, [], _, h, _ => by simp [unitsLe] at h
  | _ :: _, _ :: _, [], _, h => by simp [unitsLe] at h
  | x :: xs, y :: ys, z :: zs, h1, h2 => by
    simp only [unitsLe, Bool.or_eq_true, decide_eq_true_eq, Bool.and_eq_true, beq_iff_eq] at *
    rcases h1 with h1 | ⟨h1, h1'⟩ <;> rcases h2 with h2 | ⟨h2, h2'⟩
    · left; omega
    · left; omega
    · left; omega
    · right; exact ⟨by omega, unitsLe_trans xs ys zs h1' h2'⟩

theorem jsSort_sorted (l : List String) :
    (jsSort l).Sorted fun a b => jsStringLe a b = true :=
  @List.sorted_insertionSort String (fun a b => jsStringLe a b = true) _
    ⟨fun _ _ => unitsLe_total _ _⟩ ⟨fun _ _ _ => unitsLe_trans _ _ _⟩ l

theorem jsSort_perm (l : List String) : (jsSort l).Perm l :=
  List.perm_insertionSort _ l

theorem jsStringLe_refl (a : String) : jsStringLe a a = true := by
  rcases unitsLe_total (a.toList.flatMap utf16Units) (a.toList.flatMap utf16Units) with h | h <;>
    exact h

/-- The first element of a sorted non-empty array is one of its elements and
is below all of them. -/
theorem jsSort_first (l : List String) (hne : l ≠ []) :
    ∃ s ∈ l, (jsSort l)[0]? = some s ∧ ∀ t ∈ l, jsStringLe s t = true := by
  have hs := jsSort_sorted l
  have hp := jsSort_perm l
  cases hl : jsSort l with
  | nil =>
    rw [hl] at hp
    exact absurd (List.Perm.nil_eq hp) (Ne.symm hne)
  | cons s r =>
    rw [hl] at hs hp
    refine ⟨s, hp.subset (List.mem_cons_self s r), by simp, ?_⟩
    intro t ht
    have : t ∈ s :: r := hp.symm.subset ht
    rcases List.mem_cons.mp this with h | h
    · rw [h]; exact jsStringLe_refl s
    · exact List.rel_of_sorted_cons hs t h

/-- The last element of a sorted non-empty array is one of its elements and
is above all of them. -/
theorem jsSort_last (l : List String) (hne : l ≠ []) :
    ∃ e ∈ l, (jsSort l)[(jsSort l).length - 1]? = some e ∧ ∀ t ∈ l, jsStringLe t e = true := by
  have hs := jsSort_sorted l
  have hp := jsSort_perm l
  have hne' : jsSort l ≠ [] := by
    intro h
    rw [h] at hp
    exact hne (List.Perm.nil_eq hp).symm
  refine ⟨(jsSort l).getLast hne', hp.subset (List.getLast_mem hne'), ?_, ?_⟩
  · rw [List.getLast_eq_getElem, List.getElem?_eq_getElem]
  · intro t ht
    have ht' : t ∈ jsSort l := hp.symm.subset ht
    obtain ⟨i, hi, rfl⟩ := List.getElem_of_mem ht'
    rw [List.getLast_eq_getElem]
    by_cases hlast : i = (jsSort l).length - 1
    · subst hlast; exact jsStringLe_refl _
    · exact (List.pairwise_iff_getElem.mp hs) i ((jsSort l).length - 1) hi (by omega) (by omega)
theorem utf16Units_digit {c : Char} (h : c.isDigit = true) : utf16Units c = [c.toNat] := by
  have := (isDigit_iff c).mp h
  unfold utf16Units
  rw [if_pos (by omega)]

/-- On valid clock strings the order of `sort` is the order of the minute of
the day. -/
theorem jsStringLe_clock {s t : String} (hs : isClockString s = true)
    (ht : isClockString t = true) (h : jsStringLe s t = true) :
    minuteOfDay s ≤ minuteOfDay t := by
  obtain ⟨a, b, d, e, rfl, ha, hb, hd, he, hh, hm⟩ := clock_shape hs
  obtain ⟨a2, b2, d2, e2, rfl, ha2, hb2, hd2, he2, hh2, hm2⟩ := clock_shape ht
  have hcolon : utf16Units ':' = [58] := by decide
  simp only [jsStringLe, String.toList, List.flatMap_cons, List.flatMap_nil, utf16Units_digit ha,
    utf16Units_digit hb, utf16Units_digit hd, utf16Units_digit he, utf16Units_digit ha2,
    utf16Units_digit hb2, utf16Units_digit hd2, utf16Units_digit he2, hcolon,
    List.singleton_append, List.append_nil, unitsLe, Bool.or_eq_true, decide_eq_true_eq,
    Bool.and_eq_true, beq_iff_eq, lt_self_iff_false, false_or, true_and, or_true] at h
  have ra := (isDigit_iff a).mp ha
  have rb := (isDigit_iff b).mp hb
  have rd := (isDigit_iff d).mp hd
  have re := (isDigit_iff e).mp he
  have ra2 := (isDigit_iff a2).mp ha2
  have rb2 := (isDigit_iff b2).mp hb2
  have rd2 := (isDigit_iff d2).mp hd2
  have re2 := (isDigit_iff e2).mp he2
  simp only [minuteOfDay, clockHour, clockMinute, String.toList]
  omega

/-- C13: when the scan of the result table finds an IN or an OUT row and the
times found are valid `HH:MM` strings, the returned start time is the IN time
with the smallest minute of the day (the smallest under the order of `sort`),
or absent without IN row, and the returned end time is the OUT time with the
largest minute of the day, or absent without OUT row; an IN row at `09:05` and
a last OUT row at `18:40` give `09:05`, `18:40` and `lastEventIsOut` true. -/
theorem structured_extraction (frag : HtmlFragment) (table : ResultTable)
    (hTable : frag.resultTable = some table)
    (hClassified : (scanRows table).inTimes ≠ [] ∨ (scanRows table).outTimes ≠ [])
    (hValid : ∀ t ∈ (scanRows table).inTimes ++ (scanRows table).outTimes,
      isClockString t = true) :
    (∃ r, parseTimesFromHTML frag = some r ∧
      ((scanRows table).inTimes = [] → r.startTime = .null) ∧
      ((scanRows table).inTimes ≠ [] →
        ∃ s ∈ (scanRows table).inTimes, r.startTime = .str s ∧
          ∀ t ∈ (scanRows table).inTimes,
            minuteOfDay s ≤ minuteOfDay t ∧ jsStringLe s t = true) ∧
      ((scanRows table).outTimes = [] → r.endTime = .null) ∧
      ((scanRows table).outTimes ≠ [] →
        ∃ e ∈ (scanRows table).outTimes, r.endTime = .str e ∧
          ∀ t ∈ (scanRows table).outTimes,
            minuteOfDay t ≤ minuteOfDay e ∧ jsStringLe t e = true)) ∧
      parseTimesFromHTML ⟨"", some sampleTable⟩ =
        some ⟨.str "09:05", .str "18:40", some ["09:05"], some ["18:40"], some true⟩ := by
  refine ⟨?_, by decide⟩
  have hvIn : ∀ t ∈ (scanRows table).inTimes, isClockString t = true :=
    fun t ht => hValid t (List.mem_append_left _ ht)
  have hvOut : ∀ t ∈ (scanRows table).outTimes, isClockString t = true :=
    fun t ht => hValid t (List.mem_append_right _ ht)
  -- the start time
  have hStart : ∃ st : JSStr,
      (if (scanRows table).inTimes.length ≠ 0 then
        elemOrUndefined
          (if (scanRows table).inTimes.length ≠ 0 then jsSort (scanRows table).inTimes
            else (scanRows table).inTimes)[0]?
      else JSStr.null) = st ∧
      ((scanRows table).inTimes = [] → st = .null) ∧
      ((scanRows table).inTimes ≠ [] → st.truthy = true ∧
        ∃ s ∈ (scanRows table).inTimes, st = .str s ∧
          ∀ t ∈ (scanRows table).inTimes,
            minuteOfDay s ≤ minuteOfDay t ∧ jsStringLe s t = true) := by
    by_cases hin : (scanRows table).inTimes = []
    · exact ⟨.null, by simp [hin], fun _ => rfl, fun h => absurd hin h⟩
    · obtain ⟨s, hsm, hs0, hsle⟩ := jsSort_first _ hin
      have hlen : (scanRows table).inTimes.length ≠ 0 := by
        simpa [List.length_eq_zero] using hin
      refine ⟨.str s, by simp [hlen, hs0, elemOrUndefined], fun h => absurd h hin, fun _ =>
        ⟨truthy_of_clock (hvIn s hsm), s, hsm, rfl, fun t ht =>
          ⟨jsStringLe_clock (hvIn s hsm) (hvIn t ht) (hsle t ht), hsle t ht⟩⟩⟩
  have hEnd : ∃ en : JSStr,
      (if (scanRows table).outTimes.length ≠ 0 then
        elemOrUndefined
          (if (scanRows table).outTimes.length ≠ 0 then jsSort (scanRows table).outTimes
            else (scanRows table).outTimes)[
              (if (scanRows table).outTimes.length ≠ 0 then jsSort (scanRows table).outTimes
                else (scanRows table).outTimes).length - 1]?
      else JSStr.null) = en ∧
      ((scanRows table).outTimes = [] → en = .null) ∧
      ((scanRows table).outTimes ≠ [] → en.truthy = true ∧
        ∃ e ∈ (scanRows table).outTimes, en = .str e ∧
          ∀ t ∈ (scanRows table).outTimes,
            minuteOfDay t ≤ minuteOfDay e ∧ jsStringLe t e = true) := by
    by_cases hout : (scanRows table).outTimes = []
    · exact ⟨.null, by simp [hout], fun _ => rfl, fun h => absurd hout h⟩
    · obtain ⟨e, hem, he0, hele⟩ := jsSort_last _ hout
      have hlen : (scanRows table).outTimes.length ≠ 0 := by
        simpa [List.length_eq_zero] using hout
      refine ⟨.str e, by simp [hlen, he0, elemOrUndefined], fun h => absurd h hout, fun _ =>
        ⟨truthy_of_clock (hvOut e hem), e, hem, rfl, fun t ht =>
          ⟨jsStringLe_clock (hvOut t ht) (hvOut e hem) (hele t ht), hele t ht⟩⟩⟩
  obtain ⟨st, hst, hst0, hst1⟩ := hStart
  obtain ⟨en, hen, hen0, hen1⟩ := hEnd
  have htruthy : (st.truthy || en.truthy) = true := by
    rcases hClassified with h | h
    · simp [(hst1 h).1]
    · simp [(hen1 h).1]
  have hp : parseTimesFromHTML frag = some
      ⟨st, en,
        some (if (scanRows table).inTimes.length ≠ 0 then jsSort (scanRows table).inTimes
          else (scanRows table).inTimes),
        some (if (scanRows table).outTimes.length ≠ 0 then jsSort (scanRows table).outTimes
          else (scanRows table).outTimes),
        some ((scanRows table).lastEventType == some .evOut)⟩ := by
    unfold parseTimesFromHTML
    rw [hTable]
    simp only [Option.bind, structuredTimes, hst, hen, htruthy, if_true]
  exact ⟨_, hp, hst0, fun h => (hst1 h).2, hen0, fun h => (hen1 h).2⟩
/-- Witness of C13: the sample table. -/
theorem structured_extraction_witness :
    (HtmlFragment.mk "" (some sampleTable)).resultTable = some sampleTable ∧
      ((scanRows sampleTable).inTimes ≠ [] ∨ (scanRows sampleTable).outTimes ≠ []) ∧
      (∀ t ∈ (scanRows sampleTable).inTimes ++ (scanRows sampleTable).outTimes,
        isClockString t = true) ∧
      parseTimesFromHTML ⟨"", some sampleTable⟩ =
        some ⟨.str "09:05", .str "18:40", some ["09:05"], some ["18:40"], some true⟩ :=
  ⟨rfl, by decide, by decide,
    (structured_extraction ⟨"", some sampleTable⟩ sampleTable rfl (by decide) (by decide)).2⟩

/-! ### The flag `lastEventIsOut` -/

/-- C14 (the code at the failing input): with the OUT row at `18:40` listed
before the IN row at `09:05`, the scan finds both, the structured path returns
`09:05` and `18:40`, yet `lastEventIsOut` is false, and a record of today keeps
its end time absent. -/
theorem lastEventIsOut_newest_first :
    (scanRows sampleTableNewestFirst).inTimes = ["09:05"] ∧
      (scanRows sampleTableNewestFirst).outTimes = ["18:40"] ∧
      minuteOfDay "09:05" < minuteOfDay "18:40" ∧
      parseTimesFromHTML ⟨"", some sampleTableNewestFirst⟩ =
        some ⟨.str "09:05", .str "18:40", some ["09:05"], some ["18:40"], some false⟩ ∧
      (dataPromise sampleNow emptyStore
        (fun _ => .parsed (parseTimesFromHTML ⟨"", some sampleTableNewestFirst⟩))
        (sampleRecord 20243 .null .null)).1.endTime = .null := by
  decide

/-- The flag follows the order of the rows: it is the type set by the last
classified row of the table. -/
theorem structured_lastEventIsOut (table : ResultTable) (r : ParsedTimes)
    (h : structuredTimes table = some r) :
    r.lastEventIsOut = some ((scanRows table).lastEventType == some .evOut) := by
  simp only [structuredTimes, Option.ite_none_right_eq_some] at h
  rw [← Option.some.inj h.2]
/-! ### Fallback extraction -/

/-- The text of a match of the clock pattern: one or two digits, a colon, two
digits. -/
theorem matchClockAt_shape {cs h m rest : List Char} (hm : matchClockAt cs = some (h, m, rest)) :
    ((∃ a, h = [a] ∧ a.isDigit = true) ∨
        (∃ a b, h = [a, b] ∧ a.isDigit = true ∧ b.isDigit = true)) ∧
      ∃ d e, m = [d, e] ∧ d.isDigit = true ∧ e.isDigit = true := by
  unfold matchClockAt at hm
  split at hm
  · rename_i a b c d e r
    split_ifs at hm with h1 h2
    · simp only [Option.some.injEq, Prod.mk.injEq] at hm
      simp only [Bool.and_eq_true, beq_iff_eq] at h1
      obtain ⟨rfl, rfl, -⟩ := hm
      exact ⟨Or.inr ⟨a, b, rfl, h1.1.1.1.1, h1.1.1.1.2⟩, d, e, rfl, h1.1.2, h1.2⟩
    · simp only [Option.some.injEq, Prod.mk.injEq] at hm
      simp only [Bool.and_eq_true, beq_iff_eq] at h2
      obtain ⟨rfl, rfl, -⟩ := hm
      exact ⟨Or.inl ⟨a, rfl, h2.1.1.1⟩, c, d, rfl, h2.1.2, h2.2⟩
  · rename_i a b c d
    split_ifs at hm with h1
    simp only [Option.some.injEq, Prod.mk.injEq] at hm
    simp only [Bool.and_eq_true, beq_iff_eq] at h1
    obtain ⟨rfl, rfl, -⟩ := hm
    exact ⟨Or.inl ⟨a, rfl, h1.1.1.1⟩, c, d, rfl, h1.1.2, h1.2⟩
  · exact absurd hm (by simp)

theorem allClockMatches_shape : ∀ (cs : List Char) (n : ℕ), ∀ x ∈ allClockMatches n cs,
    IsMatchText x
  | [], n, x, hx => by cases n <;> simp [allClockMatches] at hx
  | c :: t, n + 1, x, hx => by
    simp only [allClockMatches] at hx
    exact allClockMatches_shape t n x hx
  | c :: t, 0, x, hx => by
    simp only [allClockMatches] at hx
    split at hx
    · rename_i h m rest heq
      obtain ⟨hh, d, e, rfl, hd, he⟩ := matchClockAt_shape heq
      rcases List.mem_cons.mp hx with hx | hx
      · rcases hh with ⟨a, rfl, ha⟩ | ⟨a, b, rfl, ha, hb⟩
        · exact Or.inl ⟨a, d, e, hx, ha, hd, he⟩
        · exact Or.inr ⟨a, b, d, e, hx, ha, hb, hd, he⟩
      · exact allClockMatches_shape t _ x hx
    · exact allClockMatches_shape t 0 x hx

/-- On the text of a match `normalizeTime` pads the hour with a zero, and the
result is written `dd:dd`. -/
theorem normalizeTime_match {x : List Char} (hx : IsMatchText x) :
    normalizeTime (String.mk x) = zeroPadTime (String.mk x) ∧
      isPaddedTime (zeroPadTime (String.mk x)) = true := by
  rcases hx with ⟨a, d, e, rfl, ha, hd, he⟩ | ⟨a, b, d, e, rfl, ha, hb, hd, he⟩
  · have h1 : firstClockMatch [a, ':', d, e] = some ([a], [d, e]) := by
      simp [firstClockMatch, matchClockAt, ha, hd, he]
    constructor
    · unfold normalizeTime
      simp only [String.toList, h1]
      apply String.ext
      simp [padStart, padStartChars, zeroPadTime, String.length]
    · simp [zeroPadTime, String.length, isPaddedTime, ha, hd, he]
  · have h1 : firstClockMatch [a, b, ':', d, e] = some ([a, b], [d, e]) := by
      simp [firstClockMatch, matchClockAt, ha, hb, hd, he]
    constructor
    · unfold normalizeTime
      simp only [String.toList, h1]
      apply String.ext
      simp [padStart, padStartChars, zeroPadTime, String.length]
    · simp [zeroPadTime, String.length, isPaddedTime, ha, hb, hd, he]

theorem truthy_of_padded {s : String} (h : isPaddedTime s = true) :
    (JSStr.str s).truthy = true := by
  obtain ⟨cs⟩ := s
  unfold isPaddedTime at h
  simp only [String.toList] at h
  split at h
  · rfl
  · exact absurd h (by simp)

/-- The times of the fallback path are the zero-padded occurrences. -/
theorem fallback_times_eq (html : String) :
    (((allClockMatches 0 html.toList).map fun m => normalizeTime (String.mk m)).filter
      fun t => (JSStr.str t).truthy) = (clockOccurrences html).map zeroPadTime := by
  have hmap : ((allClockMatches 0 html.toList).map fun m => normalizeTime (String.mk m)) =
      (clockOccurrences html).map zeroPadTime := by
    unfold clockOccurrences
    rw [List.map_map]
    apply List.map_congr_left
    intro x hx
    exact (normalizeTime_match (allClockMatches_shape _ _ x hx)).1
  rw [hmap, List.filter_eq_self]
  intro t ht
  unfold clockOccurrences at ht
  rw [List.map_map] at ht
  obtain ⟨x, hx, rfl⟩ := List.mem_map.mp ht
  exact truthy_of_padded (normalizeTime_match (allClockMatches_shape _ _ x hx)).2

theorem getElem?_last_cons {α : Type} (a b : α) (rest : List α) :
    (a :: b :: rest)[(a :: b :: rest).length - 1]? = some ((b :: rest).getLastD b) := by
  rw [← List.getLast?_eq_getElem?, List.getLast?_cons_cons, List.getLastD_eq_getLast?]
  cases h : (b :: rest).getLast? with
  | none => simp at h
  | some x => simp

/-- The fallback path on a list of times that are all present. -/
theorem fallback_of_times (times : List String)
    (ht : ∀ t ∈ times, (JSStr.str t).truthy = true) :
    (if 1 ≤ times.length then
      some (ParsedTimes.mk ((elemOrUndefined times[0]?).or .null)
        (if 2 ≤ times.length then elemOrUndefined times[times.length - 1]? else .null)
        none none none)
    else none) = firstAndLast times := by
  cases times with
  | nil => rfl
  | cons a t =>
    have ha : (JSStr.str a).truthy = true := ht a (by simp)
    cases t with
    | nil => simp [firstAndLast, elemOrUndefined, JSStr.or, ha]
    | cons b rest =>
      have hlen : 2 ≤ (a :: b :: rest).length := by simp
      rw [if_pos (by simp), if_pos hlen, getElem?_last_cons]
      simp [firstAndLast, elemOrUndefined, JSStr.or, ha]
theorem structuredTimes_none (table : ResultTable)
    (h : (scanRows table).inTimes = [] ∧ (scanRows table).outTimes = []) :
    structuredTimes table = none := by
  unfold structuredTimes
  simp [h.1, h.2, truthy_null]

theorem firstAndLast_flag (times : List String) (r : ParsedTimes)
    (h : firstAndLast times = some r) : r.lastEventIsOut = none := by
  cases times with
  | nil => exact absurd h (by simp [firstAndLast])
  | cons a t =>
    cases t with
    | nil =>
      simp only [firstAndLast, Option.some.injEq] at h
      rw [← h]
    | cons b rest =>
      simp only [firstAndLast, Option.some.injEq] at h
      rw [← h]

/-- C15: when the structured path yields nothing (no result table, or no
classified row), `parseTimesFromHTML` returns the first occurrence of `H:MM` or
`HH:MM` in the text of the fragment, zero-padded, as start time, the last one as
end time when there are at least two and no end time when there is one, with
`lastEventIsOut` left undefined; it returns null without occurrence. -/
theorem fallback_extraction (frag : HtmlFragment)
    (hNone : ∀ table, frag.resultTable = some table →
      (scanRows table).inTimes = [] ∧ (scanRows table).outTimes = []) :
    parseTimesFromHTML frag = firstAndLast ((clockOccurrences frag.html).map zeroPadTime) ∧
      (∀ t ∈ (clockOccurrences frag.html).map zeroPadTime, isPaddedTime t = true) ∧
      (∀ r, parseTimesFromHTML frag = some r →
        r.lastEventIsOut = none ∧ r.lastEventIsOut ≠ some true) ∧
      (clockOccurrences frag.html = [] → parseTimesFromHTML frag = none) := by
  have hpad : ∀ t ∈ (clockOccurrences frag.html).map zeroPadTime, isPaddedTime t = true := by
    intro t ht
    unfold clockOccurrences at ht
    rw [List.map_map] at ht
    obtain ⟨x, hx, rfl⟩ := List.mem_map.mp ht
    exact (normalizeTime_match (allClockMatches_shape _ _ x hx)).2
  have hstruct : frag.resultTable.bind structuredTimes = none := by
    cases hrt : frag.resultTable with
    | none => rfl
    | some table => exact structuredTimes_none table (hNone table hrt)
  have hparse : parseTimesFromHTML frag =
      firstAndLast ((clockOccurrences frag.html).map zeroPadTime) := by
    unfold parseTimesFromHTML
    rw [hstruct]
    simp only [fallbackTimes, fallback_times_eq]
    exact fallback_of_times _ (fun t ht => truthy_of_padded (hpad t ht))
  refine ⟨hparse, hpad, ?_, ?_⟩
  · intro r hr
    rw [hparse] at hr
    have := firstAndLast_flag _ r hr
    exact ⟨this, by rw [this]; exact fun h => Option.noConfusion h⟩
  · intro h
    rw [hparse, h]
    rfl

/-- Witness of C15: a fragment without result table that carries two times. -/
theorem fallback_extraction_witness :
    (∀ table, (HtmlFragment.mk "<td>9:05</td><td>18:40:33</td>" none).resultTable = some table →
        (scanRows table).inTimes = [] ∧ (scanRows table).outTimes = []) ∧
      parseTimesFromHTML ⟨"<td>9:05</td><td>18:40:33</td>", none⟩
        = some ⟨.str "09:05", .str "18:40", none, none, none⟩ :=
  ⟨fun _ h => Option.noConfusion h,
    ((fallback_extraction ⟨"<td>9:05</td><td>18:40:33</td>", none⟩
      (fun _ h => Option.noConfusion h)).1).trans (by decide)⟩

/-! ### The days of the week -/

theorem dayFromYear_mono (a b : ℤ) (h : a ≤ b) : dayFromYear a ≤ dayFromYear b := by
  unfold dayFromYear; omega

theorem dayFromYear_succ (y : ℤ) : dayFromYear (y + 1) = dayFromYear y + 365 + inLeapYear y := by
  unfold dayFromYear inLeapYear
  split_ifs <;> omega

theorem inLeapYear_range (y : ℤ) : inLeapYear y = 0 ∨ inLeapYear y = 1 := by
  unfold inLeapYear
  split_ifs <;> simp

/-- The year of a day starts on or before it and the next year after it. -/
theorem yearFromDay_spec (n : ℤ) :
    dayFromYear (yearFromDay n) ≤ n ∧ n < dayFromYear (yearFromDay n + 1) := by
  unfold yearFromDay
  simp only []
  split_ifs with h1 h2
  · refine ⟨h1, ?_⟩
    unfold dayFromYear at *; omega
  · exact ⟨h2, by omega⟩
  · constructor
    · unfold dayFromYear at *; omega
    · simp only [sub_add_cancel]; omega

theorem dayWithinYear_range (d : JSDate) :
    0 ≤ d.dayWithinYear ∧ d.dayWithinYear < 365 + inLeapYear d.getFullYear := by
  have h := yearFromDay_spec d.day
  have hs := dayFromYear_succ (yearFromDay d.day)
  unfold JSDate.dayWithinYear JSDate.getFullYear
  omega

/-- The month and the day of the month give back the day within the year. -/
theorem monthDate_recover (a leap : ℤ) (hl : leap = 0 ∨ leap = 1)
    (ha : 0 ≤ a ∧ a < 365 + leap) :
    monthOffset (monthFromDay a leap) leap + dateFromDay a leap - 1 = a ∧
      0 ≤ monthFromDay a leap ∧ monthFromDay a leap ≤ 11 ∧ 1 ≤ dateFromDay a leap ∧
      dateFromDay a leap ≤ 31 := by
  unfold monthFromDay dateFromDay
  by_cases h0 : a < 31
  · simp only [h0, if_true]
    refine ⟨by (simp [monthOffset]; try omega), ?_⟩; omega
  · simp only [h0, if_false]
    by_cases h1 : a < 59 + leap
    · simp only [h1, if_true]
      refine ⟨by (simp [monthOffset]; try omega), ?_⟩; omega
    · simp only [h1, if_false]
      by_cases h2 : a < 90 + leap
      · simp only [h2, if_true]
        refine ⟨by (simp [monthOffset]; try omega), ?_⟩; omega
      · simp only [h2, if_false]
        by_cases h3 : a < 120 + leap
        · simp only [h3, if_true]
          refine ⟨by (simp [monthOffset]; try omega), ?_⟩; omega
        · simp only [h3, if_false]
          by_cases h4 : a < 151 + leap
          · simp only [h4, if_true]
            refine ⟨by (simp [monthOffset]; try omega), ?_⟩; omega
          · simp only [h4, if_false]
            by_cases h5 : a < 181 + leap
            · simp only [h5, if_true]
              refine ⟨by (simp [monthOffset]; try omega), ?_⟩; omega
            · simp only [h5, if_false]
              by_cases h6 : a < 212 + leap
              · simp only [h6, if_true]
                refine ⟨by (simp [monthOffset]; try omega), ?_⟩; omega
              · simp only [h6, if_false]
                by_cases h7 : a < 243 + leap
                · simp only [h7, if_true]
                  refine ⟨by (simp [monthOffset]; try omega), ?_⟩; omega
                · simp only [h7, if_false]
                  by_cases h8 : a < 273 + leap
                  · simp only [h8, if_true]
                    refine ⟨by (simp [monthOffset]; try omega), ?_⟩; omega
                  · simp only [h8, if_false]
                    by_cases h9 : a < 304 + leap
                    · simp only [h9, if_true]
                      refine ⟨by (simp [monthOffset]; try omega), ?_⟩; omega
                    · simp only [h9, if_false]
                      by_cases h10 : a < 334 + leap
                      · simp only [h10, if_true]
                        refine ⟨by (simp [monthOffset]; try omega), ?_⟩; omega
                      · simp only [h10, if_false]
                        refine ⟨by (simp [monthOffset]; try omega), ?_⟩; omega

theorem monthDate_determine (a b leap : ℤ) (hl : leap = 0 ∨ leap = 1)
    (ha : 0 ≤ a ∧ a < 365 + leap) (hb : 0 ≤ b ∧ b < 365 + leap)
    (hm : monthFromDay a leap = monthFromDay b leap)
    (hd : dateFromDay a leap = dateFromDay b leap) : a = b := by
  have h1 := (monthDate_recover a leap hl ha).1
  have h2 := (monthDate_recover b leap hl hb).1
  rw [← h1, ← h2, hm, hd]
/-- Two days less than five days apart differ in the month or in the day of
the month. -/
theorem month_or_date_differ (d1 d2 : JSDate) (h : d1.day < d2.day ∧ d2.day ≤ d1.day + 4)
    (hm : d1.getMonth = d2.getMonth) (hd : d1.getDate = d2.getDate) : False := by
  have s1 := yearFromDay_spec d1.day
  have s2 := yearFromDay_spec d2.day
  have r1 := dayWithinYear_range d1
  have r2 := dayWithinYear_range d2
  have l1 := inLeapYear_range d1.getFullYear
  have l2 := inLeapYear_range d2.getFullYear
  have e1 := dayFromYear_succ (yearFromDay d1.day)
  have hy : yearFromDay d2.day = yearFromDay d1.day ∨
      yearFromDay d2.day = yearFromDay d1.day + 1 := by
    by_contra hne
    push_neg at hne
    rcases lt_or_gt_of_ne hne.1 with hlt | hgt
    · have := dayFromYear_mono (yearFromDay d2.day + 1) (yearFromDay d1.day) (by omega)
      omega
    · have := dayFromYear_mono (yearFromDay d1.day + 1 + 1) (yearFromDay d2.day) (by omega)
      have e2 := dayFromYear_succ (yearFromDay d1.day + 1)
      have := inLeapYear_range (yearFromDay d1.day + 1)
      omega
  unfold JSDate.getMonth at hm
  unfold JSDate.getDate at hd
  rcases hy with hy | hy
  · have hyy : d2.getFullYear = d1.getFullYear := hy
    rw [hyy] at hm hd r2
    have := monthDate_determine _ _ _ l1 r1 r2 hm hd
    unfold JSDate.dayWithinYear at this
    rw [hyy] at this
    omega
  · have hyy : d2.getFullYear = d1.getFullYear + 1 := hy
    have hw1 : 334 + inLeapYear d1.getFullYear ≤ d1.dayWithinYear := by
      unfold JSDate.dayWithinYear JSDate.getFullYear at *
      rw [hy] at s2
      omega
    have hw2 : d2.dayWithinYear < 31 := by
      unfold JSDate.dayWithinYear JSDate.getFullYear at *
      rw [hy] at s2 ⊢
      omega
    have m1 : monthFromDay d1.dayWithinYear (inLeapYear d1.getFullYear) = 11 := by
      unfold monthFromDay
      simp only [show ¬ d1.dayWithinYear < 31 by omega,
        show ¬ d1.dayWithinYear < 59 + inLeapYear d1.getFullYear by omega,
        show ¬ d1.dayWithinYear < 90 + inLeapYear d1.getFullYear by omega,
        show ¬ d1.dayWithinYear < 120 + inLeapYear d1.getFullYear by omega,
        show ¬ d1.dayWithinYear < 151 + inLeapYear d1.getFullYear by omega,
        show ¬ d1.dayWithinYear < 181 + inLeapYear d1.getFullYear by omega,
        show ¬ d1.dayWithinYear < 212 + inLeapYear d1.getFullYear by omega,
        show ¬ d1.dayWithinYear < 243 + inLeapYear d1.getFullYear by omega,
        show ¬ d1.dayWithinYear < 273 + inLeapYear d1.getFullYear by omega,
        show ¬ d1.dayWithinYear < 304 + inLeapYear d1.getFullYear by omega,
        show ¬ d1.dayWithinYear < 334 + inLeapYear d1.getFullYear by omega, if_false]
    have m2 : monthFromDay d2.dayWithinYear (inLeapYear d2.getFullYear) = 0 := by
      unfold monthFromDay
      simp only [hw2, if_true]
    rw [m1, m2] at hm
    exact absurd hm (by decide)
theorem twoDigits_value (k : ℕ) (hk : k < 60) :
    digitsValue (twoDigits k).toList = k ∧ (twoDigits k).data.length = 2 := by
  have key : ∀ i : Fin 60,
      digitsValue (twoDigits i.val).toList = i.val ∧ (twoDigits i.val).data.length = 2 := by
    decide
  exact key ⟨k, hk⟩

theorem padStart_int (k : ℤ) (h0 : 0 ≤ k) (h : k < 60) :
    padStart 2 "0" (JSInt.int k).toJSString = twoDigits k.toNat := by
  have e : (JSInt.int k).toJSString = toString k.toNat := by
    simp only [JSInt.toJSString]
    rw [if_neg (by omega)]
    congr 1
    omega
  rw [e, padStart_two_lt _ (by omega)]

/-- Equal date keys have the same month and the same day of the month. -/
theorem formatDate_month_date (d1 d2 : JSDate)
    (h : formatDateYYYYMMDD d1 = formatDateYYYYMMDD d2) :
    d1.getMonth = d2.getMonth ∧ d1.getDate = d2.getDate := by
  have a1 := monthDate_recover d1.dayWithinYear _ (inLeapYear_range _) (dayWithinYear_range d1)
  have a2 := monthDate_recover d2.dayWithinYear _ (inLeapYear_range _) (dayWithinYear_range d2)
  have m1 : 0 ≤ d1.getMonth ∧ d1.getMonth ≤ 11 := ⟨a1.2.1, a1.2.2.1⟩
  have m2 : 0 ≤ d2.getMonth ∧ d2.getMonth ≤ 11 := ⟨a2.2.1, a2.2.2.1⟩
  have t1 : 1 ≤ d1.getDate ∧ d1.getDate ≤ 31 := ⟨a1.2.2.2.1, a1.2.2.2.2⟩
  have t2 : 1 ≤ d2.getDate ∧ d2.getDate ≤ 31 := ⟨a2.2.2.2.1, a2.2.2.2.2⟩
  unfold formatDateYYYYMMDD at h
  simp only [] at h
  rw [padStart_int _ (by omega) (by omega), padStart_int _ (by omega) (by omega),
    padStart_int _ (by omega) (by omega), padStart_int _ (by omega) (by omega)] at h
  have hdata := congrArg String.data h
  simp only [String.data_append] at hdata
  have vm1 := twoDigits_value (d1.getMonth + 1).toNat (by omega)
  have vm2 := twoDigits_value (d2.getMonth + 1).toNat (by omega)
  have vd1 := twoDigits_value d1.getDate.toNat (by omega)
  have vd2 := twoDigits_value d2.getDate.toNat (by omega)
  obtain ⟨hym, hdd⟩ := List.append_inj' hdata (by rw [vd1.2, vd2.2])
  obtain ⟨-, hmm⟩ := List.append_inj' hym (by rw [vm1.2, vm2.2])
  have em : (d1.getMonth + 1).toNat = (d2.getMonth + 1).toNat := by
    have := congrArg digitsValue hmm
    rw [← vm1.1, ← vm2.1]
    exact this
  have ed : d1.getDate.toNat = d2.getDate.toNat := by
    have := congrArg digitsValue hdd
    rw [← vd1.1, ← vd2.1]
    exact this
  constructor <;> omega

/-- The date keys of two days less than five days apart differ. -/
theorem formatDate_ne (d1 d2 : JSDate) (h : d1.day < d2.day ∧ d2.day ≤ d1.day + 4) :
    formatDateYYYYMMDD d1 ≠ formatDateYYYYMMDD d2 := by
  intro he
  obtain ⟨hm, hd⟩ := formatDate_month_date d1 d2 he
  exact month_or_date_differ d1 d2 h hm hd

theorem setDate_getDate_add (d : JSDate) (k : ℤ) :
    d.setDate (d.getDate + k) = { d with day := d.day + k } := by
  unfold JSDate.setDate
  congr 1
  omega

/-- The week as five explicit dates. -/
theorem getWeekDays_eq (today : JSDate) :
    getWeekDays today =
      (List.range 5).map fun i : ℕ =>
        (⟨today.day + (if today.getDay = 0 then -6 else 1 - today.getDay) + (i : ℤ),
          today.msOfDay⟩ : JSDate) := by
  unfold getWeekDays
  simp only [setDate_getDate_add]
theorem getWeekDays_explicit (today : JSDate) (m : ℤ)
    (hm : m = today.day + (if today.getDay = 0 then -6 else 1 - today.getDay)) :
    getWeekDays today =
      [⟨m, today.msOfDay⟩, ⟨m + 1, today.msOfDay⟩, ⟨m + 2, today.msOfDay⟩,
        ⟨m + 3, today.msOfDay⟩, ⟨m + 4, today.msOfDay⟩] := by
  rw [getWeekDays_eq, ← hm]
  have : List.range 5 = [0, 1, 2, 3, 4] := by decide
  rw [this]
  simp

/-- C19: for every current date `getWeekDays` (both copies) returns five
consecutive calendar days, Monday to Friday, of the Monday-to-Sunday week that
contains the current date: the Monday is today or at most six days before; the
five date keys of `formatDateYYYYMMDD` are pairwise distinct. -/
theorem getWeekDays_week (today : JSDate) :
    ∃ monday : ℤ,
      (getWeekDays today).map (fun d => d.day)
          = [monday, monday + 1, monday + 2, monday + 3, monday + 4] ∧
        (getWeekDays today).length = 5 ∧
        (getWeekDays today).map JSDate.getDay = [1, 2, 3, 4, 5] ∧
        monday ≤ today.day ∧ today.day ≤ monday + 6 ∧
        ((getWeekDays today).map formatDateYYYYMMDD).Nodup ∧
        DateUtils.getWeekDays today = getWeekDays today ∧
        (getWeekDays today).map DateUtils.formatDateYYYYMMDD
          = (getWeekDays today).map formatDateYYYYMMDD := by
  refine ⟨today.day + (if today.getDay = 0 then -6 else 1 - today.getDay), ?_⟩
  have hexp := getWeekDays_explicit today _ rfl
  have hw : today.getDay = (today.day + 4) % 7 := rfl
  refine ⟨by rw [hexp]; simp, by rw [hexp]; rfl, ?_, ?_, ?_, ?_, rfl, rfl⟩
  · rw [hexp]
    simp only [List.map_cons, List.map_nil, JSDate.getDay]
    split_ifs with h0
    · have e1 : (today.day + -6 + 4) % 7 = 1 := by omega
      have e2 : (today.day + -6 + 1 + 4) % 7 = 2 := by omega
      have e3 : (today.day + -6 + 2 + 4) % 7 = 3 := by omega
      have e4 : (today.day + -6 + 3 + 4) % 7 = 4 := by omega
      have e5 : (today.day + -6 + 4 + 4) % 7 = 5 := by omega
      rw [e1, e2, e3, e4, e5]
    · have e1 : (today.day + (1 - (today.day + 4) % 7) + 4) % 7 = 1 := by omega
      have e2 : (today.day + (1 - (today.day + 4) % 7) + 1 + 4) % 7 = 2 := by omega
      have e3 : (today.day + (1 - (today.day + 4) % 7) + 2 + 4) % 7 = 3 := by omega
      have e4 : (today.day + (1 - (today.day + 4) % 7) + 3 + 4) % 7 = 4 := by omega
      have e5 : (today.day + (1 - (today.day + 4) % 7) + 4 + 4) % 7 = 5 := by omega
      rw [e1, e2, e3, e4, e5]
  · rw [hw]; split_ifs <;> omega
  · rw [hw]; split_ifs <;> omega
  · rw [hexp]
    simp only [List.map_cons, List.map_nil, List.nodup_cons, List.mem_cons, List.mem_singleton,
      List.not_mem_nil, not_or, List.nodup_nil, and_true, not_false_eq_true]
    refine ⟨⟨?_, ?_, ?_, ?_⟩, ⟨?_, ?_, ?_⟩, ⟨?_, ?_⟩, ?_⟩ <;>
      exact formatDate_ne _ _ ⟨by simp only []; omega, by simp only []; omega⟩

/-! ### The two copies of the overtime arithmetic -/

/-- With both times present the two copies compute the same number. -/
theorem calculateOvertime_copies_present (start stop : JSStr)
    (hs : start.truthy = true) (he : stop.truthy = true) :
    TimeCalculator.calculateOvertime start stop = Content.calculateOvertime start stop := by
  unfold TimeCalculator.calculateOvertime TimeCalculator.calculateWorkMinutes
    Content.calculateOvertime
  simp only [hs, he, timeCalculator_timeToMinutes_eq, TimeCalculator.DEFAULT_BREAK_TIME,
    TimeCalculator.DEFAULT_WORK_HOURS, Content.DEFAULT_BREAK_TIME, Content.DEFAULT_WORK_HOURS,
    Bool.not_true, Bool.or_self, Bool.false_eq_true, if_false]

/-- With a time absent the utility copy returns the standard minutes as a
shortfall. -/
theorem timeCalculator_calculateOvertime_absent (start stop : JSStr)
    (h : start.truthy = false ∨ stop.truthy = false) :
    TimeCalculator.calculateOvertime start stop = .fin (-480) := by
  unfold TimeCalculator.calculateOvertime
  rw [timeCalculator_calculateWorkMinutes_absent _ _ _ h]
  simp only [TimeCalculator.DEFAULT_WORK_HOURS, JSNum.mul, JSNum.sub, JSNum.add, JSNum.neg]
  norm_num

theorem add_zero_right (x : JSNum) : x.add (.fin 0) = x := by
  cases x with
  | nan => rfl
  | fin q => simp [JSNum.add]
  | inf s => rfl

theorem weeklyTotal_foldl (dailyData : List DayRecord) (init : JSNum) :
    dailyData.foldl
      (fun total day =>
        if (!day.startTime.truthy || !day.endTime.truthy) = true then total
        else total.add (TimeCalculator.calculateOvertime day.startTime day.endTime
          TimeCalculator.DEFAULT_WORK_HOURS TimeCalculator.DEFAULT_BREAK_TIME)) init =
      (dailyData.map fun day => Content.calculateOvertime day.startTime day.endTime).foldl
        JSNum.add init := by
  induction dailyData generalizing init with
  | nil => rfl
  | cons d t ih =>
    simp only [List.foldl_cons, List.map_cons]
    by_cases hp : d.startTime.truthy = true ∧ d.endTime.truthy = true
    · have e := calculateOvertime_copies_present _ _ hp.1 hp.2
      simp only [hp.1, hp.2, Bool.not_true, Bool.or_self, Bool.false_eq_true, if_false]
      rw [show TimeCalculator.calculateOvertime d.startTime d.endTime
          TimeCalculator.DEFAULT_WORK_HOURS TimeCalculator.DEFAULT_BREAK_TIME =
          TimeCalculator.calculateOvertime d.startTime d.endTime from rfl, e, ih]
    · have ha : d.startTime.truthy = false ∨ d.endTime.truthy = false := by
        by_cases h1 : d.startTime.truthy = true
        · right
          simpa using fun h2 => hp ⟨h1, h2⟩
        · left; simpa using h1
      have hc : (!d.startTime.truthy || !d.endTime.truthy) = true := by
        rcases ha with h | h <;> simp [h]
      rw [if_pos hc, content_calculateOvertime_absent _ _ ha, add_zero_right, ih]

/-- C25 (counterexample): with an absent start the utility copy returns -480
and the content-script copy 0; and over a single day without times
`calculateWeeklyTotal` is 0 while the sum of the utility `calculateOvertime` is
-480. -/
theorem calculateOvertime_copies_differ :
    TimeCalculator.calculateOvertime .null (.str "18:00") = JSNum.ofInt (-480) ∧
      Content.calculateOvertime .null (.str "18:00") = JSNum.ofInt 0 ∧
      TimeCalculator.calculateOvertime .null (.str "18:00")
        ≠ Content.calculateOvertime .null (.str "18:00") ∧
      TimeCalculator.calculateWeeklyTotal [sampleRecord 20243 .null .null] = JSNum.ofInt 0 ∧
      ([sampleRecord 20243 .null .null].map fun day =>
          TimeCalculator.calculateOvertime day.startTime day.endTime).foldl JSNum.add
        (JSNum.ofInt 0) = JSNum.ofInt (-480) := by
  have h1 := timeCalculator_calculateOvertime_absent .null (.str "18:00") (Or.inl rfl)
  have h2 := content_calculateOvertime_absent .null (.str "18:00") (Or.inl rfl)
  have h3 := timeCalculator_calculateOvertime_absent .null .null (Or.inl rfl)
  refine ⟨by rw [h1]; simp [JSNum.ofInt], by rw [h2]; simp [JSNum.ofInt], ?_, ?_, ?_⟩
  · rw [h1, h2]
    intro h
    simp only [JSNum.fin.injEq] at h
    norm_num at h
  · simp [TimeCalculator.calculateWeeklyTotal, sampleRecord, JSStr.truthy, JSNum.ofInt]
  · simp only [List.map_cons, List.map_nil, List.foldl_cons, List.foldl_nil, sampleRecord, h3,
      JSNum.ofInt, JSNum.add]
    norm_num

/-- C25 (amended): with both times present the utility `calculateOvertime`
(default parameters) and the content-script one return the same number; with a
time absent the content-script copy returns 0 and the utility copy -480; and
`calculateWeeklyTotal`, which skips the days with an absent time, is the plain
sum of the content-script `calculateOvertime` over all the days of the list. -/
theorem calculateOvertime_copies (start stop : JSStr) (dailyData : List DayRecord) :
    (start.truthy = true → stop.truthy = true →
        TimeCalculator.calculateOvertime start stop = Content.calculateOvertime start stop) ∧
      ((start.truthy = false ∨ stop.truthy = false) →
        Content.calculateOvertime start stop = JSNum.ofInt 0 ∧
          TimeCalculator.calculateOvertime start stop = JSNum.ofInt (-480)) ∧
      TimeCalculator.calculateWeeklyTotal dailyData =
        (dailyData.map fun day => Content.calculateOvertime day.startTime day.endTime).foldl
          JSNum.add (JSNum.ofInt 0) := by
  refine ⟨calculateOvertime_copies_present start stop, ?_, ?_⟩
  · intro h
    rw [content_calculateOvertime_absent _ _ h, timeCalculator_calculateOvertime_absent _ _ h]
    simp [JSNum.ofInt]
  · have z : JSNum.ofInt 0 = .fin 0 := by simp [JSNum.ofInt]
    rw [z]
    exact weeklyTotal_foldl dailyData (.fin 0)

/-- Witness of C25 (amended): `09:00` to `19:00`, and an absent start. -/
theorem calculateOvertime_copies_witness :
    (JSStr.str "09:00").truthy = true ∧ (JSStr.str "19:00").truthy = true ∧
      TimeCalculator.calculateOvertime (.str "09:00") (.str "19:00")
        = Content.calculateOvertime (.str "09:00") (.str "19:00") ∧
      (JSStr.null.truthy = false ∨ (JSStr.str "19:00").truthy = false) ∧
      TimeCalculator.calculateOvertime .null (.str "19:00") = JSNum.ofInt (-480) :=
  ⟨rfl, rfl, (calculateOvertime_copies (.str "09:00") (.str "19:00") []).1 rfl rfl,
    Or.inl rfl, ((calculateOvertime_copies .null (.str "19:00") []).2.1 (Or.inl rfl)).2⟩
/-! ### `minutesToTime` and `timeToMinutes` -/

theorem twoDigits_chars (k : ℕ) (hk : k < 60) :
    (twoDigits k).data = [Char.ofNat (48 + k / 10), Char.ofNat (48 + k % 10)] := by
  have key : ∀ i : Fin 60,
      (twoDigits i.val).data = [Char.ofNat (48 + i.val / 10), Char.ofNat (48 + i.val % 10)] := by
    decide
  exact key ⟨k, hk⟩

theorem digitChar_props (n : ℕ) (hn : n < 10) :
    (Char.ofNat (48 + n)).isDigit = true ∧ (Char.ofNat (48 + n)).toNat = 48 + n := by
  have key : ∀ i : Fin 10,
      (Char.ofNat (48 + i.val)).isDigit = true ∧ (Char.ofNat (48 + i.val)).toNat = 48 + i.val := by
    decide
  exact key ⟨n, hn⟩

/-- The function `minutesToTime` on a minute of the day. -/
theorem minutesToTime_int (m : ℤ) (h0 : 0 ≤ m) (h1 : m < 1440) :
    TimeCalculator.minutesToTime (.int m) =
      twoDigits (m.toNat / 60) ++ ":" ++ twoDigits (m.toNat % 60) := by
  unfold TimeCalculator.minutesToTime
  have hh : ((JSInt.int m).toNum.div (.fin 60)).floor = .int ((m.toNat / 60 : ℕ) : ℤ) := by
    simp only [JSInt.toNum, JSNum.div, JSNum.floor]
    rw [if_neg (by norm_num)]
    have := Rat.floor_intCast_div_natCast m 60
    simp only [Nat.cast_ofNat] at this
    show JSInt.int ⌊((m : ℤ) : ℚ) / 60⌋ = _
    rw [this]
    congr 1
    omega
  have hm : (JSInt.int m).mod (.int 60) = .int ((m.toNat % 60 : ℕ) : ℤ) := by
    simp only [JSInt.mod]
    rw [if_neg (by norm_num), Int.tmod_eq_emod h0 (by norm_num)]
    congr 1
    omega
  have e1 : ∀ n : ℕ, (JSInt.int (n : ℤ)).toJSString = toString n := by
    intro n
    simp [JSInt.toJSString]
  rw [hh, hm]
  simp only [e1]
  rw [padStart_two_lt _ (by omega), padStart_two_lt _ (by omega)]

/-- The rendering of a minute of the day is a valid clock string with that
hour and minute. -/
theorem clock_of_minutes (h mm : ℕ) (hh : h < 24) (hm : mm < 60) :
    isClockString (twoDigits h ++ ":" ++ twoDigits mm) = true ∧
      clockHour (twoDigits h ++ ":" ++ twoDigits mm) = h ∧
      clockMinute (twoDigits h ++ ":" ++ twoDigits mm) = mm := by
  have d1 := digitChar_props (h / 10) (by omega)
  have d2 := digitChar_props (h % 10) (Nat.mod_lt _ (by norm_num))
  have d3 := digitChar_props (mm / 10) (by omega)
  have d4 := digitChar_props (mm % 10) (Nat.mod_lt _ (by norm_num))
  have hdata : (twoDigits h ++ ":" ++ twoDigits mm).toList =
      [Char.ofNat (48 + h / 10), Char.ofNat (48 + h % 10), ':', Char.ofNat (48 + mm / 10),
        Char.ofNat (48 + mm % 10)] := by
    simp only [String.toList, String.data_append, twoDigits_chars h (by omega),
      twoDigits_chars mm hm]
    rfl
  refine ⟨?_, ?_, ?_⟩
  · unfold isClockString
    rw [hdata]
    simp only [d1.1, d2.1, d3.1, d4.1, d1.2, d2.2, d3.2, d4.2, Bool.and_eq_true, beq_self_eq_true,
      decide_eq_true_eq, true_and]
    omega
  · unfold clockHour
    rw [hdata]
    simp only [d1.2, d2.2]
    omega
  · unfold clockMinute
    rw [hdata]
    simp only [d3.2, d4.2]
    omega

/-- C26: on the clock domain `minutesToTime` and `timeToMinutes` are inverse
of each other: for an integer `m` with `0 <= m < 1440` the minutes of
`minutesToTime(m)` are `m`, and for a valid zero-padded clock string `s` the
number `timeToMinutes(s)` is an integer whose `minutesToTime` is `s`. -/
theorem minutesToTime_timeToMinutes :
    (∀ m : ℤ, 0 ≤ m → m < 1440 →
        TimeCalculator.timeToMinutes (.str (TimeCalculator.minutesToTime (.int m)))
          = JSNum.ofInt m) ∧
      (∀ s : String, isClockString s = true →
        ∃ n : ℤ, TimeCalculator.timeToMinutes (.str s) = JSNum.ofInt n ∧
          TimeCalculator.minutesToTime (.int n) = s) := by
  constructor
  · intro m h0 h1
    have hc := clock_of_minutes (m.toNat / 60) (m.toNat % 60) (by omega)
      (Nat.mod_lt _ (by norm_num))
    rw [minutesToTime_int m h0 h1, timeCalculator_timeToMinutes_eq,
      content_timeToMinutes_clock hc.1]
    unfold minuteOfDay JSNum.ofInt
    rw [hc.2.1, hc.2.2]
    congr 2
    omega
  · intro s hs
    refine ⟨minuteOfDay s, ?_, ?_⟩
    · rw [timeCalculator_timeToMinutes_eq, content_timeToMinutes_clock hs]
      rfl
    · have hb := minuteOfDay_bounds hs
      have hf := clock_fields hs
      rw [minutesToTime_int _ hb.1 (by omega)]
      have e1 : (minuteOfDay s).toNat / 60 = clockHour s := by
        unfold minuteOfDay; omega
      have e2 : (minuteOfDay s).toNat % 60 = clockMinute s := by
        unfold minuteOfDay; omega
      rw [e1, e2]
      obtain ⟨a, b, d, e, rfl, ha, hb2, hd, he, hh, hm⟩ := clock_shape hs
      have ra := (isDigit_iff a).mp ha
      have rb := (isDigit_iff b).mp hb2
      have rd := (isDigit_iff d).mp hd
      have re := (isDigit_iff e).mp he
      apply String.ext
      simp only [String.data_append, clockHour, clockMinute, String.toList]
      rw [twoDigits_chars _ (by omega), twoDigits_chars _ (by omega)]
      have c1 : Char.ofNat (48 + (10 * (a.toNat - 48) + (b.toNat - 48)) / 10) = a := by
        rw [show 48 + (10 * (a.toNat - 48) + (b.toNat - 48)) / 10 = a.toNat by omega]
        exact Char.ofNat_toNat a
      have c2 : Char.ofNat (48 + (10 * (a.toNat - 48) + (b.toNat - 48)) % 10) = b := by
        rw [show 48 + (10 * (a.toNat - 48) + (b.toNat - 48)) % 10 = b.toNat by omega]
        exact Char.ofNat_toNat b
      have c3 : Char.ofNat (48 + (10 * (d.toNat - 48) + (e.toNat - 48)) / 10) = d := by
        rw [show 48 + (10 * (d.toNat - 48) + (e.toNat - 48)) / 10 = d.toNat by omega]
        exact Char.ofNat_toNat d
      have c4 : Char.ofNat (48 + (10 * (d.toNat - 48) + (e.toNat - 48)) % 10) = e := by
        rw [show 48 + (10 * (d.toNat - 48) + (e.toNat - 48)) % 10 = e.toNat by omega]
        exact Char.ofNat_toNat e
      rw [c1, c2, c3, c4]
      rfl

/-- Witness of C26: 545 minutes and `09:05`. -/
theorem minutesToTime_timeToMinutes_witness :
    (0 : ℤ) ≤ 545 ∧ (545 : ℤ) < 1440 ∧
      TimeCalculator.timeToMinutes (.str (TimeCalculator.minutesToTime (.int 545)))
        = JSNum.ofInt 545 ∧
      isClockString "09:05" = true ∧
      (∃ n : ℤ, TimeCalculator.timeToMinutes (.str "09:05") = JSNum.ofInt n ∧
        TimeCalculator.minutesToTime (.int n) = "09:05") :=
  ⟨by decide, by decide, minutesToTime_timeToMinutes.1 545 (by decide) (by decide), by decide,
    minutesToTime_timeToMinutes.2 "09:05" (by decide)⟩

/-! ### Persistence -/

/-- C22: the persisted store is a mapping with last write wins: after
`saveTimeData(k, v)` the key `k` loads `v` and every other key loads what it
did; a second save makes `k` load the new entry; after `deleteTimeData(k)` the
key `k` loads null and every other key is unchanged; a key never stored loads
null.  The content-script copies behave like those of the storage module. -/
theorem storage_last_write_wins (storage : StorageArea) (k k2 : String) (v v2 : TimeEntry)
    (hk : k2 ≠ k) :
    StorageManager.loadTimeData (StorageManager.saveTimeData storage k v) k = some v ∧
      StorageManager.loadTimeData (StorageManager.saveTimeData storage k v) k2
        = StorageManager.loadTimeData storage k2 ∧
      StorageManager.loadTimeData
        (StorageManager.saveTimeData (StorageManager.saveTimeData storage k v) k v2) k
        = some v2 ∧
      StorageManager.loadTimeData (StorageManager.deleteTimeData storage k) k = none ∧
      StorageManager.loadTimeData (StorageManager.deleteTimeData storage k) k2
        = StorageManager.loadTimeData storage k2 ∧
      StorageManager.loadTimeData none k = none ∧
      StorageManager.loadTimeData (StorageManager.saveTimeData none k2 v) k = none ∧
      Content.loadTimeData (Content.saveTimeData storage k v) k = some v ∧
      Content.loadTimeData (Content.saveTimeData storage k v) k2
        = Content.loadTimeData storage k2 ∧
      Content.loadTimeData (Content.saveTimeData (Content.saveTimeData storage k v) k v2) k
        = some v2 ∧
      Content.loadTimeData none k = none ∧
      Content.loadTimeData storage k = StorageManager.loadTimeData storage k ∧
      Content.saveTimeData storage k v = StorageManager.saveTimeData storage k v ∧
      (∀ key, StorageManager.loadAllTimeData storage key
        = StorageManager.loadTimeData storage key) := by
  have hk' : k ≠ k2 := fun h => hk h.symm
  refine ⟨?_, ?_, ?_, ?_, ?_, rfl, ?_, ?_, ?_, ?_, rfl, ?_, rfl, fun _ => rfl⟩
  · simp [StorageManager.loadTimeData, StorageManager.saveTimeData, timeDataOrEmpty]
  · simp [StorageManager.loadTimeData, StorageManager.saveTimeData, timeDataOrEmpty, hk]
  · simp [StorageManager.loadTimeData, StorageManager.saveTimeData, timeDataOrEmpty]
  · simp [StorageManager.loadTimeData, StorageManager.deleteTimeData, timeDataOrEmpty]
  · simp [StorageManager.loadTimeData, StorageManager.deleteTimeData, timeDataOrEmpty, hk]
  · simp [StorageManager.loadTimeData, StorageManager.saveTimeData, timeDataOrEmpty, hk']
  · simp [Content.loadTimeData, Content.saveTimeData]
  · cases storage <;>
      simp [Content.loadTimeData, Content.saveTimeData, timeDataOrEmpty, hk]
  · simp [Content.loadTimeData, Content.saveTimeData]
  · cases storage <;> rfl

/-- Witness of C22: two keys of the sample week. -/
theorem storage_last_write_wins_witness :
    ("20250605" : String) ≠ "20250604" ∧
      StorageManager.loadTimeData
        (StorageManager.saveTimeData (some sampleFullStore) "20250604" sampleEntry) "20250604"
        = some sampleEntry ∧
      StorageManager.loadTimeData
        (StorageManager.saveTimeData (some sampleFullStore) "20250604" sampleEntry) "20250605"
        = StorageManager.loadTimeData (some sampleFullStore) "20250605" ∧
      StorageManager.loadTimeData
        (StorageManager.deleteTimeData (some sampleFullStore) "20250604") "20250604" = none :=
  ⟨by decide,
    (storage_last_write_wins (some sampleFullStore) "20250604" "20250605" sampleEntry
      sampleEntryLater (by decide)).1,
    (storage_last_write_wins (some sampleFullStore) "20250604" "20250605" sampleEntry
      sampleEntryLater (by decide)).2.1,
    (storage_last_write_wins (some sampleFullStore) "20250604" "20250605" sampleEntry
      sampleEntryLater (by decide)).2.2.2.1⟩
/-! ### Employee identity -/

theorem truthy_of_length_pos (s : String) (h : 0 < s.toList.length) :
    (JSStr.str s).truthy = true := by
  obtain ⟨cs⟩ := s
  cases cs with
  | nil => simp at h
  | cons c t => rfl

theorem isEmpNoText_props {v : String} (h : isEmpNoText v = true) :
    (JSStr.str v).truthy = true ∧ removeNonDigits v = v := by
  simp only [isEmpNoText, Bool.and_eq_true, decide_eq_true_eq] at h
  refine ⟨truthy_of_length_pos v (by omega), ?_⟩
  obtain ⟨cs⟩ := v
  unfold removeNonDigits
  congr 1
  exact List.filter_eq_self.mpr (List.all_eq_true.mp h.2)

theorem isHangulName_truthy {v : String} (h : isHangulName v = true) :
    (JSStr.str v).truthy = true := by
  simp only [isHangulName, Bool.and_eq_true, decide_eq_true_eq] at h
  exact truthy_of_length_pos v (by omega)

theorem tests_of_empty {s : String} (h : (JSStr.str s).truthy = false) :
    isHangulName (jsTrim s) = false ∧ isEmpNoText (jsTrim s) = false := by
  obtain ⟨cs⟩ := s
  cases cs with
  | nil => exact ⟨by decide, by decide⟩
  | cons c t => simp [JSStr.truthy] at h

theorem applyLabelMatch_empty (e : EmpInfo) (f : LabelKey × String)
    (h : (JSStr.str f.2).truthy = false) : applyLabelMatch e f = e := by
  simp [applyLabelMatch, h]

/-- The name after the label scan: the one already set, else the first name the
scan yields. -/
theorem foldl_label_empNm (l : List (LabelKey × String)) (e : EmpInfo) :
    (l.foldl applyLabelMatch e).empNm =
      if e.empNm.truthy = true then e.empNm
      else
        (firstYielded ((l.filter fun found =>
          found.1 = .empNm ∧ isHangulName (jsTrim found.2) = true).map
            fun found => jsTrim found.2)).elim e.empNm JSStr.str := by
  induction l generalizing e with
  | nil => by_cases h : e.empNm.truthy = true <;> simp [h, firstYielded]
  | cons f t ih =>
    rw [List.foldl_cons, ih]
    by_cases hf : (JSStr.str f.2).truthy = true
    · by_cases hn : f.1 = .empNm ∧ isHangulName (jsTrim f.2) = true
      · have hne : ¬ (f.1 = .empNo ∧ isEmpNoText (jsTrim f.2) = true) := by
          intro h; rw [hn.1] at h; exact absurd h.1 (by decide)
        have hv := isHangulName_truthy hn.2
        by_cases he : e.empNm.truthy = true
        · simp [applyLabelMatch, hf, hn, hne, he]
        · simp [applyLabelMatch, hf, hn, hne, he, hv, firstYielded, List.filter_cons,
            Option.elim]
      · have ho : (applyLabelMatch e f).empNm = e.empNm := by
          unfold applyLabelMatch
          simp only [hf, if_true, hn, if_false]
          split_ifs <;> rfl
        rw [ho, List.filter_cons]
        simp [hn]
    · have hf' : (JSStr.str f.2).truthy = false := by simpa using hf
      rw [applyLabelMatch_empty e f hf', List.filter_cons]
      simp [(tests_of_empty hf').1]

/-- The number after the label scan: the one already set, else the first number
the scan yields. -/
theorem foldl_label_empNo (l : List (LabelKey × String)) (e : EmpInfo) :
    (l.foldl applyLabelMatch e).empNo =
      if e.empNo.truthy = true then e.empNo
      else
        (firstYielded ((l.filter fun found =>
          found.1 = .empNo ∧ isEmpNoText (jsTrim found.2) = true).map
            fun found => jsTrim found.2)).elim e.empNo JSStr.str := by
  induction l generalizing e with
  | nil => by_cases h : e.empNo.truthy = true <;> simp [h, firstYielded]
  | cons f t ih =>
    rw [List.foldl_cons, ih]
    by_cases hf : (JSStr.str f.2).truthy = true
    · by_cases hn : f.1 = .empNo ∧ isEmpNoText (jsTrim f.2) = true
      · have hne : ¬ (f.1 = .empNm ∧ isHangulName (jsTrim f.2) = true) := by
          intro h; rw [hn.1] at h; exact absurd h.1 (by decide)
        have hv := isEmpNoText_props hn.2
        by_cases he : e.empNo.truthy = true
        · simp [applyLabelMatch, hf, hn, hne, he]
        · simp [applyLabelMatch, hf, hn, hne, he, hv.1, hv.2, firstYielded, List.filter_cons,
            Option.elim]
      · have ho : (applyLabelMatch e f).empNo = e.empNo := by
          unfold applyLabelMatch
          simp only [hf, if_true, hn, if_false]
          split_ifs <;> rfl
        rw [ho, List.filter_cons]
        simp [hn]
    · have hf' : (JSStr.str f.2).truthy = false := by simpa using hf
      rw [applyLabelMatch_empty e f hf', List.filter_cons]
      simp [(tests_of_empty hf').2]
theorem applyBody_empNm (b : Option String) (e : EmpInfo) : (applyBody b e).empNm = e.empNm := by
  unfold applyBody
  cases b <;> simp only [] <;> split_ifs <;> rfl

theorem applyScripts_empNm (s : JSStr) (e : EmpInfo) : (applyScripts s e).empNm = e.empNm := by
  unfold applyScripts
  split_ifs <;> rfl

theorem applyHidden_empNm (h : Option String) (e : EmpInfo) :
    (applyHidden h e).empNm = e.empNm := by
  unfold applyHidden
  cases h <;> simp only [] <;> split_ifs <;> rfl

theorem applyTitle_empNo (t : Option String) (e : EmpInfo) : (applyTitle t e).empNo = e.empNo := by
  unfold applyTitle
  cases t <;> simp only [] <;> split_ifs <;> rfl

theorem yielded_str (s : String) :
    yielded (.str s) = if (JSStr.str s).truthy = true then [s] else [] := by
  unfold yielded JSStr.truthy
  by_cases h : s.data.isEmpty = true <;> simp [h]

theorem yielded_of_falsy (v : JSStr) (h : v.truthy = false) : yielded v = [] := by
  cases v with
  | null => rfl
  | undefined => rfl
  | str s => rw [yielded_str, h]; rfl

theorem yielded_of_truthy (v : JSStr) (h : v.truthy = true) : ∃ s, v = .str s ∧ yielded v = [s] := by
  cases v with
  | null => exact absurd h (by decide)
  | undefined => exact absurd h (by decide)
  | str s => exact ⟨s, rfl, by rw [yielded_str, h]; rfl⟩

/-- The name resolved is the first name yielded. -/
theorem resolve_empNm (src : IdentitySources) :
    (∀ n rest, yieldedNames src = n :: rest → (resolveEmpInfo src).empNm = .str n) ∧
      (yieldedNames src = [] → (resolveEmpInfo src).empNm.truthy = false) := by
  have hres : (resolveEmpInfo src).empNm =
      (src.labelMatches.foldl applyLabelMatch (applyTitle src.titleCapture ⟨.null, .null⟩)).empNm := by
    unfold resolveEmpInfo
    simp only [applyHidden_empNm, applyScripts_empNm, applyBody_empNm]
  rw [hres, foldl_label_empNm]
  unfold yieldedNames
  generalize (src.labelMatches.filter fun found =>
    found.1 = .empNm ∧ isHangulName (jsTrim found.2) = true).map (fun found => jsTrim found.2) = names
  cases ht : src.titleCapture with
  | none =>
    simp only [applyTitle, truthy_null, Bool.false_eq_true, if_false, List.nil_append]
    cases names with
    | nil => simp [firstYielded, truthy_null]
    | cons a r => simp [firstYielded]
  | some c =>
    by_cases hc : (JSStr.str c).truthy = true
    · have hce : c.data.isEmpty = false := by simpa [JSStr.truthy] using hc
      by_cases htr : (JSStr.str (jsTrim c)).truthy = true
      · simp [applyTitle, hc, htr, hce, yielded_str]
      · have htr' : (JSStr.str (jsTrim c)).truthy = false := by simpa using htr
        simp only [applyTitle, hc, if_true, htr', Bool.false_eq_true, if_false, hce,
          yielded_str, List.nil_append]
        cases names with
        | nil => simp [firstYielded, htr']
        | cons a r => simp [firstYielded]
    · have hc' : (JSStr.str c).truthy = false := by simpa using hc
      have hce : c.data.isEmpty = true := by simpa [JSStr.truthy] using hc'
      simp only [applyTitle, hc', Bool.false_eq_true, if_false, truthy_null, hce, if_true,
        List.nil_append]
      cases names with
      | nil => simp [firstYielded, truthy_null]
      | cons a r => simp [firstYielded]
/-- Strategies 4 and 5 on an object without number. -/
theorem resolve_tail (script : JSStr) (hidden : Option String) (e2 : EmpInfo)
    (e2no : e2.empNo = .null) :
    (∀ n rest,
        (yielded script ++ match hidden with
          | some value => yielded (.str value)
          | none => []) = n :: rest →
        (applyHidden hidden (applyScripts script e2)).empNo = .str n) ∧
      ((yielded script ++ match hidden with
          | some value => yielded (.str value)
          | none => []) = [] →
        (applyHidden hidden (applyScripts script e2)).empNo.truthy = false) := by
  have e4no : (applyScripts script e2).empNo = script := by
    simp [applyScripts, e2no, truthy_null]
  by_cases hs : script.truthy = true
  · obtain ⟨s, rfl, hy⟩ := yielded_of_truthy script hs
    have e5 : applyHidden hidden (applyScripts (.str s) e2) = applyScripts (.str s) e2 := by
      simp [applyHidden, e4no, hs]
    rw [e5, e4no, hy]
    simp
  · have hs' : script.truthy = false := by simpa using hs
    rw [yielded_of_falsy script hs']
    simp only [List.nil_append]
    cases hidden with
    | none =>
      have e5 : applyHidden none (applyScripts script e2) = applyScripts script e2 := by
        simp [applyHidden]
      rw [e5, e4no]
      simp [hs']
    | some v =>
      have e5no : (applyHidden (some v) (applyScripts script e2)).empNo = .str v := by
        simp [applyHidden, e4no, hs']
      rw [e5no]
      simp only [yielded_str]
      by_cases hv : (JSStr.str v).truthy = true <;> simp [hv]
/-- The number resolved is the first number yielded. -/
theorem resolve_empNo (src : IdentitySources) :
    (∀ n rest, yieldedNumbers src = n :: rest → (resolveEmpInfo src).empNo = .str n) ∧
      (yieldedNumbers src = [] → (resolveEmpInfo src).empNo.truthy = false) := by
  have h2 : (src.labelMatches.foldl applyLabelMatch
      (applyTitle src.titleCapture ⟨.null, .null⟩)).empNo =
      (firstYielded ((src.labelMatches.filter fun found =>
          found.1 = .empNo ∧ isEmpNoText (jsTrim found.2) = true).map
            fun found => jsTrim found.2)).elim JSStr.null JSStr.str := by
    rw [foldl_label_empNo, applyTitle_empNo]
    simp [truthy_null]
  have hnums : ∀ x ∈ ((src.labelMatches.filter fun found =>
      found.1 = .empNo ∧ isEmpNoText (jsTrim found.2) = true).map fun found => jsTrim found.2),
      (JSStr.str x).truthy = true := by
    intro x hx
    obtain ⟨f, hf, rfl⟩ := List.mem_map.mp hx
    have := (List.mem_filter.mp hf).2
    simp only [decide_eq_true_eq] at this
    exact (isEmpNoText_props this.2).1
  unfold resolveEmpInfo yieldedNumbers
  simp only []
  generalize (src.labelMatches.foldl applyLabelMatch
    (applyTitle src.titleCapture ⟨.null, .null⟩)) = e2 at h2 ⊢
  generalize ((src.labelMatches.filter fun found =>
    found.1 = .empNo ∧ isEmpNoText (jsTrim found.2) = true).map fun found => jsTrim found.2)
    = nums at h2 hnums ⊢
  cases nums with
  | cons a r =>
    have ha := hnums a (by simp)
    have e2no : e2.empNo = .str a := by rw [h2]; rfl
    have e3 : applyBody src.bodyCapture e2 = e2 := by simp [applyBody, e2no, ha]
    have e4 : applyScripts src.scriptEmpNo e2 = e2 := by simp [applyScripts, e2no, ha]
    have e5 : applyHidden src.hiddenValue e2 = e2 := by simp [applyHidden, e2no, ha]
    rw [e3, e4, e5, e2no]
    simp
  | nil =>
    have e2no : e2.empNo = .null := by rw [h2]; rfl
    simp only [List.nil_append]
    cases hb : src.bodyCapture with
    | some c =>
      by_cases hc : (JSStr.str c).truthy = true
      · have e3no : (applyBody (some c) e2).empNo = .str c := by
          simp [applyBody, e2no, truthy_null, hc]
        have e4 : applyScripts src.scriptEmpNo (applyBody (some c) e2) = applyBody (some c) e2 := by
          simp [applyScripts, e3no, hc]
        have e5 : applyHidden src.hiddenValue (applyBody (some c) e2) = applyBody (some c) e2 := by
          simp [applyHidden, e3no, hc]
        rw [e4, e5, e3no]
        simp [yielded_str, hc]
      · have hc' : (JSStr.str c).truthy = false := by simpa using hc
        have e3 : applyBody (some c) e2 = e2 := by simp [applyBody, e2no, truthy_null, hc']
        rw [e3]
        simp only [yielded_of_falsy (.str c) hc', List.nil_append]
        exact resolve_tail src.scriptEmpNo src.hiddenValue e2 e2no
    | none =>
      have e3 : applyBody none e2 = e2 := by simp [applyBody, e2no, truthy_null]
      rw [e3]
      simp only [List.nil_append]
      exact resolve_tail src.scriptEmpNo src.hiddenValue e2 e2no
/-- C21: for every combination of strategy outcomes the resolved name is the
one of the earliest strategy that yields a name (the title, then the label
scan in the order of its matches) and the resolved employee number the one of
the earliest strategy that yields a number (the label scan, the body pattern,
the script attributes, the hidden fields); a later strategy or a later match
does not overwrite it, and a field no strategy yields stays absent. -/
theorem identity_first_success (src : IdentitySources) :
    (∀ n rest, yieldedNames src = n :: rest → (resolveEmpInfo src).empNm = .str n) ∧
      (yieldedNames src = [] → (resolveEmpInfo src).empNm.truthy = false) ∧
      (∀ n rest, yieldedNumbers src = n :: rest → (resolveEmpInfo src).empNo = .str n) ∧
      (yieldedNumbers src = [] → (resolveEmpInfo src).empNo.truthy = false) :=
  ⟨(resolve_empNm src).1, (resolve_empNm src).2, (resolve_empNo src).1, (resolve_empNo src).2⟩

/-- Witness of C21: a page on which every strategy yields something. -/
theorem identity_first_success_witness :
    yieldedNames sampleSources = "홍길동" :: ["김철수"] ∧
      yieldedNumbers sampleSources = "2023605" :: ["9999999", "1111111", "2222222", "3333333"] ∧
      (resolveEmpInfo sampleSources).empNm = .str "홍길동" ∧
      (resolveEmpInfo sampleSources).empNo = .str "2023605" :=
  ⟨by decide, by decide,
    (identity_first_success sampleSources).1 "홍길동" ["김철수"] (by decide),
    (identity_first_success sampleSources).2.2.1 "2023605"
      ["9999999", "1111111", "2222222", "3333333"] (by decide)⟩

/-! ### Shape of the times returned -/

theorem firstClockMatch_shape : ∀ (cs : List Char) (h m : List Char),
    firstClockMatch cs = some (h, m) → IsMatchText (h ++ ':' :: m)
  | [], h, m, hm => by simp [firstClockMatch] at hm
  | c :: t, h, m, hm => by
    simp only [firstClockMatch] at hm
    split at hm
    · rename_i h2 m2 rest heq
      simp only [Option.some.injEq, Prod.mk.injEq] at hm
      obtain ⟨rfl, rfl⟩ := hm
      obtain ⟨hh, d, e, rfl, hd, he⟩ := matchClockAt_shape heq
      rcases hh with ⟨a, rfl, ha⟩ | ⟨a, b, rfl, ha, hb⟩
      · exact Or.inl ⟨a, d, e, rfl, ha, hd, he⟩
      · exact Or.inr ⟨a, b, d, e, rfl, ha, hb, hd, he⟩
    · exact firstClockMatch_shape t h m hm

/-- The time of a row is empty or written `dd:dd`. -/
theorem rowTime_shape (idxTime : Option ℕ) (cells : List String) :
    rowTime idxTime cells = "" ∨ isPaddedTime (rowTime idxTime cells) = true := by
  unfold rowTime
  split
  · rename_i h m heq
    have hx := firstClockMatch_shape _ h m heq
    right
    rw [(normalizeTime_match hx).1]
    exact (normalizeTime_match hx).2
  · left; rfl

theorem scanRow_padded (idxTime idxEvent idxDevice : Option ℕ) (acc : RowScan)
    (cells : List String)
    (h : ∀ t ∈ acc.inTimes ++ acc.outTimes, isPaddedTime t = true) :
    ∀ t ∈ (scanRow idxTime idxEvent idxDevice acc cells).inTimes ++
      (scanRow idxTime idxEvent idxDevice acc cells).outTimes, isPaddedTime t = true := by
  unfold scanRow
  by_cases hc : cells.length = 0
  · simpa [hc] using h
  · simp only [hc, if_false]
    rcases rowTime_shape idxTime cells with he | hp
    · rw [he]
      simpa using h
    · have hne : (rowTime idxTime cells).data.isEmpty = false := by
        have := truthy_of_padded hp
        simpa [JSStr.truthy] using this
      simp only [hne, Bool.false_eq_true, if_false]
      intro t ht
      have hold : ∀ x, x ∈ acc.inTimes ∨ x ∈ acc.outTimes → isPaddedTime x = true :=
        fun x hx => h x (List.mem_append.mpr hx)
      by_cases hi : rowIsIn idxEvent idxDevice cells = true <;>
        by_cases ho : rowIsOut idxEvent idxDevice cells = true <;>
        simp only [hi, ho, if_true, if_false, Bool.false_eq_true, List.mem_append,
          List.mem_singleton] at ht
      · rcases ht with (ht | ht) | (ht | ht)
        · exact hold t (Or.inl ht)
        · rw [ht]; exact hp
        · exact hold t (Or.inr ht)
        · rw [ht]; exact hp
      · rcases ht with (ht | ht) | ht
        · exact hold t (Or.inl ht)
        · rw [ht]; exact hp
        · exact hold t (Or.inr ht)
      · rcases ht with ht | (ht | ht)
        · exact hold t (Or.inl ht)
        · exact hold t (Or.inr ht)
        · rw [ht]; exact hp
      · exact hold t ht

theorem foldl_scanRow_padded (idxTime idxEvent idxDevice : Option ℕ) (rows : List (List String))
    (acc : RowScan) (h : ∀ t ∈ acc.inTimes ++ acc.outTimes, isPaddedTime t = true) :
    ∀ t ∈ (rows.foldl (scanRow idxTime idxEvent idxDevice) acc).inTimes ++
      (rows.foldl (scanRow idxTime idxEvent idxDevice) acc).outTimes, isPaddedTime t = true := by
  induction rows generalizing acc with
  | nil => exact h
  | cons r t ih =>
    rw [List.foldl_cons]
    exact ih _ (scanRow_padded _ _ _ acc r h)

/-- The times the scan of a table collects are written `dd:dd`. -/
theorem scanRows_padded (table : ResultTable) :
    ∀ t ∈ (scanRows table).inTimes ++ (scanRows table).outTimes, isPaddedTime t = true := by
  unfold scanRows
  exact foldl_scanRow_padded _ _ _ _ _ (by simp)
theorem structuredTimes_fields (table : ResultTable) (r : ParsedTimes)
    (h : structuredTimes table = some r) :
    (r.startTime = .null ∨ ∃ s ∈ (scanRows table).inTimes, r.startTime = .str s) ∧
      (r.endTime = .null ∨ ∃ s ∈ (scanRows table).outTimes, r.endTime = .str s) := by
  simp only [structuredTimes, Option.ite_none_right_eq_some] at h
  rw [← Option.some.inj h.2]
  constructor
  · by_cases hin : (scanRows table).inTimes = []
    · left; simp [hin]
    · obtain ⟨s, hsm, hs0, -⟩ := jsSort_first _ hin
      have hlen : (scanRows table).inTimes.length ≠ 0 := by
        simpa [List.length_eq_zero] using hin
      right
      exact ⟨s, hsm, by simp [hlen, hs0, elemOrUndefined]⟩
  · by_cases hout : (scanRows table).outTimes = []
    · left; simp [hout]
    · obtain ⟨e, hem, he0, -⟩ := jsSort_last _ hout
      have hlen : (scanRows table).outTimes.length ≠ 0 := by
        simpa [List.length_eq_zero] using hout
      right
      exact ⟨e, hem, by simp [hlen, he0, elemOrUndefined]⟩

theorem firstAndLast_fields (times : List String) (r : ParsedTimes)
    (h : firstAndLast times = some r) :
    (∃ s ∈ times, r.startTime = .str s) ∧
      (r.endTime = .null ∨ ∃ s ∈ times, r.endTime = .str s) := by
  cases times with
  | nil => exact absurd h (by simp [firstAndLast])
  | cons a t =>
    cases t with
    | nil =>
      simp only [firstAndLast, Option.some.injEq] at h
      rw [← h]
      exact ⟨⟨a, by simp, rfl⟩, Or.inl rfl⟩
    | cons b rest =>
      simp only [firstAndLast, Option.some.injEq] at h
      rw [← h]
      refine ⟨⟨a, by simp, rfl⟩, Or.inr ⟨(b :: rest).getLastD b, ?_, rfl⟩⟩
      rw [List.getLastD_eq_getLast?]
      cases hl : (b :: rest).getLast? with
      | none => simp at hl
      | some x =>
        have := List.mem_of_getLast?_eq_some hl
        simp only [Option.getD_some]
        exact List.mem_cons_of_mem _ this

theorem fallbackTimes_eq (html : String) :
    fallbackTimes html = firstAndLast ((clockOccurrences html).map zeroPadTime) := by
  have hpad : ∀ t ∈ (clockOccurrences html).map zeroPadTime, isPaddedTime t = true := by
    intro t ht
    unfold clockOccurrences at ht
    rw [List.map_map] at ht
    obtain ⟨x, hx, rfl⟩ := List.mem_map.mp ht
    exact (normalizeTime_match (allClockMatches_shape _ _ x hx)).2
  simp only [fallbackTimes, fallback_times_eq]
  exact fallback_of_times _ (fun t ht => truthy_of_padded (hpad t ht))

theorem occurrences_padded (html : String) :
    ∀ t ∈ (clockOccurrences html).map zeroPadTime, isPaddedTime t = true := by
  intro t ht
  unfold clockOccurrences at ht
  rw [List.map_map] at ht
  obtain ⟨x, hx, rfl⟩ := List.mem_map.mp ht
  exact (normalizeTime_match (allClockMatches_shape _ _ x hx)).2

/-- C23 (counterexample): the fragment text `25:70` gives the start time
`25:70`, and a table row tagged `99:99` gives the start time `99:99`; neither is
a valid 24-hour clock string. -/
theorem parsed_time_not_valid_clock :
    parseTimesFromHTML ⟨"<td>25:70</td>", none⟩
        = some ⟨.str "25:70", .null, none, none, none⟩ ∧
      isClockString "25:70" = false ∧
      parseTimesFromHTML ⟨"", some sampleTableBadTime⟩
        = some ⟨.str "99:99", .null, some ["99:99"], some [], some false⟩ ∧
      isClockString "99:99" = false := by
  decide

/-- C23 (amended): every start time and end time that `parseTimesFromHTML`
returns is absent (null) or written `dd:dd`: exactly five characters, two
digits, a colon and two digits, on the structured and on the fallback path;
the hour and the minute are not checked against 23 and 59. -/
theorem parsed_times_padded (frag : HtmlFragment) (r : ParsedTimes)
    (h : parseTimesFromHTML frag = some r) :
    (r.startTime = .null ∨ ∃ s, r.startTime = .str s ∧ isPaddedTime s = true) ∧
      (r.endTime = .null ∨ ∃ s, r.endTime = .str s ∧ isPaddedTime s = true) ∧
      (∀ s : String, isPaddedTime s = true ↔
        ∃ a b d e : Char, s = String.mk [a, b, ':', d, e] ∧ a.isDigit = true ∧
          b.isDigit = true ∧ d.isDigit = true ∧ e.isDigit = true) := by
  refine ⟨?_, ?_, ?_⟩
  · unfold parseTimesFromHTML at h
    split at h
    · rename_i times heq
      rw [Option.some.inj h] at heq
      cases hrt : frag.resultTable with
      | none => rw [hrt] at heq; exact absurd heq (by simp)
      | some table =>
        rw [hrt] at heq
        rcases (structuredTimes_fields table r heq).1 with h0 | ⟨s, hs, h1⟩
        · exact Or.inl h0
        · exact Or.inr ⟨s, h1, scanRows_padded table s (List.mem_append_left _ hs)⟩
    · rw [fallbackTimes_eq] at h
      obtain ⟨s, hs, h1⟩ := (firstAndLast_fields _ r h).1
      exact Or.inr ⟨s, h1, occurrences_padded _ s hs⟩
  · unfold parseTimesFromHTML at h
    split at h
    · rename_i times heq
      rw [Option.some.inj h] at heq
      cases hrt : frag.resultTable with
      | none => rw [hrt] at heq; exact absurd heq (by simp)
      | some table =>
        rw [hrt] at heq
        rcases (structuredTimes_fields table r heq).2 with h0 | ⟨s, hs, h1⟩
        · exact Or.inl h0
        · exact Or.inr ⟨s, h1, scanRows_padded table s (List.mem_append_right _ hs)⟩
    · rw [fallbackTimes_eq] at h
      rcases (firstAndLast_fields _ r h).2 with h0 | ⟨s, hs, h1⟩
      · exact Or.inl h0
      · exact Or.inr ⟨s, h1, occurrences_padded _ s hs⟩
  · intro s
    obtain ⟨cs⟩ := s
    constructor
    · intro hp
      unfold isPaddedTime at hp
      simp only [String.toList] at hp
      split at hp
      · rename_i a b c d e
        simp only [Bool.and_eq_true, beq_iff_eq] at hp
        obtain ⟨⟨⟨⟨ha, hb⟩, hc⟩, hd⟩, he⟩ := hp
        subst hc
        exact ⟨a, b, d, e, rfl, ha, hb, hd, he⟩
      · exact absurd hp (by simp)
    · rintro ⟨a, b, d, e, heq, ha, hb, hd, he⟩
      rw [heq]
      simp [isPaddedTime, ha, hb, hd, he]

/-- Witness of C23 (amended): the fragment text `25:70`. -/
theorem parsed_times_padded_witness :
    parseTimesFromHTML ⟨"<td>25:70</td>", none⟩
        = some ⟨.str "25:70", .null, none, none, none⟩ ∧
      ((ParsedTimes.mk (.str "25:70") .null none none none).startTime = .null ∨
        ∃ s, (ParsedTimes.mk (.str "25:70") .null none none none).startTime = .str s ∧
          isPaddedTime s = true) :=
  ⟨by decide,
    (parsed_times_padded ⟨"<td>25:70</td>", none⟩ ⟨.str "25:70", .null, none, none, none⟩
      (by decide)).1⟩

/-! ### Rendered-table weekly extraction -/

theorem parseRow_of_contributes (tz : ℤ) (inIdx outIdx dateIdx : Option ℕ) (wds : List String)
    (key : String) (hkey : key ∈ wds) (row : TableRow)
    (h : (!row.injected &&
      (rowDateParts dateIdx row).map (fun p => String.mk (p.1 ++ p.2.1 ++ p.2.2)) == some key)
      = true) :
    ∃ date, parseRow tz inIdx outIdx dateIdx wds row =
      some ⟨key, date, (cellTime inIdx row).or .null, (cellTime outIdx row).or .null, none⟩ := by
  simp only [Bool.and_eq_true, Bool.not_eq_true', beq_iff_eq] at h
  obtain ⟨hinj, hk⟩ := h
  cases hp : rowDateParts dateIdx row with
  | none => rw [hp] at hk; simp at hk
  | some p =>
    obtain ⟨y, m, d⟩ := p
    rw [hp] at hk
    simp only [Option.map_some', Option.some.injEq] at hk
    refine ⟨dateOfIsoText tz y m d, ?_⟩
    subst hk
    have hc : wds.contains (String.mk (y ++ m ++ d)) = true := by simpa using hkey
    simp only [parseRow, hinj, hp, hc, Bool.not_true, Bool.false_eq_true, if_false]

theorem parseRow_key (tz : ℤ) (inIdx outIdx dateIdx : Option ℕ) (wds : List String)
    (row : TableRow) (r : DayRecord) (h : parseRow tz inIdx outIdx dateIdx wds row = some r) :
    row.injected = false ∧
      (rowDateParts dateIdx row).map (fun p => String.mk (p.1 ++ p.2.1 ++ p.2.2)) =
        some r.dateKey ∧ r.dateKey ∈ wds := by
  unfold parseRow at h
  by_cases hinj : row.injected = true
  · simp [hinj] at h
  · cases hp : rowDateParts dateIdx row with
    | none => simp [hinj, hp] at h
    | some p =>
      obtain ⟨y, m, d⟩ := p
      simp only [hinj, hp, if_false] at h
      by_cases hc : String.mk (y ++ m ++ d) ∈ wds
      · have hc' : wds.contains (String.mk (y ++ m ++ d)) = true := by simpa using hc
        simp only [hc', Bool.not_true, Bool.false_eq_true, if_false, Option.some.injEq] at h
        subst h
        exact ⟨by simpa using hinj, rfl, hc⟩
      · have hc' : wds.contains (String.mk (y ++ m ++ d)) = false := by simpa using hc
        simp only [hc', Bool.not_false, if_true, if_false, reduceCtorEq] at h

theorem find_parsed (tz : ℤ) (inIdx outIdx dateIdx : Option ℕ) (wds : List String)
    (key : String) (hkey : key ∈ wds) (rows : List TableRow) :
    (rows.filterMap (parseRow tz inIdx outIdx dateIdx wds)).find? (fun d => d.dateKey == key) =
      (rows.find? fun r => !r.injected &&
        (rowDateParts dateIdx r).map (fun p => String.mk (p.1 ++ p.2.1 ++ p.2.2)) == some key).bind
        (parseRow tz inIdx outIdx dateIdx wds) := by
  induction rows with
  | nil => rfl
  | cons row rest ih =>
    by_cases hc : (!row.injected &&
        (rowDateParts dateIdx row).map (fun p => String.mk (p.1 ++ p.2.1 ++ p.2.2)) == some key)
        = true
    · obtain ⟨date, hrow⟩ := parseRow_of_contributes tz inIdx outIdx dateIdx wds key hkey row hc
      rw [List.filterMap_cons_some hrow]
      simp only [List.find?_cons, hc, Option.some_bind, hrow, beq_self_eq_true]
    · have hc' := (Bool.not_eq_true _).mp hc
      simp only [List.find?_cons, hc']
      rw [← ih]
      cases hrow : parseRow tz inIdx outIdx dateIdx wds row with
      | none => rw [List.filterMap_cons_none hrow]
      | some r =>
        rw [List.filterMap_cons_some hrow]
        obtain ⟨hinj, hk, -⟩ := parseRow_key tz inIdx outIdx dateIdx wds row r hrow
        have hne : (r.dateKey == key) = false := by
          rw [beq_eq_false_iff_ne]
          intro hr
          apply hc
          rw [hinj, hk, hr]
          simp
        simp only [List.find?_cons, hne]

/-- The record of a weekday: its key is the key of the weekday and its times
are those the specification names. -/
theorem weekday_record (tz : ℤ) (table : AttendanceTable) (wds : List String) (day : JSDate)
    (hkey : formatDateYYYYMMDD day ∈ wds) :
    ∃ date,
      (match (table.rows.filterMap
          (parseRow tz (findHeaderIndex table "입실") (findHeaderIndex table "퇴실")
            (findHeaderIndex table "근태일자") wds)).find?
          fun d => d.dateKey == formatDateYYYYMMDD day with
        | some d => d
        | none => { dateKey := formatDateYYYYMMDD day, date := day, startTime := .null,
                    endTime := .null, lastEventIsOut := none }) =
        ⟨formatDateYYYYMMDD day, date, (weekdayTimes table day).1, (weekdayTimes table day).2,
          none⟩ := by
  rw [find_parsed tz _ _ _ wds _ hkey]
  unfold weekdayTimes
  have e : (fun r : TableRow => !r.injected &&
      (rowDateParts (findHeaderIndex table "근태일자") r).map
        (fun p => String.mk (p.1 ++ p.2.1 ++ p.2.2)) == some (formatDateYYYYMMDD day)) =
      rowContributes table (formatDateYYYYMMDD day) := by
    funext r; rfl
  rw [e]
  cases hf : table.rows.find? (rowContributes table (formatDateYYYYMMDD day)) with
  | none => exact ⟨day, rfl⟩
  | some row =>
    have hc := List.find?_some hf
    obtain ⟨date, hrow⟩ := parseRow_of_contributes tz (findHeaderIndex table "입실")
      (findHeaderIndex table "퇴실") (findHeaderIndex table "근태일자") wds _ hkey row hc
    exact ⟨date, by rw [Option.some_bind, hrow]⟩

theorem filterMap_filter_of_none {α β : Type} (f : α → Option β) (keep : α → Bool)
    (h : ∀ a, keep a = false → f a = none) (l : List α) :
    (l.filter keep).filterMap f = l.filterMap f := by
  induction l with
  | nil => rfl
  | cons a t ih =>
    cases hk : keep a with
    | true =>
      rw [List.filter_cons_of_pos hk]
      cases hf : f a with
      | none => rw [List.filterMap_cons_none hf, List.filterMap_cons_none hf, ih]
      | some b => rw [List.filterMap_cons_some hf, List.filterMap_cons_some hf, ih]
    | false =>
      rw [List.filter_cons_of_neg (by simp [hk]), List.filterMap_cons_none (h a hk), ih]

theorem parseRow_none_of_not_inWeek (tz : ℤ) (table : AttendanceTable) (weekDays : List JSDate)
    (row : TableRow) (h : rowInWeek table weekDays row = false) :
    parseRow tz (findHeaderIndex table "입실") (findHeaderIndex table "퇴실")
      (findHeaderIndex table "근태일자") (weekDays.map formatDateYYYYMMDD) row = none := by
  cases hrow : parseRow tz (findHeaderIndex table "입실") (findHeaderIndex table "퇴실")
      (findHeaderIndex table "근태일자") (weekDays.map formatDateYYYYMMDD) row with
  | none => rfl
  | some r =>
    exfalso
    obtain ⟨hinj, hk, hmem⟩ := parseRow_key tz _ _ _ _ row r hrow
    have hc : (weekDays.map formatDateYYYYMMDD).contains r.dateKey = true := by simpa using hmem
    have : rowInWeek table weekDays row = true := by
      unfold rowInWeek rowDateKey
      rw [hinj, hk]
      simp only [Bool.not_false, Bool.true_and, Option.any_some]
      exact hc
    rw [h] at this
    exact Bool.false_ne_true this

theorem findHeaderIndex_rows (table : AttendanceTable) (rows : List TableRow) (label : String) :
    findHeaderIndex { table with rows := rows } label = findHeaderIndex table label := rfl

theorem cellTime_of_cell (idx : Option ℕ) (row : TableRow) (cell : String)
    (h : (idx.bind fun i => row.cells[i]?) = some cell) :
    cellTime idx row =
      if jsTrim cell = "" ∨ jsTrim cell = "-" then .null else extractHHMM (jsTrim cell) := by
  cases idx with
  | none => simp at h
  | some i =>
    simp only [Option.some_bind] at h
    simp only [cellTime, h]
    by_cases h1 : jsTrim cell = ""
    · simp [h1, JSStr.truthy]
    · by_cases h2 : jsTrim cell = "-"
      · simp [h2]
      · have ht : (JSStr.str (jsTrim cell)).truthy = true := truthy_of_ne_empty _ h1
        simp [h1, h2, ht]

theorem cellTime_of_no_cell (idx : Option ℕ) (row : TableRow)
    (h : (idx.bind fun i => row.cells[i]?) = none) : cellTime idx row = .null := by
  cases idx with
  | none => rfl
  | some i =>
    simp only [Option.some_bind] at h
    simp only [cellTime, h]

/-- C24: the function `parseWeeklyDataFromTable(table, weekDays)` returns
one record per target weekday, so five for five weekdays, with the keys of the
weekdays in their order.  The times of the record of a weekday are those of
the first row that does not carry the injected marker and whose extracted
8-digit date key is the key of that weekday, and both are absent without such
a row.  Rows that carry the marker or whose key is none of the weekday keys
never contribute: two tables with the same header whose remaining rows agree
give the same records.  A time is read from the cell of the mapped column
only: it is absent when the column is not mapped or the row has no such cell,
and when the trimmed text of the cell is empty or `-`; otherwise it is what
`extractHHMM` finds in that text. -/
theorem weekly_table_extraction (tzOffsetMs : ℤ) (table : AttendanceTable)
    (weekDays : List JSDate) :
    (parseWeeklyDataFromTable tzOffsetMs table weekDays).length = weekDays.length ∧
    (parseWeeklyDataFromTable tzOffsetMs table weekDays).map (fun r => r.dateKey) =
      weekDays.map formatDateYYYYMMDD ∧
    (parseWeeklyDataFromTable tzOffsetMs table weekDays).map (fun r => (r.startTime, r.endTime)) =
      weekDays.map (weekdayTimes table) ∧
    (∀ rows : List TableRow,
      rows.filter (rowInWeek table weekDays) = table.rows.filter (rowInWeek table weekDays) →
      parseWeeklyDataFromTable tzOffsetMs { table with rows := rows } weekDays =
        parseWeeklyDataFromTable tzOffsetMs table weekDays) ∧
    (∀ (idx : Option ℕ) (row : TableRow),
      (idx.bind fun i => row.cells[i]?) = none → cellTime idx row = .null) ∧
    (∀ (idx : Option ℕ) (row : TableRow) (cell : String),
      (idx.bind fun i => row.cells[i]?) = some cell →
      cellTime idx row =
        if jsTrim cell = "" ∨ jsTrim cell = "-" then .null else extractHHMM (jsTrim cell)) := by
  have hrec : ∀ day ∈ weekDays, ∃ date,
      (match (table.rows.filterMap
          (parseRow tzOffsetMs (findHeaderIndex table "입실") (findHeaderIndex table "퇴실")
            (findHeaderIndex table "근태일자") (weekDays.map formatDateYYYYMMDD))).find?
          fun d => d.dateKey == formatDateYYYYMMDD day with
        | some d => d
        | none => { dateKey := formatDateYYYYMMDD day, date := day, startTime := .null,
                    endTime := .null, lastEventIsOut := none }) =
        (⟨formatDateYYYYMMDD day, date, (weekdayTimes table day).1, (weekdayTimes table day).2,
          none⟩ : DayRecord) :=
    fun day hday => weekday_record tzOffsetMs table _ day (List.mem_map_of_mem _ hday)
  refine ⟨by simp [parseWeeklyDataFromTable], ?_, ?_, ?_, cellTime_of_no_cell, cellTime_of_cell⟩
  · simp only [parseWeeklyDataFromTable, List.map_map]
    refine List.map_congr_left fun day hday => ?_
    obtain ⟨date, h⟩ := hrec day hday
    simp only [Function.comp_apply, h]
  · simp only [parseWeeklyDataFromTable, List.map_map]
    refine List.map_congr_left fun day hday => ?_
    obtain ⟨date, h⟩ := hrec day hday
    simp only [Function.comp_apply, h]
  · intro rows hrows
    have hnone := parseRow_none_of_not_inWeek tzOffsetMs table weekDays
    have e : rows.filterMap
        (parseRow tzOffsetMs (findHeaderIndex table "입실") (findHeaderIndex table "퇴실")
          (findHeaderIndex table "근태일자") (weekDays.map formatDateYYYYMMDD)) =
        table.rows.filterMap
        (parseRow tzOffsetMs (findHeaderIndex table "입실") (findHeaderIndex table "퇴실")
          (findHeaderIndex table "근태일자") (weekDays.map formatDateYYYYMMDD)) := by
      rw [← filterMap_filter_of_none _ (rowInWeek table weekDays) hnone rows, hrows,
        filterMap_filter_of_none _ (rowInWeek table weekDays) hnone]
    simp only [parseWeeklyDataFromTable, findHeaderIndex_rows, e]

/-- Witness of C24: the sample attendance table and the week of the sample
date, nine hours ahead of UTC. -/
theorem weekly_table_extraction_witness :
    (parseWeeklyDataFromTable 32400000 sampleAttendance (getWeekDays sampleNow)).length = 5 ∧
    (parseWeeklyDataFromTable 32400000 sampleAttendance (getWeekDays sampleNow)).map
        (fun r => r.dateKey) =
      ["20250602", "20250603", "20250604", "20250605", "20250606"] ∧
    (parseWeeklyDataFromTable 32400000 sampleAttendance (getWeekDays sampleNow)).map
        (fun r => (r.startTime, r.endTime)) =
      [(.null, .null), (.str "08:58", .null), (.str "09:02", .str "18:31"), (.null, .null),
        (.null, .null)] ∧
    parseWeeklyDataFromTable 32400000
        ⟨sampleAttendance.headerCells,
          sampleAttendance.rows.filter (rowInWeek sampleAttendance (getWeekDays sampleNow))⟩
        (getWeekDays sampleNow) =
      parseWeeklyDataFromTable 32400000 sampleAttendance (getWeekDays sampleNow) ∧
    cellTime (some 3) ⟨false, ["1", "2025.06.03", "08:58", "-"], "1 2025.06.03 08:58 -"⟩ = .null ∧
    cellTime (some 4) ⟨false, ["1", "2025.06.03", "08:58", "-"], "1 2025.06.03 08:58 -"⟩ = .null ∧
    cellTime (some 2) ⟨false, ["2", "2025.06.04", "9:02", "18:31"], "2 2025.06.04 9:02 18:31"⟩ =
      .str "09:02" :=
  have h := weekly_table_extraction 32400000 sampleAttendance (getWeekDays sampleNow)
  ⟨h.1.trans (by decide), h.2.1.trans (by decide), h.2.2.1.trans (by decide),
    h.2.2.2.1 _ (by rw [List.filter_filter]; simp),
    (h.2.2.2.2.2 (some 3) _ "-" (by decide)).trans (by decide),
    h.2.2.2.2.1 (some 4) _ (by decide),
    (h.2.2.2.2.2 (some 2) _ "9:02" (by decide)).trans (by decide)⟩

end Tims
